import Mathlib

/-! # inventoryMPCI: room inventory, embedded records, dashboard statistics, activity log

A shallow embedding of the data-handling code of `src/inventory/js/roomManagement.js`.

Modelling conventions.

* A Firestore collection is the list of its documents, each a document key with its data.
  The operations take the collections they read or write as explicit arguments.
* A JavaScript array is a `List`; an object field that may be absent is an `Option`.
* A count is a `Nat`; a JavaScript Number holding an integer is an `Int`; a timestamp is its
  number of seconds. Equipment quantities are added with `numberAdd`, the addition of
  JavaScript Numbers, which is exact up to `2^53` and rounds above.
* The DOM work of each function (spinners, toasts, rendered HTML) is left out, except that
  the toast a record operation shows is kept as its `Toast` outcome.
* The body passed to `showConfirmation` is modelled as run, i.e. the user confirmed.
-/

namespace InventoryMPCI

/-! ## Data model -/

/-- A value stored in a room's `floor` field. `addRoom` stores the string of the floor select
box; other writers may store a number. The two are different keys of a JavaScript `Map`. -/
inductive FloorValue where
  | str (s : String)
  | num (n : Int)
  | undef
deriving DecidableEq, Repr

/-- A maintenance or replacement record, as built by `submitNeedsMaintenance` and
`submitNeedsReplacement`. `resolved` is `none` when the field is absent. -/
structure RecordEntry where
  equipmentName : String
  quantity : String
  status : String
  description : String
  createdAt : Nat
  resolved : Option Bool
  resolvedAt : Option Nat
  equipmentId : Option String
deriving DecidableEq, Repr

/-- The data of a room document, as written by `addRoom`. The two record arrays are `none`
when the field is absent from the document. -/
structure RoomData where
  id : String
  floor : FloorValue
  number : String
  name : String
  equipment : List String
  maintenance : Option (List RecordEntry)
  replacements : Option (List RecordEntry)
  lastModified : Nat
deriving DecidableEq, Repr

/-- A document of the `rooms` collection: `id` is the document key (`roomDoc.id`). -/
structure RoomDoc where
  id : String
  data : RoomData
deriving DecidableEq, Repr

/-- The data of an equipment document, as written by `addEquipment`. `quantity` is the result
of `parseInt`: `none` stands for a quantity that is absent or not a number. -/
structure EquipmentData where
  name : String
  quantity : Option Int
  condition : String
  status : String
  notes : String
  addedAt : Nat
  roomId : String
  floor : FloorValue
deriving DecidableEq, Repr

/-- A document of a subcollection `rooms/{parent}/equipment`. -/
structure EquipmentDoc where
  parent : String
  id : String
  data : EquipmentData
deriving DecidableEq, Repr

/-! ## JavaScript `Map`, insertion ordered -/

/-- The method `Map.prototype.get`. -/
def mapGet {K V : Type} [DecidableEq K] : List (K × V) → K → Option V
  | [], _ => none
  | (k', v') :: m, k => if k' = k then some v' else mapGet m k

/-- The method `Map.prototype.has`. -/
def mapHas {K V : Type} [DecidableEq K] (m : List (K × V)) (k : K) : Bool :=
  (mapGet m k).isSome

/-- The method `Map.prototype.set`: an existing key keeps its place, a new key goes last. -/
def mapSet {K V : Type} [DecidableEq K] : List (K × V) → K → V → List (K × V)
  | [], k, v => [(k, v)]
  | (k', v') :: m, k, v => if k' = k then (k, v) :: m else (k', v') :: mapSet m k v

/-! ## Dashboard statistics (`updateDashboardStats`) -/

/-- The per-room summary pushed on `floorStat.rooms`. -/
structure RoomSummary where
  id : String
  name : String
  equipment : Int
  maintenance : Nat
  replacement : Nat
deriving DecidableEq, Repr

/-- The value of a `floorStats` bucket. -/
structure FloorStat where
  totalRooms : Nat
  totalEquipment : Int
  needMaintenance : Nat
  needReplacement : Nat
  rooms : List RoomSummary
deriving DecidableEq, Repr

/-- The counters of `updateDashboardStats` and its `floorStats` map. -/
structure DashboardStats where
  totalRooms : Nat
  totalEquipment : Int
  needMaintenance : Nat
  needReplacement : Nat
  floorStats : List (FloorValue × FloorStat)
deriving DecidableEq, Repr

/-- The documents fetched by `getDocs` from the equipment subcollection of room `roomId`. -/
def equipmentSnapshot (equipment : List EquipmentDoc) (roomId : String) : List EquipmentDoc :=
  equipment.filter (fun e => e.parent = roomId)

/-- The expression `equipData.quantity || 0`: a falsy quantity (absent, not a number, or
zero) gives 0. -/
def quantityOrZero (q : Option Int) : Int :=
  match q with
  | some n => if n = 0 then 0 else n
  | none => 0

/-- The number of low bits a natural number sheds to fit the 53 bits of a double's
significand: the least `e` with `m / 2^e < 2^53`, searched with `fuel` halvings. -/
def excessBits : Nat → Nat → Nat
  | 0, _ => 0
  | fuel + 1, m => if m < 2 ^ 53 then 0 else excessBits fuel (m / 2) + 1

/-- The IEEE-754 double nearest to the natural number `m`: `m` itself below `2^53`; from
there on `m` rounded to 53 significant bits, a tie going to the even significand. -/
def roundToDouble (m : Nat) : Nat :=
  if m < 2 ^ 53 then m
  else
    let e := excessBits m m
    let q := m / 2 ^ e
    let r := m % 2 ^ e
    let half := 2 ^ (e - 1)
    if r < half then q * 2 ^ e
    else if half < r then (q + 1) * 2 ^ e
    else if q % 2 = 0 then q * 2 ^ e
    else (q + 1) * 2 ^ e

/-- The JavaScript Number nearest to the integer `n`. -/
def toNumber (n : Int) : Int :=
  if n < 0 then -(roundToDouble n.natAbs : Nat) else (roundToDouble n.natAbs : Nat)

/-- The JavaScript sum `a + b` of two Numbers holding integers: the exact sum rounded to the
nearest double, so `9007199254740992 + 1` is `9007199254740992`. Doubles are finite below
`2^1024`; `Infinity` is not modelled. -/
def numberAdd (a b : Int) : Int :=
  toNumber (a + b)

/-- The `equipmentSnapshot.forEach` loop: `roomEquipment` after the loop, each `+=` being an
addition of JavaScript Numbers. -/
def roomEquipment (equipment : List EquipmentDoc) (roomId : String) : Int :=
  (equipmentSnapshot equipment roomId).foldl
    (fun acc equipDoc =>
      if equipDoc.data.roomId = roomId then
        numberAdd acc (quantityOrZero equipDoc.data.quantity)
      else acc)
    0

/-- The filter condition `!m.resolved`. -/
def notResolved (m : RecordEntry) : Bool :=
  match m.resolved with
  | some true => false
  | _ => true

/-- The expression `records?.filter(m => !m.resolved)?.length || 0`. -/
def openCount (records : Option (List RecordEntry)) : Nat :=
  match records with
  | some l => (l.filter notResolved).length
  | none => 0

/-- The initial bucket set for a floor seen for the first time. -/
def emptyFloorStat : FloorStat :=
  { totalRooms := 0, totalEquipment := 0, needMaintenance := 0, needReplacement := 0, rooms := [] }

/-- The counters before the loop over the rooms. -/
def initialStats : DashboardStats :=
  { totalRooms := 0, totalEquipment := 0, needMaintenance := 0, needReplacement := 0,
    floorStats := [] }

/-- One iteration of `for (const roomDoc of roomsSnapshot.docs)`. The bucket object is
mutated in place in the source; here the mutated bucket is stored back under its key. The
counts grow by at most an array length and stay exact; the equipment figures are added as
JavaScript Numbers. -/
def processRoom (equipment : List EquipmentDoc) (s : DashboardStats) (roomDoc : RoomDoc) :
    DashboardStats :=
  let roomData := roomDoc.data
  let currentFloor := roomData.floor
  let floorStats :=
    if !mapHas s.floorStats currentFloor then mapSet s.floorStats currentFloor emptyFloorStat
    else s.floorStats
  let floorStat := (mapGet floorStats currentFloor).getD emptyFloorStat
  let eq := roomEquipment equipment roomDoc.id
  let roomMaintenance := openCount roomData.maintenance
  let roomReplacement := openCount roomData.replacements
  let floorStat : FloorStat :=
    { totalRooms := floorStat.totalRooms + 1
      totalEquipment := numberAdd floorStat.totalEquipment eq
      needMaintenance := floorStat.needMaintenance + roomMaintenance
      needReplacement := floorStat.needReplacement + roomReplacement
      rooms := floorStat.rooms ++
        [{ id := roomDoc.id, name := roomData.name, equipment := eq,
           maintenance := roomMaintenance, replacement := roomReplacement }] }
  { totalRooms := s.totalRooms + 1
    totalEquipment := numberAdd s.totalEquipment eq
    needMaintenance := s.needMaintenance + roomMaintenance
    needReplacement := s.needReplacement + roomReplacement
    floorStats := mapSet floorStats currentFloor floorStat }

/-- The statistics computed by `updateDashboardStats` from the `rooms` collection and the
equipment subcollections. -/
def updateDashboardStats (rooms : List RoomDoc) (equipment : List EquipmentDoc) :
    DashboardStats :=
  rooms.foldl (processRoom equipment) initialStats

/-- The bucket of a floor after one more of its rooms has been processed. -/
def addRoomToBucket (equipment : List EquipmentDoc) (b : FloorStat) (r : RoomDoc) : FloorStat :=
  { totalRooms := b.totalRooms + 1
    totalEquipment := numberAdd b.totalEquipment (roomEquipment equipment r.id)
    needMaintenance := b.needMaintenance + openCount r.data.maintenance
    needReplacement := b.needReplacement + openCount r.data.replacements
    rooms := b.rooms ++
      [{ id := r.id, name := r.data.name, equipment := roomEquipment equipment r.id,
         maintenance := openCount r.data.maintenance,
         replacement := openCount r.data.replacements }] }

/-! ### Sample data -/

/-- A room document with the given key, floor and record arrays. -/
def sampleRoom (id : String) (floor : FloorValue)
    (maintenance replacements : Option (List RecordEntry)) : RoomDoc :=
  { id := id
    data := { id := id, floor := floor, number := id, name := id, equipment := [],
              maintenance := maintenance, replacements := replacements, lastModified := 0 } }

/-- An equipment document stored under `parent` with the given owner field and quantity. -/
def sampleEquipment (parent id roomId : String) (quantity : Option Int) : EquipmentDoc :=
  { parent := parent, id := id
    data := { name := id, quantity := quantity, condition := "Good", status := "Available",
              notes := "", addedAt := 0, roomId := roomId, floor := FloorValue.num 1 } }

/-- A record with the given resolved flag. -/
def sampleRecord (name : String) (resolved : Option Bool) : RecordEntry :=
  { equipmentName := name, quantity := "1", status := "Broken", description := "",
    createdAt := 0, resolved := resolved, resolvedAt := none, equipmentId := none }

/-- The three rooms of the aggregation example: floors 1, 1, 2 with 1, 0, 2 open maintenance
records. -/
def sampleRooms : List RoomDoc :=
  [ sampleRoom "1-101" (FloorValue.num 1) (some [sampleRecord "fan" (some false)]) (some []),
    sampleRoom "1-102" (FloorValue.num 1) (some [sampleRecord "lamp" (some true)]) none,
    sampleRoom "2-201" (FloorValue.num 2)
      (some [sampleRecord "desk" none, sampleRecord "pc" (some true),
        sampleRecord "tv" (some false)])
      (some [sampleRecord "chair" (some false)]) ]

/-- Equipment of the three rooms: 3, 2 and 5 units. -/
def sampleEquipmentDocs : List EquipmentDoc :=
  [ sampleEquipment "1-101" "e1" "1-101" (some 2),
    sampleEquipment "1-101" "e2" "1-101" (some 1),
    sampleEquipment "1-102" "e3" "1-102" (some 2),
    sampleEquipment "1-102" "e4" "1-102" none,
    sampleEquipment "2-201" "e5" "2-201" (some 5),
    sampleEquipment "2-201" "e6" "1-101" (some 7) ]

/-! ### The aggregation in the words of the specification -/

/-- The sum of `quantity` over the entries of the room's equipment subcollection whose owning
room id is the room itself, a missing quantity counting as 0. -/
def ownedQuantity (equipment : List EquipmentDoc) (room : RoomDoc) : Int :=
  (((equipment.filter (fun e => e.parent = room.id)).filter
      (fun e => e.data.roomId = room.id)).map (fun e => e.data.quantity.getD 0)).sum

/-- The sum of the absolute values of the quantities `ownedQuantity` adds up. -/
def ownedMagnitude (equipment : List EquipmentDoc) (room : RoomDoc) : Nat :=
  (((equipment.filter (fun e => e.parent = room.id)).filter
      (fun e => e.data.roomId = room.id)).map (fun e => (e.data.quantity.getD 0).natAbs)).sum

/-- The quantities counted for the rooms add up, in absolute value, to less than `2^53`: every
sum of some of them is an integer a JavaScript Number holds exactly. -/
def QuantitiesExact (rooms : List RoomDoc) (equipment : List EquipmentDoc) : Prop :=
  (rooms.map (ownedMagnitude equipment)).sum < 2 ^ 53

/-- A room holding 9007199254740991, 1 and 1 units. -/
def largeQuantityRooms : List RoomDoc :=
  [ sampleRoom "1-101" (FloorValue.num 1) none none ]

/-- The equipment of the room of `largeQuantityRooms`. -/
def largeQuantityEquipmentDocs : List EquipmentDoc :=
  [ sampleEquipment "1-101" "e1" "1-101" (some 9007199254740991),
    sampleEquipment "1-101" "e2" "1-101" (some 1),
    sampleEquipment "1-101" "e3" "1-101" (some 1) ]

/-- A room on floor 1 and two rooms on floor 2. -/
def twoFloorRooms : List RoomDoc :=
  [ sampleRoom "1-101" (FloorValue.num 1) none none,
    sampleRoom "2-201" (FloorValue.num 2) none none,
    sampleRoom "2-202" (FloorValue.num 2) none none ]

/-- The equipment of `twoFloorRooms`: 9007199254740992 units on floor 1, 1 unit in each room
of floor 2. -/
def twoFloorEquipmentDocs : List EquipmentDoc :=
  [ sampleEquipment "1-101" "e1" "1-101" (some 9007199254740992),
    sampleEquipment "2-201" "e2" "2-201" (some 1),
    sampleEquipment "2-202" "e3" "2-202" (some 1) ]

/-- The number of entries of a record array whose `resolved` flag is falsy (absent or
`false`); 0 when the array is absent. -/
def unresolvedCount (records : Option (List RecordEntry)) : Nat :=
  (records.getD []).countP (fun m => decide (m.resolved = none ∨ m.resolved = some false))

/-- The rooms whose `floor` value is `k`. -/
def roomsOnFloor (rooms : List RoomDoc) (k : FloorValue) : List RoomDoc :=
  rooms.filter (fun r => decide (r.data.floor = k))

/-! ## Embedded records: resolve and delete -/

/-- A call `showToast(title, message)`. -/
structure Toast where
  title : String
  message : String
deriving DecidableEq, Repr

/-- What a record operation leaves behind: the `rooms` collection, the toast shown, and the
`logActivity(action, details)` call it issued, if any. -/
structure RecordResult where
  rooms : List RoomDoc
  toast : Toast
  logged : Option (String × String)
deriving DecidableEq, Repr

/-- The call `getDoc(doc(db, "rooms", roomId))`; `none` when `roomDoc.exists()` is false. -/
def getDoc (rooms : List RoomDoc) (roomId : String) : Option RoomDoc :=
  rooms.find? (fun d => decide (d.id = roomId))

/-- The call `updateDoc(roomRef, fields)`: the fields of the document `roomId` are replaced,
every other document is left alone. -/
def updateDoc (rooms : List RoomDoc) (roomId : String) (fields : RoomData → RoomData) :
    List RoomDoc :=
  rooms.map (fun d => if d.id = roomId then { d with data := fields d.data } else d)

/-- The property read `a[i]` for an integer `i`: `none` (undefined) outside the array. -/
def arrayGet {α : Type} (a : List α) (i : Int) : Option α :=
  if i < 0 then none else a.get? i.toNat

/-- The method `Array.prototype.splice(start, deleteCount)`: the array after the call. A
negative `start` counts from the end of the array. -/
def splice {α : Type} (a : List α) (start : Int) (deleteCount : Int) : List α :=
  let len : Int := a.length
  let actualStart : Int := if start < 0 then max (len + start) 0 else min start len
  let actualDeleteCount : Int := min (max deleteCount 0) (len - actualStart)
  a.take actualStart.toNat ++ a.drop (actualStart + actualDeleteCount).toNat

/-- The two assignments `record.resolved = true; record.resolvedAt = Timestamp.now()`. -/
def markResolved (record : RecordEntry) (now : Nat) : RecordEntry :=
  let record := { record with resolved := some true }
  { record with resolvedAt := some now }

/-- The confirmed body of `resolveMaintenanceRecord(roomId, recordIndex)`, run at time `now`.
Reading `maintenance[recordIndex]` outside the array gives `undefined`, the assignment then
throws and the `catch` shows the failure toast. -/
def resolveMaintenanceRecord (rooms : List RoomDoc) (roomId : String) (recordIndex : Int)
    (now : Nat) : RecordResult :=
  match getDoc rooms roomId with
  | none => { rooms := rooms, toast := ⟨"Error", "Room not found"⟩, logged := none }
  | some roomDoc =>
    let maintenance := roomDoc.data.maintenance.getD []
    if recordIndex ≥ (maintenance.length : Int) then
      { rooms := rooms, toast := ⟨"Error", "Invalid maintenance record index"⟩, logged := none }
    else
      match arrayGet maintenance recordIndex with
      | none =>
        { rooms := rooms, toast := ⟨"Error", "Failed to resolve maintenance record"⟩,
          logged := none }
      | some record =>
        let maintenance := maintenance.set recordIndex.toNat (markResolved record now)
        { rooms := updateDoc rooms roomId (fun d => { d with maintenance := some maintenance })
          toast := ⟨"Success", "Maintenance record marked as resolved"⟩
          logged := some ("resolve", "Resolved maintenance record in room " ++ roomId) }

/-- The confirmed body of `resolveReplacementRecord(roomId, recordIndex)`, run at time `now`. -/
def resolveReplacementRecord (rooms : List RoomDoc) (roomId : String) (recordIndex : Int)
    (now : Nat) : RecordResult :=
  match getDoc rooms roomId with
  | none => { rooms := rooms, toast := ⟨"Error", "Room not found"⟩, logged := none }
  | some roomDoc =>
    let replacements := roomDoc.data.replacements.getD []
    if recordIndex ≥ (replacements.length : Int) then
      { rooms := rooms, toast := ⟨"Error", "Invalid replacement record index"⟩, logged := none }
    else
      match arrayGet replacements recordIndex with
      | none =>
        { rooms := rooms, toast := ⟨"Error", "Failed to resolve replacement record"⟩,
          logged := none }
      | some record =>
        let replacements := replacements.set recordIndex.toNat (markResolved record now)
        { rooms := updateDoc rooms roomId (fun d => { d with replacements := some replacements })
          toast := ⟨"Success", "Replacement record marked as resolved"⟩
          logged := some ("resolve", "Resolved replacement record in room " ++ roomId) }

/-- The confirmed body of `deleteMaintenanceRecord(roomId, recordIndex)`. -/
def deleteMaintenanceRecord (rooms : List RoomDoc) (roomId : String) (recordIndex : Int) :
    RecordResult :=
  match getDoc rooms roomId with
  | none => { rooms := rooms, toast := ⟨"Error", "Room not found"⟩, logged := none }
  | some roomDoc =>
    let maintenance := roomDoc.data.maintenance.getD []
    if recordIndex ≥ (maintenance.length : Int) then
      { rooms := rooms, toast := ⟨"Error", "Invalid maintenance record index"⟩, logged := none }
    else
      let maintenance := splice maintenance recordIndex 1
      { rooms := updateDoc rooms roomId (fun d => { d with maintenance := some maintenance })
        toast := ⟨"Success", "Maintenance record deleted successfully"⟩
        logged := some ("delete", "Deleted maintenance record from room " ++ roomId) }

/-- The confirmed body of `deleteReplacementRecord(roomId, recordIndex)`. -/
def deleteReplacementRecord (rooms : List RoomDoc) (roomId : String) (recordIndex : Int) :
    RecordResult :=
  match getDoc rooms roomId with
  | none => { rooms := rooms, toast := ⟨"Error", "Room not found"⟩, logged := none }
  | some roomDoc =>
    let replacements := roomDoc.data.replacements.getD []
    if recordIndex ≥ (replacements.length : Int) then
      { rooms := rooms, toast := ⟨"Error", "Invalid replacement record index"⟩, logged := none }
    else
      let replacements := splice replacements recordIndex 1
      { rooms := updateDoc rooms roomId (fun d => { d with replacements := some replacements })
        toast := ⟨"Success", "Replacement record deleted successfully"⟩
        logged := some ("delete", "Deleted replacement record from room " ++ roomId) }

/-- The `maintenance` array stored for `roomId`, empty when the room or the field is absent. -/
def maintenanceOf (rooms : List RoomDoc) (roomId : String) : List RecordEntry :=
  match getDoc rooms roomId with
  | some d => d.data.maintenance.getD []
  | none => []

/-- The `replacements` array stored for `roomId`, empty when the room or the field is absent. -/
def replacementsOf (rooms : List RoomDoc) (roomId : String) : List RecordEntry :=
  match getDoc rooms roomId with
  | some d => d.data.replacements.getD []
  | none => []

/-- A room whose `maintenance` and `replacements` arrays have two elements each. -/
def twoRecordRooms : List RoomDoc :=
  [ sampleRoom "1-101" (FloorValue.str "1") none none,
    sampleRoom "3-301" (FloorValue.str "3")
      (some [sampleRecord "fan" (some false), sampleRecord "lamp" (some true)])
      (some [sampleRecord "desk" (some false), sampleRecord "chair" none]) ]

/-! ### The record operations in the words of the specification -/

/-- Array `a'` is `a` with the element at position `n` resolved at time `now`: same length,
the element at `n` has `resolved = true` and `resolvedAt = now` and its other fields as
before, and every other position holds the element it held. -/
def resolvedAtIndex (a a' : List RecordEntry) (n now : Nat) : Prop :=
  a'.length = a.length ∧
  (∃ r r', a.get? n = some r ∧ a'.get? n = some r' ∧
    r'.resolved = some true ∧ r'.resolvedAt = some now ∧
    r'.equipmentName = r.equipmentName ∧ r'.quantity = r.quantity ∧ r'.status = r.status ∧
    r'.description = r.description ∧ r'.createdAt = r.createdAt ∧
    r'.equipmentId = r.equipmentId) ∧
  ∀ j, j ≠ n → a'.get? j = a.get? j

/-- Array `a'` is `a` with the element at position `n` removed: one element shorter, the
positions below `n` as before, and each position `j ≥ n` holding the element formerly at
`j + 1`. -/
def removedAtIndex (a a' : List RecordEntry) (n : Nat) : Prop :=
  a'.length + 1 = a.length ∧
  (∀ j, j < n → a'.get? j = a.get? j) ∧
  ∀ j, n ≤ j → a'.get? j = a.get? (j + 1)

/-! ## Activity log query (`loadActivityLogs`) -/

/-- The data of an `activityLogs` document, as written by `logActivity`. A field read with
`?.` in the query is `none` when absent; `timestamp` holds `timestamp.seconds` and is `none`
while the server timestamp is missing. -/
structure LogData where
  userId : String
  userName : Option String
  email : Option String
  role : Option String
  action : Option String
  details : Option String
  type : String
  references : List (String × String)
  timestamp : Option Int
  deviceInfo : String × String
deriving DecidableEq, Repr

/-- A document of the `activityLogs` collection; also an element of the `logs` array, which
holds the document key together with the document data. -/
structure LogDoc where
  id : String
  data : LogData
deriving DecidableEq, Repr

/-- The method `String.prototype.includes`, on the characters of the two strings. -/
def includes (s searchString : String) : Bool :=
  decide (searchString.data <:+: s.data)

/-- The constant `matchesType`; `toLowerCase` is the JavaScript case mapping. -/
def matchesType (toLowerCase : String → String) (typeFilterValue : String) (log : LogData) :
    Bool :=
  typeFilterValue = "" || typeFilterValue = "all" ||
    (match log.action with
     | some action => toLowerCase action = toLowerCase typeFilterValue
     | none => false)

/-- The constant `matchesRole`. -/
def matchesRole (toLowerCase : String → String) (roleFilterValue : String) (log : LogData) :
    Bool :=
  roleFilterValue = "" || roleFilterValue = "all" ||
    (match log.role with
     | some role => toLowerCase role = toLowerCase roleFilterValue
     | none => false)

/-- One disjunct `field?.toLowerCase().includes(searchTextValue)`, read as a condition. -/
def fieldIncludes (toLowerCase : String → String) (field : Option String)
    (searchTextValue : String) : Bool :=
  match field with
  | some s => includes (toLowerCase s) searchTextValue
  | none => false

/-- The constant `matchesSearch`, read as a condition; `searchTextValue` is already lower-cased. -/
def matchesSearch (toLowerCase : String → String) (searchTextValue : String) (log : LogData) :
    Bool :=
  searchTextValue = "" ||
    fieldIncludes toLowerCase log.details searchTextValue ||
    fieldIncludes toLowerCase log.userName searchTextValue ||
    fieldIncludes toLowerCase log.email searchTextValue

/-- The comparator `(a, b) => b.timestamp?.seconds - a.timestamp?.seconds`; `none` is `NaN`. -/
def compareLogs (a b : LogDoc) : Option Int :=
  match b.data.timestamp, a.data.timestamp with
  | some x, some y => some (x - y)
  | _, _ => none

/-- The order `Array.prototype.sort` sorts by: `a` may stay before `b` unless the comparator
is positive, a `NaN` result counting as 0. -/
def sortsBefore (a b : LogDoc) : Bool :=
  match compareLogs a b with
  | some v => decide (v ≤ 0)
  | none => true

/-- The call `logs.sort(comparator)`: a stable sort, here by insertion. When some timestamp is
missing the comparator is not consistent and JavaScript leaves the order to the engine; the
result is a permutation of the array in every case. -/
def sortLogs (logs : List LogDoc) : List LogDoc :=
  logs.insertionSort (fun a b => sortsBefore a b = true)

/-- The `logs` array that `loadActivityLogs` renders, from the fetched documents and the
values of the three filter inputs. -/
def loadActivityLogs (toLowerCase : String → String)
    (typeFilterValue roleFilterValue searchText : String) (docs : List LogDoc) : List LogDoc :=
  if docs.isEmpty then []
  else
    let searchTextValue := toLowerCase searchText
    let logs := docs.foldl
      (fun logs doc =>
        let log := doc.data
        if matchesType toLowerCase typeFilterValue log
            && matchesRole toLowerCase roleFilterValue log
            && matchesSearch toLowerCase searchTextValue log then
          logs ++ [{ id := doc.id, data := log }]
        else logs)
      []
    sortLogs logs

/-- The condition of the `if` in the loop of `loadActivityLogs`. -/
def keepsLog (toLowerCase : String → String) (typeFilterValue roleFilterValue
    searchTextValue : String) (doc : LogDoc) : Bool :=
  matchesType toLowerCase typeFilterValue doc.data
    && matchesRole toLowerCase roleFilterValue doc.data
    && matchesSearch toLowerCase searchTextValue doc.data

/-- The filter conjunction in the words of the specification: the type filter is empty or
`all` or equals the action tag ignoring case, the role filter is empty or `all` or equals the
role ignoring case, and the search text is empty or is, ignoring case, a substring of the
details, the user name or the email. -/
def passesFilters (toLowerCase : String → String) (typeFilter roleFilter searchText : String)
    (e : LogDoc) : Prop :=
  (typeFilter = "" ∨ typeFilter = "all" ∨
      ∃ a, e.data.action = some a ∧ toLowerCase a = toLowerCase typeFilter) ∧
  (roleFilter = "" ∨ roleFilter = "all" ∨
      ∃ r, e.data.role = some r ∧ toLowerCase r = toLowerCase roleFilter) ∧
  (searchText = "" ∨
      ∃ s, (e.data.details = some s ∨ e.data.userName = some s ∨ e.data.email = some s) ∧
        (toLowerCase searchText).data <:+: (toLowerCase s).data)

/-- Entry `a` is at least as new as entry `b`: both have a timestamp and the seconds of `b`
do not exceed those of `a`. -/
def newerOrEqual (a b : LogDoc) : Prop :=
  ∃ x y, a.data.timestamp = some x ∧ b.data.timestamp = some y ∧ y ≤ x

/-- A case mapping for examples: ASCII letters to lower case, all else unchanged. -/
def asciiLower (s : String) : String :=
  String.mk (s.data.map Char.toLower)

/-- A log entry with the given key, action, role and timestamp. -/
def sampleLog (id action role : String) (timestamp : Option Int) : LogDoc :=
  { id := id
    data := { userId := "u", userName := some "Ana", email := some "ana@mcpi.edu.ph",
              role := some role, action := some action, details := some "Edited room 101",
              type := "general", references := [], timestamp := timestamp,
              deviceInfo := ("", "") } }

/-- Log entries with action tags add, delete, update and roles admin, faculty. -/
def sampleLogs : List LogDoc :=
  [ sampleLog "l1" "add" "admin" (some 10),
    sampleLog "l2" "delete" "admin" (some 30),
    sampleLog "l3" "update" "faculty" (some 20),
    sampleLog "l4" "Delete" "faculty" (some 40),
    sampleLog "l5" "add" "faculty" (some 50) ]

/-! ## Embedded records: append (`submitNeedsMaintenance`, `submitNeedsReplacement`) -/

/-- The values read from the fields of the report form. `equipmentId` is
`dataset.equipmentId` of the name field, `none` when the attribute is absent. -/
structure RecordForm where
  equipmentName : String
  quantity : String
  status : String
  description : String
  equipmentId : Option String
deriving DecidableEq, Repr

/-- The expression `dataset.equipmentId || null`: an absent or empty id gives `null`. -/
def equipmentIdOrNull (equipmentId : Option String) : Option String :=
  match equipmentId with
  | some s => if s = "" then none else some s
  | none => none

/-- The object literal `maintenanceData` / `replacementData` built from the form at time
`now`; it has no `resolvedAt` field. -/
def recordOfForm (form : RecordForm) (now : Nat) : RecordEntry :=
  { equipmentName := form.equipmentName
    quantity := form.quantity
    status := form.status
    description := form.description
    createdAt := now
    resolved := some false
    resolvedAt := none
    equipmentId := equipmentIdOrNull form.equipmentId }

/-- The function `submitNeedsMaintenance(roomId)`, with the form filled as `form` and run at
time `now`. A missing room throws inside the `try` and the `catch` shows the failure toast.
The modal and the form are taken to be on the page, so the steps after the write do not
throw. -/
def submitNeedsMaintenance (rooms : List RoomDoc) (roomId : String) (form : RecordForm)
    (now : Nat) : RecordResult :=
  match getDoc rooms roomId with
  | none =>
    { rooms := rooms, toast := ⟨"Error", "Failed to record maintenance need"⟩, logged := none }
  | some roomDoc =>
    let maintenanceData := recordOfForm form now
    let currentData := roomDoc.data
    let maintenance := currentData.maintenance.getD []
    let maintenance := maintenance ++ [maintenanceData]
    { rooms := updateDoc rooms roomId (fun d => { d with maintenance := some maintenance })
      toast := ⟨"Success", "Maintenance need recorded successfully"⟩
      logged := some ("Added Maintenance Need",
        "Added maintenance need for " ++ maintenanceData.equipmentName ++ " in room " ++ roomId) }

/-- The function `submitNeedsReplacement(roomId)`, with the form filled as `form` and run at
time `now`. -/
def submitNeedsReplacement (rooms : List RoomDoc) (roomId : String) (form : RecordForm)
    (now : Nat) : RecordResult :=
  match getDoc rooms roomId with
  | none =>
    { rooms := rooms, toast := ⟨"Error", "Failed to record replacement need"⟩, logged := none }
  | some roomDoc =>
    let replacementData := recordOfForm form now
    let currentData := roomDoc.data
    let replacements := currentData.replacements.getD []
    let replacements := replacements ++ [replacementData]
    { rooms := updateDoc rooms roomId (fun d => { d with replacements := some replacements })
      toast := ⟨"Success", "Replacement need recorded successfully"⟩
      logged := some ("Added Replacement Need",
        "Added replacement need for " ++ replacementData.equipmentName ++ " in room " ++ roomId) }

/-- A filled report form for the examples. -/
def sampleForm (name : String) : RecordForm :=
  { equipmentName := name, quantity := "1", status := "Broken", description := "",
    equipmentId := none }

/-! ### Sequences of record operations -/

/-- One operation of a session on the `maintenance` array of a room: a report with the form
as filled, a resolve or a delete at the position the list view rendered. -/
inductive RecordOp where
  | append (form : RecordForm) (now : Nat)
  | resolve (index : Nat) (now : Nat)
  | remove (index : Nat)
deriving DecidableEq, Repr

/-- The function the operation calls, on the room `roomId`. -/
def runRecordOp (roomId : String) (rooms : List RoomDoc) : RecordOp → RecordResult
  | RecordOp.append form now => submitNeedsMaintenance rooms roomId form now
  | RecordOp.resolve index now => resolveMaintenanceRecord rooms roomId (index : Int) now
  | RecordOp.remove index => deleteMaintenanceRecord rooms roomId (index : Int)

/-- The operation took effect: it ended with the success toast. -/
def tookEffect (result : RecordResult) : Bool :=
  decide (result.toast.title = "Success")

/-- A session so far: the `rooms` collection, and the bookkeeping of the specification. Each
record is named by the ordinal of the append that created it; `ids` names the record at each
position of the array, `appendedRecords` holds the record each append created, `resolvedIds`
the records on which a resolve took effect, `appended` and `removed` count the appends and
removals that took effect. -/
structure RecordTrace where
  rooms : List RoomDoc
  appended : Nat
  removed : Nat
  ids : List Nat
  appendedRecords : List RecordEntry
  resolvedIds : List Nat
deriving Repr

/-- The session before any operation. -/
def initialTrace (rooms : List RoomDoc) : RecordTrace :=
  { rooms := rooms, appended := 0, removed := 0, ids := [], appendedRecords := [],
    resolvedIds := [] }

/-- One operation of the session: the code runs on the `rooms` collection, and when the
operation took effect the bookkeeping follows the specification: an append names a new last
record, a resolve notes the record at the position, a removal drops the name at the position
and shifts the later ones down. -/
def traceStep (roomId : String) (t : RecordTrace) (op : RecordOp) : RecordTrace :=
  let result := runRecordOp roomId t.rooms op
  if tookEffect result then
    match op with
    | RecordOp.append form now =>
      { rooms := result.rooms, appended := t.appended + 1, removed := t.removed,
        ids := t.ids ++ [t.appended],
        appendedRecords := t.appendedRecords ++ [recordOfForm form now],
        resolvedIds := t.resolvedIds }
    | RecordOp.resolve index _ =>
      { rooms := result.rooms, appended := t.appended, removed := t.removed, ids := t.ids,
        appendedRecords := t.appendedRecords,
        resolvedIds := (t.ids.get? index).toList ++ t.resolvedIds }
    | RecordOp.remove index =>
      { rooms := result.rooms, appended := t.appended, removed := t.removed + 1,
        ids := t.ids.eraseIdx index, appendedRecords := t.appendedRecords,
        resolvedIds := t.resolvedIds }
  else
    { rooms := result.rooms, appended := t.appended, removed := t.removed, ids := t.ids,
      appendedRecords := t.appendedRecords, resolvedIds := t.resolvedIds }

/-- The session after the operations `ops`, in order. -/
def runTrace (roomId : String) (rooms : List RoomDoc) (ops : List RecordOp) : RecordTrace :=
  ops.foldl (traceStep roomId) (initialTrace rooms)

/-- The fields of a record that no operation changes after the append. -/
def recordContent (r : RecordEntry) :
    String × String × String × String × Nat × Option String :=
  (r.equipmentName, r.quantity, r.status, r.description, r.createdAt, r.equipmentId)

/-- The bookkeeping of a session agrees with the array `a`: the counts give its length, the
names are distinct and were handed out by appends, the `resolved` flag of each record says
whether a resolve took effect on it, and each record has the content it was appended
with. -/
def RecordsInv (a : List RecordEntry) (t : RecordTrace) : Prop :=
  a.length + t.removed = t.appended ∧
  t.appendedRecords.length = t.appended ∧
  t.ids.Nodup ∧
  (∀ id ∈ t.ids, id < t.appended) ∧
  (∀ id ∈ t.resolvedIds, id < t.appended) ∧
  a.map (fun r => r.resolved) = t.ids.map (fun id => some (decide (id ∈ t.resolvedIds))) ∧
  a.map (fun r => some (recordContent r)) =
    t.ids.map (fun id => (t.appendedRecords.get? id).map recordContent)

/-- A session on room `3-301`, starting from empty arrays. -/
def emptyRecordRooms : List RoomDoc :=
  [ sampleRoom "3-301" (FloorValue.str "3") (some []) none ]

/-- Three reports, a resolve of the second, a removal of the first, a stale removal. -/
def sampleOps : List RecordOp :=
  [ RecordOp.append (sampleForm "fan") 1, RecordOp.append (sampleForm "lamp") 2,
    RecordOp.append (sampleForm "desk") 3, RecordOp.resolve 1 4, RecordOp.remove 0,
    RecordOp.remove 7 ]

/-! ## Dashboard statistics: display order of the floors -/

/-- The characters `parseInt` skips at the start of a string: the white space and line
terminator characters of JavaScript. -/
def isStrWhiteSpaceChar (c : Char) : Bool :=
  let n := c.toNat
  n = 0x09 || n = 0x0A || n = 0x0B || n = 0x0C || n = 0x0D || n = 0x20 || n = 0xA0 ||
    n = 0x1680 || (0x2000 ≤ n && n ≤ 0x200A) || n = 0x2028 || n = 0x2029 || n = 0x202F ||
    n = 0x205F || n = 0x3000 || n = 0xFEFF

/-- The value of a character as a digit of the given radix (10 or 16), if it is one. -/
def digitValue (radix : Nat) (c : Char) : Option Nat :=
  let n := c.toNat
  if 48 ≤ n ∧ n ≤ 57 then some (n - 48)
  else if radix = 16 ∧ 97 ≤ n ∧ n ≤ 102 then some (n - 87)
  else if radix = 16 ∧ 65 ≤ n ∧ n ≤ 70 then some (n - 55)
  else none

/-- The digits of the longest prefix of `cs` made of digits of the radix. -/
def leadingDigits (radix : Nat) : List Char → List Nat
  | [] => []
  | c :: cs =>
    match digitValue radix c with
    | some v => v :: leadingDigits radix cs
    | none => []

/-- The number written by the digits, most significant first. -/
def digitsValue (radix : Nat) (digits : List Nat) : Nat :=
  digits.foldl (fun acc v => acc * radix + v) 0

/-- The function `parseInt(string)` without a radix argument: leading white space is skipped,
a sign is read, a prefix `0x` or `0X` selects radix 16, and the longest prefix of digits is
the value; `none` is `NaN` (no digit). The value is the integer as written, which is what
JavaScript returns below 2^53. -/
def parseIntString (s : String) : Option Int :=
  let cs := s.data.dropWhile isStrWhiteSpaceChar
  let negative := cs.head? = some '-'
  let cs := if cs.head? = some '-' ∨ cs.head? = some '+' then cs.drop 1 else cs
  let hex := cs.take 2 = ['0', 'x'] ∨ cs.take 2 = ['0', 'X']
  let radix := if hex then 16 else 10
  let cs := if hex then cs.drop 2 else cs
  let digits := leadingDigits radix cs
  if digits = [] then none
  else if negative then some (-(digitsValue radix digits : Int))
  else some (digitsValue radix digits : Int)

/-- The call `parseInt(floor)` on a floor value. A number is first turned into its decimal
string, which reads back as the number itself (numbers of 22 digits or more, printed with an
exponent, are outside the model); `undefined` gives `NaN`, which is `none`. -/
def parseInt : FloorValue → Option Int
  | FloorValue.str s => parseIntString s
  | FloorValue.num n => some n
  | FloorValue.undef => none

/-- The floor value parses as an integer in the range where JavaScript numbers are exact. -/
def parsesAsInteger (k : FloorValue) : Prop :=
  ∃ x, parseInt k = some x ∧ x.natAbs < 2 ^ 53

/-- The comparator `(a, b) => parseInt(a) - parseInt(b)`; `none` is `NaN`. -/
def compareFloors (a b : FloorValue) : Option Int :=
  match parseInt a, parseInt b with
  | some x, some y => some (x - y)
  | _, _ => none

/-- The order the sort of the floor keys sorts by: `a` may stay before `b` unless the
comparator is positive, a `NaN` result counting as 0. -/
def floorSortsBefore (a b : FloorValue) : Bool :=
  match compareFloors a b with
  | some v => decide (v ≤ 0)
  | none => true

/-- The array `sortedFloors`: the keys of `floorStats` in insertion order, sorted with the
comparator by a stable sort (here by insertion). -/
def sortedFloors (stats : DashboardStats) : List FloorValue :=
  (stats.floorStats.map Prod.fst).insertionSort (fun a b => floorSortsBefore a b = true)

/-- Floor `a` is not above floor `b`: both parse as integers and the value of `a` does not
exceed that of `b`. -/
def floorNotAbove (a b : FloorValue) : Prop :=
  ∃ x y, parseInt a = some x ∧ parseInt b = some y ∧ x ≤ y

/-- Rooms on the floors `10`, `2` and `1`, stored as strings as `addRoom` does. -/
def stringFloorRooms : List RoomDoc :=
  [ sampleRoom "10-1" (FloorValue.str "10") none none,
    sampleRoom "2-1" (FloorValue.str "2") none none,
    sampleRoom "1-1" (FloorValue.str "1") none none,
    sampleRoom "2-2" (FloorValue.str "2") none none ]

/-! ## Activity log: appending an entry (`logActivity`) -/

/-- The signed-in user `auth.currentUser`, with the fields `logActivity` reads. -/
structure AuthUser where
  uid : String
  displayName : Option String
  email : Option String
deriving DecidableEq, Repr

/-- The data of a profile document of the `users` collection, with the fields `logActivity`
reads. -/
structure UserData where
  username : Option String
  role : Option String
deriving DecidableEq, Repr

/-- A document of the `users` collection, keyed by the user id. -/
structure UserDoc where
  id : String
  data : UserData
deriving DecidableEq, Repr

/-- The second argument of `logActivity`, in the two shapes its callers pass: a plain string,
or an object with `details` and possibly `type` and `references`. -/
inductive LogPayload where
  | text (details : String)
  | object (details : String) (type : Option String)
      (references : Option (List (String × String)))
deriving DecidableEq, Repr

/-- What a call of `logActivity` leaves behind: the `activityLogs` collection and the console
warning, if any. The whole body sits in a `try` whose `catch` only logs, so the call never
throws. -/
structure LogResult where
  activityLogs : List LogDoc
  warning : Option String
deriving DecidableEq, Repr

/-- The expression `a || b` on strings that may be absent: `a` when it is a non-empty
string, else `b`. -/
def orElse (a b : Option String) : Option String :=
  match a with
  | some s => if s = "" then b else some s
  | none => b

/-- The profile data `userDoc.data()` of the user `uid`, `none` when there is no profile. -/
def userDataOf (users : List UserDoc) (uid : String) : Option UserData :=
  (users.find? (fun d => decide (d.id = uid))).map (fun d => d.data)

/-- The field `details` of the entry: `typeof data === 'string' ? data : data.details`. -/
def payloadDetails : LogPayload → String
  | LogPayload.text details => details
  | LogPayload.object details _ _ => details

/-- The field `type` of the entry: `data.type || 'general'`; a string has no `type`. -/
def payloadType : LogPayload → String
  | LogPayload.text _ => "general"
  | LogPayload.object _ type _ => (orElse type (some "general")).getD "general"

/-- The field `references` of the entry: `data.references || {}`; a string has none. -/
def payloadReferences : LogPayload → List (String × String)
  | LogPayload.text _ => []
  | LogPayload.object _ _ references => references.getD []

/-- The function `logActivity(action, data)`. `currentUser` is `auth.currentUser`, `newId`
the key `addDoc` generates, `serverTime` the time the server assigns to `timestamp`,
`deviceInfo` the user agent and platform of the browser. -/
def logActivity (currentUser : Option AuthUser) (users : List UserDoc)
    (activityLogs : List LogDoc) (action : String) (data : LogPayload) (newId : String)
    (serverTime : Int) (deviceInfo : String × String) : LogResult :=
  match currentUser with
  | none =>
    { activityLogs := activityLogs
      warning := some "Cannot log activity: User not authenticated" }
  | some currentUser =>
    let userData := userDataOf users currentUser.uid
    let activityLog : LogData :=
      { userId := currentUser.uid
        userName := orElse (orElse (userData.bind (fun d => d.username)) currentUser.displayName)
          currentUser.email
        email := currentUser.email
        role := orElse (userData.bind (fun d => d.role)) (some "")
        action := some action
        details := some (payloadDetails data)
        type := payloadType data
        references := payloadReferences data
        timestamp := some serverTime
        deviceInfo := deviceInfo }
    { activityLogs := activityLogs ++ [{ id := newId, data := activityLog }]
      warning := none }

/-- Profiles for the examples: `u1` has a username and a role, `u2` an empty username and no
role. -/
def sampleUsers : List UserDoc :=
  [ { id := "u1", data := { username := some "ana", role := some "admin" } },
    { id := "u2", data := { username := some "", role := none } } ]

/-! ## Floors and rooms: `addFloor`, `removeFloor`, `addRoom` -/

/-- The data of a floor document, as written by `addFloor`. `number` is the result of
`parseInt`, `none` when it is `NaN`. -/
structure FloorData where
  number : Option Int
  name : String
  createdAt : Nat
deriving DecidableEq, Repr

/-- A document of the `floors` collection. -/
structure FloorDoc where
  id : String
  data : FloorData
deriving DecidableEq, Repr

/-- What a floor operation leaves behind: the `floors` collection and the toast shown, if
any, as the call `showToast(first, second)`. -/
structure FloorsResult where
  floors : List FloorDoc
  toast : Option Toast
deriving DecidableEq, Repr

/-- What `addRoom` leaves behind: the `rooms` collection and the toast shown, as the call
`showToast(first, second)`. -/
structure RoomsResult where
  rooms : List RoomDoc
  toast : Toast
deriving DecidableEq, Repr

/-- The method `Number.prototype.toString` on an integer, or on `NaN` (`none`): the decimal
string. -/
def numberToString (n : Option Int) : String :=
  match n with
  | some n => toString n
  | none => "NaN"

/-- The call `setDoc(doc(db, "floors", floorId), data)`: the document is created, or replaced
when the key exists. -/
def setFloorDoc (floors : List FloorDoc) (floorId : String) (data : FloorData) :
    List FloorDoc :=
  if floors.any (fun f => decide (f.id = floorId)) then
    floors.map (fun f => if f.id = floorId then { id := floorId, data := data } else f)
  else floors ++ [{ id := floorId, data := data }]

/-- The function `addFloor`, with the form fields `floorNumber` and `floorName` as entered.
An empty key is not a document path: `doc` throws and the `catch` shows the failure
toast. -/
def addFloor (floors : List FloorDoc) (floorNumber floorName : String) (serverTime : Nat) :
    FloorsResult :=
  let floorId := floorNumber
  if floorId = "" then
    { floors := floors, toast := some ⟨"Error adding floor. Please try again.", "error"⟩ }
  else
    { floors := setFloorDoc floors floorId
        { number := parseIntString floorNumber, name := floorName, createdAt := serverTime }
      toast := some ⟨"Floor added successfully!", "success"⟩ }

/-- The query `where('floor', '==', floorNumber.toString())` on the `rooms` collection: the
rooms whose `floor` field is that string. -/
def roomsOfFloorNumber (rooms : List RoomDoc) (floorNumber : Option Int) : List RoomDoc :=
  rooms.filter (fun d => decide (d.data.floor = FloorValue.str (numberToString floorNumber)))

/-- The function `removeFloor(floorId, floorNumber)`; `confirmed` says whether the user
confirmed the dialog. -/
def removeFloor (rooms : List RoomDoc) (floors : List FloorDoc) (floorId : String)
    (floorNumber : Option Int) (confirmed : Bool) : FloorsResult :=
  let roomsSnapshot := roomsOfFloorNumber rooms floorNumber
  if !roomsSnapshot.isEmpty then
    { floors := floors
      toast := some ⟨"Cannot delete floor that has rooms. Please delete all rooms first.",
        "error"⟩ }
  else if confirmed then
    { floors := floors.filter (fun f => decide (f.id ≠ floorId))
      toast := some ⟨"Floor deleted successfully", "success"⟩ }
  else { floors := floors, toast := none }

/-- The query of `addRoom`: the rooms whose `floor` field is the string `floor` and whose
`number` field is `roomNumber`. -/
def existingRooms (rooms : List RoomDoc) (floor roomNumber : String) : List RoomDoc :=
  rooms.filter (fun d =>
    decide (d.data.floor = FloorValue.str floor) && decide (d.data.number = roomNumber))

/-- The call `setDoc(doc(db, "rooms", roomId), data)`: the document is created, or replaced
when the key exists. Keys with a slash, which name another path, are outside the model. -/
def setDoc (rooms : List RoomDoc) (roomId : String) (data : RoomData) : List RoomDoc :=
  match getDoc rooms roomId with
  | some _ => rooms.map (fun d => if d.id = roomId then { id := roomId, data := data } else d)
  | none => rooms ++ [{ id := roomId, data := data }]

/-- The function `addRoom`, with the form fields `floor`, `roomNumber` and `roomName` as
entered. -/
def addRoom (rooms : List RoomDoc) (floor roomNumber roomName : String) (serverTime : Nat) :
    RoomsResult :=
  if floor = "" then { rooms := rooms, toast := ⟨"Please select a floor", "error"⟩ }
  else
    let existingRoomsSnapshot := existingRooms rooms floor roomNumber
    if !existingRoomsSnapshot.isEmpty then
      { rooms := rooms
        toast := ⟨"A room with this number already exists on this floor!", "error"⟩ }
    else
      let roomId := floor ++ "-" ++ roomNumber
      { rooms := setDoc rooms roomId
          { id := roomId, floor := FloorValue.str floor, number := roomNumber,
            name := roomName, equipment := [], maintenance := some [],
            replacements := some [], lastModified := serverTime }
        toast := ⟨"Room added successfully!", "success"⟩ }

/-- One submission of the add-room form: floor, room number, room name, server time. -/
structure AddRoomCall where
  floor : String
  roomNumber : String
  roomName : String
  serverTime : Nat
deriving DecidableEq, Repr

/-- The `rooms` collection after the submissions `calls`, in order, starting from `rooms`. -/
def addRooms (rooms : List RoomDoc) (calls : List AddRoomCall) : List RoomDoc :=
  calls.foldl (fun rooms c => (addRoom rooms c.floor c.roomNumber c.roomName c.serverTime).rooms)
    rooms

/-- Every room document is keyed by the floor and number it stores: its `floor` is a string
and its key is that string, a hyphen and its `number`. -/
def KeyedByFloorAndNumber (rooms : List RoomDoc) : Prop :=
  ∀ d ∈ rooms, ∃ f, d.data.floor = FloorValue.str f ∧ d.id = f ++ "-" ++ d.data.number

/-- A room whose key `1-2-3` reads as floor `1-2`, number `3`, with one maintenance record. -/
def hyphenFloorRooms : List RoomDoc :=
  [ { id := "1-2-3"
      data := { id := "1-2-3", floor := FloorValue.str "1-2", number := "3", name := "Lab",
                equipment := [], maintenance := some [sampleRecord "fan" (some false)],
                replacements := some [], lastModified := 0 } } ]

/-! ## Rooms and their subcollections: `addEquipment`, `deleteRoom` -/

/-- The values read from the fields of the add-equipment form. -/
structure EquipmentForm where
  name : String
  quantity : String
  condition : String
  status : String
  notes : String
deriving DecidableEq, Repr

/-- What `addEquipment` leaves behind: the equipment documents of all rooms, the toast shown
as the call `showToast(first, second)`, and the `logActivity(action, details)` call it
issued, if any. -/
structure EquipmentResult where
  equipment : List EquipmentDoc
  toast : Toast
  logged : Option (String × String)
deriving DecidableEq, Repr

/-- The function `addEquipment(roomId)`, with the form filled as `form`; `newId` is the key
`addDoc` generates and `serverTime` the time the server assigns to `addedAt`. The modal is
taken to be on the page, so the steps after the write do not throw. -/
def addEquipment (rooms : List RoomDoc) (equipment : List EquipmentDoc) (roomId : String)
    (form : EquipmentForm) (newId : String) (serverTime : Nat) : EquipmentResult :=
  match getDoc rooms roomId with
  | none =>
    { equipment := equipment, toast := ⟨"Error: Room not found", "error"⟩, logged := none }
  | some roomDoc =>
    let equipmentData : EquipmentData :=
      { name := form.name
        quantity := parseIntString form.quantity
        condition := form.condition
        status := form.status
        notes := form.notes
        addedAt := serverTime
        roomId := roomId
        floor := roomDoc.data.floor }
    { equipment := equipment ++ [{ parent := roomId, id := newId, data := equipmentData }]
      toast := ⟨"Equipment added successfully!", "success"⟩
      logged := some ("add", "Added equipment " ++ equipmentData.name ++ " to room " ++ roomId) }

/-- One call of `addEquipment`: the `rooms` collection at the time of the call, the room, the
form, the generated key and the server time. -/
structure AddEquipmentCall where
  rooms : List RoomDoc
  roomId : String
  form : EquipmentForm
  newId : String
  serverTime : Nat
deriving DecidableEq, Repr

/-- The equipment documents after the calls `calls`, in order, starting from `equipment`. -/
def addEquipments (equipment : List EquipmentDoc) (calls : List AddEquipmentCall) :
    List EquipmentDoc :=
  calls.foldl
    (fun equipment c =>
      (addEquipment c.rooms equipment c.roomId c.form c.newId c.serverTime).equipment)
    equipment

/-- The data of a document of a subcollection `rooms/{id}/maintenance` or
`rooms/{id}/replacements`, as written by `submitMaintenanceRecord`. -/
structure SubRecordData where
  date : String
  description : String
  status : String
  createdAt : Nat
deriving DecidableEq, Repr

/-- A document of a subcollection `maintenance` or `replacements` of the room `parent`. -/
structure SubRecordDoc where
  parent : String
  id : String
  data : SubRecordData
deriving DecidableEq, Repr

/-- The collections `deleteRoom` reads and writes: the rooms and their three
subcollections. -/
structure RoomStore where
  rooms : List RoomDoc
  equipment : List EquipmentDoc
  maintenanceDocs : List SubRecordDoc
  replacementDocs : List SubRecordDoc
deriving DecidableEq, Repr

/-- What `deleteRoom` leaves behind: the store, the toasts shown in order, each as the call
`showToast(first, second)`, and the `logActivity(action, details)` call it issued, if any. -/
structure DeleteRoomResult where
  store : RoomStore
  toasts : List Toast
  logged : Option (String × String)
deriving DecidableEq, Repr

/-- The call `deleteDoc(doc.ref)` for an equipment document of the room `parent`. -/
def deleteEquipmentDoc (equipment : List EquipmentDoc) (parent id : String) :
    List EquipmentDoc :=
  equipment.filter (fun e => !(decide (e.parent = parent) && decide (e.id = id)))

/-- The call `deleteDoc(doc.ref)` for a maintenance or replacement document of the room
`parent`. -/
def deleteSubRecordDoc (docs : List SubRecordDoc) (parent id : String) : List SubRecordDoc :=
  docs.filter (fun e => !(decide (e.parent = parent) && decide (e.id = id)))

/-- The function `deleteRoom(roomId)` when every deletion succeeds: the documents of the three
subcollections of the room are deleted one by one, then the room document. -/
def deleteRoom (store : RoomStore) (roomId : String) : DeleteRoomResult :=
  match getDoc store.rooms roomId with
  | none => { store := store, toasts := [⟨"Room not found.", "error"⟩], logged := none }
  | some roomDoc =>
    let roomData := roomDoc.data
    let equipmentSnapshot := equipmentSnapshot store.equipment roomId
    let maintenanceSnapshot := store.maintenanceDocs.filter (fun e => decide (e.parent = roomId))
    let replacementSnapshot := store.replacementDocs.filter (fun e => decide (e.parent = roomId))
    { store :=
        { rooms := store.rooms.filter (fun d => decide (d.id ≠ roomId))
          equipment := equipmentSnapshot.foldl
            (fun equipment doc => deleteEquipmentDoc equipment doc.parent doc.id) store.equipment
          maintenanceDocs := maintenanceSnapshot.foldl
            (fun docs doc => deleteSubRecordDoc docs doc.parent doc.id) store.maintenanceDocs
          replacementDocs := replacementSnapshot.foldl
            (fun docs doc => deleteSubRecordDoc docs doc.parent doc.id) store.replacementDocs }
      toasts :=
        [⟨"Deleting room and associated data...", "info"⟩,
          ⟨"Room " ++ roomData.number ++ " has been successfully deleted.", "success"⟩,
          ⟨"Refresh The Page If adding new room", "warning"⟩]
      logged := some ("delete",
        "Deleted room " ++ roomData.number ++ " and all associated records") }

/-- The sample rooms with their equipment and one maintenance document of room `1-101`. -/
def sampleStore : RoomStore :=
  { rooms := sampleRooms, equipment := sampleEquipmentDocs,
    maintenanceDocs := [⟨"1-101", "m1", ⟨"2024-01-01", "check", "Done", 0⟩⟩],
    replacementDocs := [] }

/-- A filled add-equipment form for the examples. -/
def sampleEquipmentForm (name quantity : String) : EquipmentForm :=
  { name := name, quantity := quantity, condition := "Good", status := "Available",
    notes := "" }

/-! ## Account form: `validateEmail` -/

/-- The part of JavaScript regular expressions that the pattern of `validateEmail` uses: one
character of a class, a sequence, and the greedy repetition `+`. -/
inductive Pattern where
  | eps
  | chars (allowed : Char → Bool)
  | seq (p q : Pattern)
  | plus (p : Pattern)

/-- The repetition `p+` on the input `cs`, `step` giving the inputs left after one match of
`p`: further repetitions are tried first, so the remainders come longest match first. The
count bounds the repetitions by the length of the input. -/
def plusEnds (step : List Char → List (List Char)) : Nat → List Char → List (List Char)
  | 0, _ => []
  | n + 1, cs => (step cs).flatMap (fun rest => plusEnds step n rest ++ [rest])

/-- The inputs left after a match of the pattern at the start of `cs`, in the order the
backtracking matcher tries them. -/
def matchEnds : Pattern → List Char → List (List Char)
  | Pattern.eps, cs => [cs]
  | Pattern.chars allowed, cs =>
    match cs with
    | c :: rest => if allowed c then [rest] else []
    | [] => []
  | Pattern.seq p q, cs => (matchEnds p cs).flatMap (fun rest => matchEnds q rest)
  | Pattern.plus p, cs => plusEnds (fun rest => matchEnds p rest) cs.length cs

/-- The pattern of the literal text `cs`, character by character. -/
def literal : List Char → Pattern
  | [] => Pattern.eps
  | c :: cs => Pattern.seq (Pattern.chars (fun x => decide (x = c))) (literal cs)

/-- The method `test` of a pattern anchored by `^` and `$`: some match uses up the whole
input. -/
def testAnchored (p : Pattern) (s : String) : Bool :=
  (matchEnds p s.data).any (fun rest => rest.isEmpty)

/-- The class `[a-zA-Z0-9._%+-]`. -/
def localPartClass (c : Char) : Bool :=
  (decide ('a' ≤ c) && decide (c ≤ 'z')) || (decide ('A' ≤ c) && decide (c ≤ 'Z')) ||
    (decide ('0' ≤ c) && decide (c ≤ '9')) ||
    c = '.' || c = '_' || c = '%' || c = '+' || c = '-'

/-- The constant `regex` of `validateEmail`: the class repeated once or more, then the
literal text `@mcpi.edu.ph`, between `^` and `$`. -/
def emailPattern : Pattern :=
  Pattern.seq (Pattern.plus (Pattern.chars localPartClass)) (literal "@mcpi.edu.ph".data)

/-- The function `validateEmail`, on the text of the email field: `true` allows the form
submission. -/
def validateEmail (email : String) : Bool :=
  if !testAnchored emailPattern email then false else true

/-- A character the local part may hold: a letter a to z or A to Z, a digit, or one of
`.`, `_`, `%`, `+`, `-`. -/
def IsLocalPartChar (c : Char) : Prop :=
  ('a' ≤ c ∧ c ≤ 'z') ∨ ('A' ≤ c ∧ c ≤ 'Z') ∨ ('0' ≤ c ∧ c ≤ '9') ∨
    c ∈ ['.', '_', '%', '+', '-']

/-! ## Embedded records and the aggregation; the two kinds of record -/

/-- The open maintenance count `updateDashboardStats` computes for the room `roomId`
(`roomMaintenance`), 0 when there is no such room. -/
def roomOpenMaintenance (rooms : List RoomDoc) (roomId : String) : Nat :=
  match getDoc rooms roomId with
  | some d => openCount d.data.maintenance
  | none => 0

/-- The open replacement count `updateDashboardStats` computes for the room `roomId`
(`roomReplacement`), 0 when there is no such room. -/
def roomOpenReplacement (rooms : List RoomDoc) (roomId : String) : Nat :=
  match getDoc rooms roomId with
  | some d => openCount d.data.replacements
  | none => 0

/-- The room data with the `maintenance` and `replacements` arrays exchanged. -/
def swapKindsData (d : RoomData) : RoomData :=
  { d with maintenance := d.replacements, replacements := d.maintenance }

/-- The `rooms` collection with the two record arrays of every room exchanged. -/
def swapKinds (rooms : List RoomDoc) : List RoomDoc :=
  rooms.map (fun d => { d with data := swapKindsData d.data })

/-- The room document without its `maintenance` array: its key and all its other fields. -/
def exceptMaintenance (d : RoomDoc) : RoomDoc :=
  { d with data := { d.data with maintenance := none } }

/-- The room document without its `replacements` array: its key and all its other fields. -/
def exceptReplacements (d : RoomDoc) : RoomDoc :=
  { d with data := { d.data with replacements := none } }

/-! ## Lemmas: the `Map` model -/

theorem mapGet_mapSet {K V : Type} [DecidableEq K] (m : List (K × V)) (k k' : K) (v : V) :
    mapGet (mapSet m k v) k' = if k = k' then some v else mapGet m k' := by
  induction m with
  | nil => simp [mapSet, mapGet]
  | cons p m ih =>
    obtain ⟨a, b⟩ := p
    by_cases h : a = k
    · subst h
      by_cases h' : a = k' <;> simp [mapSet, mapGet, h']
    · by_cases h' : a = k'
      · subst h'
        have : ¬ k = a := fun e => h e.symm
        simp [mapSet, mapGet, h, this]
      · simp [mapSet, mapGet, h, h', ih]

/-! ## Lemmas: the aggregation loop -/

theorem mapGet_processRoom (equipment : List EquipmentDoc) (s : DashboardStats) (r : RoomDoc)
    (k : FloorValue) :
    mapGet (processRoom equipment s r).floorStats k =
      if r.data.floor = k then
        some (addRoomToBucket equipment ((mapGet s.floorStats k).getD emptyFloorStat) r)
      else mapGet s.floorStats k := by
  unfold processRoom
  simp only [mapGet_mapSet]
  by_cases hk : r.data.floor = k
  · subst hk
    simp only [if_true]
    cases hg : mapGet s.floorStats r.data.floor with
    | none => simp [mapHas, hg, mapGet_mapSet, addRoomToBucket]
    | some b => simp [mapHas, hg, addRoomToBucket]
  · simp only [if_neg hk]
    cases hg : mapGet s.floorStats r.data.floor with
    | none => simp [mapHas, hg, mapGet_mapSet, hk]
    | some b => simp [mapHas, hg]

theorem mapGet_foldl_processRoom (equipment : List EquipmentDoc) (k : FloorValue)
    (rooms : List RoomDoc) (s : DashboardStats) :
    mapGet (rooms.foldl (processRoom equipment) s).floorStats k =
      if roomsOnFloor rooms k = [] then mapGet s.floorStats k
      else some ((roomsOnFloor rooms k).foldl (addRoomToBucket equipment)
        ((mapGet s.floorStats k).getD emptyFloorStat)) := by
  induction rooms generalizing s with
  | nil => simp [roomsOnFloor]
  | cons r rooms ih =>
    rw [List.foldl_cons, ih, mapGet_processRoom]
    by_cases hk : r.data.floor = k
    · have h1 : roomsOnFloor (r :: rooms) k = r :: roomsOnFloor rooms k := by
        simp [roomsOnFloor, hk]
      rw [h1]
      by_cases he : roomsOnFloor rooms k = []
      · simp [he, hk]
      · simp [he, hk]
    · have h1 : roomsOnFloor (r :: rooms) k = roomsOnFloor rooms k := by
        simp [roomsOnFloor, hk]
      rw [h1]
      simp [hk]

theorem quantityOrZero_eq (q : Option Int) : quantityOrZero q = q.getD 0 := by
  cases q with
  | none => rfl
  | some n =>
    by_cases h : n = 0
    · simp [quantityOrZero, h]
    · simp [quantityOrZero, h]

/-- Below `2^53` every integer is a JavaScript Number. -/
theorem toNumber_of_lt (n : Int) (h : n.natAbs < 2 ^ 53) : toNumber n = n := by
  unfold toNumber roundToDouble
  rw [if_pos h]
  split
  · omega
  · omega

/-- The sum of two Numbers is exact when their absolute values add up to less than `2^53`. -/
theorem numberAdd_exact (a b : Int) (h : a.natAbs + b.natAbs < 2 ^ 53) :
    numberAdd a b = a + b := by
  unfold numberAdd
  apply toNumber_of_lt
  have := Int.natAbs_add_le a b
  omega

theorem natAbs_sum_le (l : List Int) : l.sum.natAbs ≤ (l.map Int.natAbs).sum := by
  induction l with
  | nil => simp
  | cons x l ih =>
    rw [List.sum_cons, List.map_cons, List.sum_cons]
    have := Int.natAbs_add_le x l.sum
    omega

theorem foldl_numberAdd_exact (l : List Int) (acc : Int)
    (h : acc.natAbs + (l.map Int.natAbs).sum < 2 ^ 53) :
    l.foldl numberAdd acc = acc + l.sum := by
  induction l generalizing acc with
  | nil => simp
  | cons x l ih =>
    rw [List.map_cons, List.sum_cons] at h
    rw [List.foldl_cons, numberAdd_exact acc x (by omega), ih, List.sum_cons, add_assoc]
    have := Int.natAbs_add_le acc x
    omega

theorem sum_map_filter_le {α : Type} (f : α → Nat) (p : α → Bool) (l : List α) :
    ((l.filter p).map f).sum ≤ (l.map f).sum := by
  induction l with
  | nil => simp
  | cons x l ih =>
    by_cases hp : p x
    · simp only [List.filter_cons, hp, if_true, List.map_cons, List.sum_cons]
      omega
    · simp only [List.filter_cons, hp, Bool.false_eq_true, if_false, List.map_cons,
        List.sum_cons]
      omega

theorem le_sum_map_of_mem {α : Type} (f : α → Nat) (l : List α) (x : α) (hx : x ∈ l) :
    f x ≤ (l.map f).sum := by
  induction l with
  | nil => cases hx
  | cons y l ih =>
    rw [List.map_cons, List.sum_cons]
    rcases List.mem_cons.1 hx with rfl | h
    · omega
    · have := ih h
      omega

/-- The `forEach` loop adds, as JavaScript Numbers and in document order, the quantities of
the documents whose `roomId` is the room. -/
theorem foldl_owned_eq (roomId : String) (l : List EquipmentDoc) (acc : Int) :
    l.foldl (fun acc equipDoc =>
        if equipDoc.data.roomId = roomId then
          numberAdd acc (quantityOrZero equipDoc.data.quantity)
        else acc) acc =
      ((l.filter (fun e => e.data.roomId = roomId)).map
        (fun e => e.data.quantity.getD 0)).foldl numberAdd acc := by
  induction l generalizing acc with
  | nil => simp
  | cons e l ih =>
    rw [List.foldl_cons, ih]
    by_cases h : e.data.roomId = roomId
    · simp [h, quantityOrZero_eq]
    · simp [h]

theorem natAbs_ownedQuantity_le (equipment : List EquipmentDoc) (r : RoomDoc) :
    (ownedQuantity equipment r).natAbs ≤ ownedMagnitude equipment r := by
  unfold ownedQuantity ownedMagnitude
  have h := natAbs_sum_le
    (((equipment.filter (fun e => e.parent = r.id)).filter
      (fun e => e.data.roomId = r.id)).map (fun e => e.data.quantity.getD 0))
  rw [List.map_map] at h
  exact h

theorem roomEquipment_eq_ownedQuantity (equipment : List EquipmentDoc) (r : RoomDoc)
    (h : ownedMagnitude equipment r < 2 ^ 53) :
    roomEquipment equipment r.id = ownedQuantity equipment r := by
  unfold roomEquipment ownedQuantity equipmentSnapshot
  rw [foldl_owned_eq, foldl_numberAdd_exact]
  · simp
  · unfold ownedMagnitude at h
    rw [List.map_map]
    simpa using h

/-- Adding the equipment of the rooms to a Number is exact when the absolute values involved
add up to less than `2^53`. -/
theorem foldl_numberAdd_roomEquipment (equipment : List EquipmentDoc) (rooms : List RoomDoc)
    (acc : Int) (h : acc.natAbs + (rooms.map (ownedMagnitude equipment)).sum < 2 ^ 53) :
    (rooms.map (fun r => roomEquipment equipment r.id)).foldl numberAdd acc =
      acc + (rooms.map (ownedQuantity equipment)).sum := by
  induction rooms generalizing acc with
  | nil => simp
  | cons r rooms ih =>
    rw [List.map_cons, List.sum_cons] at h
    have hle := natAbs_ownedQuantity_le equipment r
    rw [List.map_cons, List.foldl_cons, roomEquipment_eq_ownedQuantity equipment r (by omega),
      numberAdd_exact _ _ (by omega), ih, List.map_cons, List.sum_cons, add_assoc]
    have := Int.natAbs_add_le acc (ownedQuantity equipment r)
    omega

theorem map_roomEquipment_eq (equipment : List EquipmentDoc) (rooms : List RoomDoc)
    (h : (rooms.map (ownedMagnitude equipment)).sum < 2 ^ 53) :
    rooms.map (fun r => roomEquipment equipment r.id) = rooms.map (ownedQuantity equipment) := by
  apply List.map_congr_left
  intro r hr
  have := le_sum_map_of_mem (ownedMagnitude equipment) rooms r hr
  exact roomEquipment_eq_ownedQuantity equipment r (by omega)

theorem quantitiesExact_roomsOnFloor (rooms : List RoomDoc) (equipment : List EquipmentDoc)
    (k : FloorValue) (h : QuantitiesExact rooms equipment) :
    ((roomsOnFloor rooms k).map (ownedMagnitude equipment)).sum < 2 ^ 53 :=
  lt_of_le_of_lt (sum_map_filter_le _ _ rooms) h

theorem openCount_eq_unresolvedCount (records : Option (List RecordEntry)) :
    openCount records = unresolvedCount records := by
  cases records with
  | none => simp [openCount, unresolvedCount]
  | some l =>
    simp only [openCount, unresolvedCount, Option.getD_some]
    rw [← List.countP_eq_length_filter]
    apply List.countP_congr
    intro m _
    unfold notResolved
    rcases hm : m.resolved with _ | b
    · simp
    · cases b <;> simp

theorem foldl_processRoom_totals (equipment : List EquipmentDoc) (rooms : List RoomDoc)
    (s : DashboardStats) :
    (rooms.foldl (processRoom equipment) s).totalRooms = s.totalRooms + rooms.length ∧
    (rooms.foldl (processRoom equipment) s).totalEquipment =
      (rooms.map (fun r => roomEquipment equipment r.id)).foldl numberAdd s.totalEquipment ∧
    (rooms.foldl (processRoom equipment) s).needMaintenance =
      s.needMaintenance + (rooms.map (fun r => openCount r.data.maintenance)).sum ∧
    (rooms.foldl (processRoom equipment) s).needReplacement =
      s.needReplacement + (rooms.map (fun r => openCount r.data.replacements)).sum := by
  induction rooms generalizing s with
  | nil => simp
  | cons r rooms ih =>
    rw [List.foldl_cons]
    obtain ⟨h1, h2, h3, h4⟩ := ih (processRoom equipment s r)
    rw [h1, h2, h3, h4]
    simp only [processRoom, List.length_cons, List.map_cons, List.sum_cons, List.foldl_cons]
    refine ⟨by omega, trivial, by omega, by omega⟩

theorem foldl_addRoomToBucket (equipment : List EquipmentDoc) (rooms : List RoomDoc)
    (b : FloorStat) :
    (rooms.foldl (addRoomToBucket equipment) b).totalRooms = b.totalRooms + rooms.length ∧
    (rooms.foldl (addRoomToBucket equipment) b).totalEquipment =
      (rooms.map (fun r => roomEquipment equipment r.id)).foldl numberAdd b.totalEquipment ∧
    (rooms.foldl (addRoomToBucket equipment) b).needMaintenance =
      b.needMaintenance + (rooms.map (fun r => openCount r.data.maintenance)).sum ∧
    (rooms.foldl (addRoomToBucket equipment) b).needReplacement =
      b.needReplacement + (rooms.map (fun r => openCount r.data.replacements)).sum ∧
    (rooms.foldl (addRoomToBucket equipment) b).rooms =
      b.rooms ++ rooms.map (fun r =>
        { id := r.id, name := r.data.name, equipment := roomEquipment equipment r.id,
          maintenance := openCount r.data.maintenance,
          replacement := openCount r.data.replacements }) := by
  induction rooms generalizing b with
  | nil => simp
  | cons r rooms ih =>
    rw [List.foldl_cons]
    obtain ⟨h1, h2, h3, h4, h5⟩ := ih (addRoomToBucket equipment b r)
    rw [h1, h2, h3, h4, h5]
    simp only [addRoomToBucket, List.length_cons, List.map_cons, List.sum_cons,
      List.foldl_cons]
    refine ⟨by omega, trivial, by omega, by omega, by simp⟩

/-- The bucket stored for floor `k` is the fold of `addRoomToBucket` over the rooms of that
floor, and there is a bucket only when the floor has a room. -/
theorem bucket_of_updateDashboardStats (rooms : List RoomDoc) (equipment : List EquipmentDoc)
    (k : FloorValue) (b : FloorStat)
    (h : mapGet (updateDashboardStats rooms equipment).floorStats k = some b) :
    roomsOnFloor rooms k ≠ [] ∧
      b = (roomsOnFloor rooms k).foldl (addRoomToBucket equipment) emptyFloorStat := by
  unfold updateDashboardStats at h
  rw [mapGet_foldl_processRoom] at h
  by_cases he : roomsOnFloor rooms k = []
  · simp [he, initialStats, mapGet] at h
  · simp [he, initialStats, mapGet] at h
    exact ⟨he, h.symm⟩

/-- When the counted quantities add up to less than `2^53` in absolute value, the overall
`totalEquipment` is the exact sum of the owned quantities of the rooms. -/
theorem totalEquipment_exact (rooms : List RoomDoc) (equipment : List EquipmentDoc)
    (h : QuantitiesExact rooms equipment) :
    (updateDashboardStats rooms equipment).totalEquipment =
      (rooms.map (ownedQuantity equipment)).sum := by
  unfold updateDashboardStats
  rw [(foldl_processRoom_totals equipment rooms initialStats).2.1,
    foldl_numberAdd_roomEquipment equipment rooms _ (by simpa [initialStats] using h)]
  simp [initialStats]

/-- When the counted quantities add up to less than `2^53` in absolute value, the
`totalEquipment` of a bucket is the exact sum of the owned quantities of the rooms of its
floor, and so is the sum of the `equipment` fields of its room summaries. -/
theorem bucket_totalEquipment_exact (rooms : List RoomDoc) (equipment : List EquipmentDoc)
    (h : QuantitiesExact rooms equipment) (k : FloorValue) (b : FloorStat)
    (hb : mapGet (updateDashboardStats rooms equipment).floorStats k = some b) :
    b.totalEquipment = ((roomsOnFloor rooms k).map (ownedQuantity equipment)).sum ∧
    (b.rooms.map (fun x => x.equipment)).sum =
      ((roomsOnFloor rooms k).map (ownedQuantity equipment)).sum := by
  obtain ⟨_, rfl⟩ := bucket_of_updateDashboardStats rooms equipment k b hb
  have hk := quantitiesExact_roomsOnFloor rooms equipment k h
  obtain ⟨_, h2, _, _, h5⟩ :=
    foldl_addRoomToBucket equipment (roomsOnFloor rooms k) emptyFloorStat
  constructor
  · rw [h2, foldl_numberAdd_roomEquipment equipment _ _ (by simpa [emptyFloorStat] using hk)]
    simp [emptyFloorStat]
  · rw [h5, ← map_roomEquipment_eq equipment _ hk]
    simp [emptyFloorStat, Function.comp_def]


/-! ## Dashboard statistics: equipment totals and open-record counts -/

/-- C1 (the claim fails): a room holds 9007199254740991, 1 and 1 units. The loop adds them as
JavaScript Numbers and the second `+ 1` is lost to rounding: `totalEquipment` is
9007199254740992, the sum of the quantities is 9007199254740993. -/
theorem updateDashboardStats_totalEquipment_rounds :
    (updateDashboardStats largeQuantityRooms largeQuantityEquipmentDocs).totalEquipment =
        9007199254740992 ∧
    (largeQuantityRooms.map (ownedQuantity largeQuantityEquipmentDocs)).sum =
        9007199254740993 ∧
    (updateDashboardStats largeQuantityRooms largeQuantityEquipmentDocs).totalEquipment ≠
        (largeQuantityRooms.map (ownedQuantity largeQuantityEquipmentDocs)).sum ∧
    (mapGet (updateDashboardStats largeQuantityRooms largeQuantityEquipmentDocs).floorStats
        (FloorValue.num 1)).map (fun b => b.totalEquipment) = some 9007199254740992 ∧
    ((roomsOnFloor largeQuantityRooms (FloorValue.num 1)).map
        (ownedQuantity largeQuantityEquipmentDocs)).sum = 9007199254740993 := by
  decide

/-- C1 (amended): when the counted quantities add up, in absolute value, to less than `2^53`,
the overall `totalEquipment` of `updateDashboardStats` is the sum over all rooms of the
quantities of the room's equipment entries whose `roomId` is the room's id (a missing quantity
counting as 0), and every floor bucket's `totalEquipment` is that sum over the rooms of the
floor; the rooms (floor 1, 3 units), (floor 1, 2 units), (floor 2, 5 units) give 5, 5 and an
overall 10. -/
theorem updateDashboardStats_totalEquipment (rooms : List RoomDoc)
    (equipment : List EquipmentDoc) (hexact : QuantitiesExact rooms equipment) :
    (updateDashboardStats rooms equipment).totalEquipment =
        (rooms.map (ownedQuantity equipment)).sum ∧
    (∀ k b, mapGet (updateDashboardStats rooms equipment).floorStats k = some b →
        b.totalEquipment = ((roomsOnFloor rooms k).map (ownedQuantity equipment)).sum) ∧
    (mapGet (updateDashboardStats sampleRooms sampleEquipmentDocs).floorStats
        (FloorValue.num 1)).map (fun b => b.totalEquipment) = some 5 ∧
    (mapGet (updateDashboardStats sampleRooms sampleEquipmentDocs).floorStats
        (FloorValue.num 2)).map (fun b => b.totalEquipment) = some 5 ∧
    (updateDashboardStats sampleRooms sampleEquipmentDocs).totalEquipment = 10 :=
  ⟨totalEquipment_exact rooms equipment hexact,
   fun k b hb => (bucket_totalEquipment_exact rooms equipment hexact k b hb).1,
   by decide, by decide, by decide⟩

/-- C1 at the sample rooms, whose quantities add up to 10: the bucket of floor 1 holds the 5
units of its two rooms. -/
theorem updateDashboardStats_totalEquipment_witness :
    (sampleRooms.map (ownedMagnitude sampleEquipmentDocs)).sum < 2 ^ 53 ∧
    mapGet (updateDashboardStats sampleRooms sampleEquipmentDocs).floorStats (FloorValue.num 1) =
        some ⟨2, 5, 1, 0, [⟨"1-101", "1-101", 3, 1, 0⟩, ⟨"1-102", "1-102", 2, 0, 0⟩]⟩ ∧
    (5 : Int) = ((roomsOnFloor sampleRooms (FloorValue.num 1)).map
        (ownedQuantity sampleEquipmentDocs)).sum :=
  ⟨by decide, by decide,
   (updateDashboardStats_totalEquipment sampleRooms sampleEquipmentDocs
       (by decide : (sampleRooms.map (ownedMagnitude sampleEquipmentDocs)).sum < 2 ^ 53)).2.1
     (FloorValue.num 1)
     ⟨2, 5, 1, 0, [⟨"1-101", "1-101", 3, 1, 0⟩, ⟨"1-102", "1-102", 2, 0, 0⟩]⟩ (by decide)⟩

/-- C2: the open-maintenance and open-replacement counts of a room are the numbers of entries
of its `maintenance` and `replacements` arrays whose `resolved` flag is falsy (0 for an absent
array), the overall and per-floor counts are the sums of these, and the sample rooms with 1,
0 and 2 open maintenance records give 1 for floor 1 and 3 overall. -/
theorem updateDashboardStats_openCounts (rooms : List RoomDoc)
    (equipment : List EquipmentDoc) :
    (updateDashboardStats rooms equipment).needMaintenance =
        (rooms.map (fun r => unresolvedCount r.data.maintenance)).sum ∧
    (updateDashboardStats rooms equipment).needReplacement =
        (rooms.map (fun r => unresolvedCount r.data.replacements)).sum ∧
    (∀ k b, mapGet (updateDashboardStats rooms equipment).floorStats k = some b →
        b.rooms.map (fun x => (x.id, x.maintenance, x.replacement)) =
          (roomsOnFloor rooms k).map (fun r =>
            (r.id, unresolvedCount r.data.maintenance, unresolvedCount r.data.replacements)) ∧
        b.needMaintenance =
          ((roomsOnFloor rooms k).map (fun r => unresolvedCount r.data.maintenance)).sum ∧
        b.needReplacement =
          ((roomsOnFloor rooms k).map (fun r => unresolvedCount r.data.replacements)).sum) ∧
    (mapGet (updateDashboardStats sampleRooms sampleEquipmentDocs).floorStats
        (FloorValue.num 1)).map (fun b => b.needMaintenance) = some 1 ∧
    (updateDashboardStats sampleRooms sampleEquipmentDocs).needMaintenance = 3 := by
  have hm : (fun r : RoomDoc => openCount r.data.maintenance) =
      fun r => unresolvedCount r.data.maintenance :=
    funext fun r => openCount_eq_unresolvedCount r.data.maintenance
  have hr : (fun r : RoomDoc => openCount r.data.replacements) =
      fun r => unresolvedCount r.data.replacements :=
    funext fun r => openCount_eq_unresolvedCount r.data.replacements
  refine ⟨?_, ?_, ?_, by decide, by decide⟩
  · have h := (foldl_processRoom_totals equipment rooms initialStats).2.2.1
    rw [hm] at h
    simpa [updateDashboardStats, initialStats] using h
  · have h := (foldl_processRoom_totals equipment rooms initialStats).2.2.2
    rw [hr] at h
    simpa [updateDashboardStats, initialStats] using h
  · intro k b hb
    obtain ⟨_, rfl⟩ := bucket_of_updateDashboardStats rooms equipment k b hb
    obtain ⟨_, _, h3, h4, h5⟩ :=
      foldl_addRoomToBucket equipment (roomsOnFloor rooms k) emptyFloorStat
    rw [hm] at h3
    rw [hr] at h4
    refine ⟨?_, by simpa [emptyFloorStat] using h3, by simpa [emptyFloorStat] using h4⟩
    rw [h5]
    simp [emptyFloorStat, openCount_eq_unresolvedCount]

/-- C2 at the sample rooms: the bucket of floor 2 counts the 2 unresolved maintenance records
and the 1 unresolved replacement record of its room. -/
theorem updateDashboardStats_openCounts_witness :
    mapGet (updateDashboardStats sampleRooms sampleEquipmentDocs).floorStats (FloorValue.num 2) =
        some ⟨1, 5, 2, 1, [⟨"2-201", "2-201", 5, 2, 1⟩]⟩ ∧
    (2 : Nat) = ((roomsOnFloor sampleRooms (FloorValue.num 2)).map
        (fun r => unresolvedCount r.data.maintenance)).sum :=
  ⟨by decide,
   ((updateDashboardStats_openCounts sampleRooms sampleEquipmentDocs).2.2.1 (FloorValue.num 2)
     ⟨1, 5, 2, 1, [⟨"2-201", "2-201", 5, 2, 1⟩]⟩ (by decide)).2.1⟩

/-! ## Lemmas: the activity-log query -/

theorem foldl_push_eq_filter (p : LogDoc → Bool) (docs acc : List LogDoc) :
    docs.foldl (fun logs doc => if p doc then logs ++ [{ id := doc.id, data := doc.data }]
      else logs) acc = acc ++ docs.filter p := by
  induction docs generalizing acc with
  | nil => simp
  | cons d docs ih =>
    rw [List.foldl_cons, ih]
    by_cases h : p d = true
    · simp [h]
    · simp [h]

theorem loadActivityLogs_eq (toLowerCase : String → String)
    (typeFilterValue roleFilterValue searchText : String) (docs : List LogDoc) :
    loadActivityLogs toLowerCase typeFilterValue roleFilterValue searchText docs =
      sortLogs (docs.filter
        (keepsLog toLowerCase typeFilterValue roleFilterValue (toLowerCase searchText))) := by
  unfold loadActivityLogs
  cases docs with
  | nil => simp [sortLogs]
  | cons d docs =>
    simp only [List.isEmpty_cons, Bool.false_eq_true, if_false]
    have h := foldl_push_eq_filter
      (keepsLog toLowerCase typeFilterValue roleFilterValue (toLowerCase searchText))
      (d :: docs) []
    simp only [List.nil_append] at h
    rw [← h]
    rfl

theorem loadActivityLogs_perm (toLowerCase : String → String)
    (typeFilterValue roleFilterValue searchText : String) (docs : List LogDoc) :
    (loadActivityLogs toLowerCase typeFilterValue roleFilterValue searchText docs).Perm
      (docs.filter
        (keepsLog toLowerCase typeFilterValue roleFilterValue (toLowerCase searchText))) := by
  rw [loadActivityLogs_eq]
  exact List.perm_insertionSort _ _

theorem fieldIncludes_iff (toLowerCase : String → String) (field : Option String)
    (needle : String) :
    fieldIncludes toLowerCase field needle = true ↔
      ∃ s, field = some s ∧ needle.data <:+: (toLowerCase s).data := by
  cases field with
  | none => simp [fieldIncludes]
  | some s => simp [fieldIncludes, includes]

theorem keepsLog_iff (toLowerCase : String → String)
    (hlower : ∀ s, toLowerCase s = "" ↔ s = "")
    (typeFilter roleFilter searchText : String) (e : LogDoc) :
    keepsLog toLowerCase typeFilter roleFilter (toLowerCase searchText) e = true ↔
      passesFilters toLowerCase typeFilter roleFilter searchText e := by
  unfold keepsLog passesFilters
  rw [Bool.and_eq_true, Bool.and_eq_true, and_assoc]
  refine and_congr ?_ (and_congr ?_ ?_)
  · unfold matchesType
    cases e.data.action with
    | none => simp
    | some a => simp [or_assoc]
  · unfold matchesRole
    cases e.data.role with
    | none => simp
    | some a => simp [or_assoc]
  · unfold matchesSearch
    simp only [Bool.or_eq_true, decide_eq_true_eq, fieldIncludes_iff, hlower, or_assoc]
    refine or_congr Iff.rfl ?_
    constructor
    · rintro (⟨s, h1, h2⟩ | ⟨s, h1, h2⟩ | ⟨s, h1, h2⟩)
      · exact ⟨s, Or.inl h1, h2⟩
      · exact ⟨s, Or.inr (Or.inl h1), h2⟩
      · exact ⟨s, Or.inr (Or.inr h1), h2⟩
    · rintro ⟨s, (h1 | h1 | h1), h2⟩
      · exact Or.inl ⟨s, h1, h2⟩
      · exact Or.inr (Or.inl ⟨s, h1, h2⟩)
      · exact Or.inr (Or.inr ⟨s, h1, h2⟩)

theorem asciiLower_eq_empty (s : String) : asciiLower s = "" ↔ s = "" := by
  obtain ⟨l⟩ := s
  cases l with
  | nil => simp [asciiLower]
  | cons c l =>
    constructor
    · intro h
      have := congrArg String.data h
      simp [asciiLower] at this
    · intro h
      have := congrArg String.data h
      simp at this

theorem newerOrEqual_of_sortsBefore (a b : LogDoc) (x y : Int)
    (ha : a.data.timestamp = some x) (hb : b.data.timestamp = some y) :
    sortsBefore a b = true ↔ y ≤ x := by
  simp [sortsBefore, compareLogs, ha, hb]

theorem pairwise_orderedInsert (a : LogDoc) (l : List LogDoc)
    (hts : ∀ e ∈ a :: l, ∃ t, e.data.timestamp = some t)
    (hs : l.Pairwise newerOrEqual) :
    (l.orderedInsert (fun a b => sortsBefore a b = true) a).Pairwise newerOrEqual := by
  induction l with
  | nil => simp
  | cons y ys ih =>
    obtain ⟨x, hx⟩ := hts a (by simp)
    obtain ⟨t, ht⟩ := hts y (by simp)
    rw [List.pairwise_cons] at hs
    obtain ⟨hy, hys⟩ := hs
    by_cases hr : sortsBefore a y = true
    · rw [List.orderedInsert, if_pos hr]
      have hay : t ≤ x := (newerOrEqual_of_sortsBefore a y x t hx ht).1 hr
      refine List.pairwise_cons.2 ⟨?_, List.pairwise_cons.2 ⟨hy, hys⟩⟩
      intro z hz
      rcases List.mem_cons.1 hz with rfl | hz
      · exact ⟨x, t, hx, ht, hay⟩
      · obtain ⟨t', u, ht', hu, hle⟩ := hy z hz
        rw [ht] at ht'
        cases ht'
        exact ⟨x, u, hx, hu, le_trans hle hay⟩
    · rw [List.orderedInsert, if_neg hr]
      have hay : ¬ t ≤ x := fun h => hr ((newerOrEqual_of_sortsBefore a y x t hx ht).2 h)
      refine List.pairwise_cons.2 ⟨?_, ih ?_ hys⟩
      · intro z hz
        rcases (List.mem_orderedInsert _).1 hz with rfl | hz
        · exact ⟨t, x, ht, hx, by omega⟩
        · exact hy z hz
      · intro e he
        rcases List.mem_cons.1 he with rfl | he
        · exact ⟨x, hx⟩
        · exact hts e (by simp [he])

theorem pairwise_sortLogs (l : List LogDoc)
    (hts : ∀ e ∈ l, ∃ t, e.data.timestamp = some t) :
    (sortLogs l).Pairwise newerOrEqual := by
  induction l with
  | nil => simp [sortLogs]
  | cons a l ih =>
    have hl : ∀ e ∈ l, ∃ t, e.data.timestamp = some t := fun e he => hts e (by simp [he])
    have h := ih hl
    unfold sortLogs at h ⊢
    rw [List.insertionSort]
    apply pairwise_orderedInsert a _ _ h
    intro e he
    rcases List.mem_cons.1 he with rfl | he
    · exact hts e (by simp)
    · exact hl e ((List.perm_insertionSort _ l).mem_iff.1 he)

/-! ## Activity-log query: filtering and ordering -/

/-- C3: for every set of log entries and every filter triple, the query keeps an entry if and
only if it passes the type filter, the role filter and the search filter, each read ignoring
case: an entry failing one of them is not returned, and an entry passing all three is
returned as often as it was fetched. -/
theorem loadActivityLogs_filter_conjunction (toLowerCase : String → String)
    (hlower : ∀ s, toLowerCase s = "" ↔ s = "")
    (typeFilter roleFilter searchText : String) (docs : List LogDoc) (e : LogDoc) :
    (e ∈ loadActivityLogs toLowerCase typeFilter roleFilter searchText docs ↔
        e ∈ docs ∧ passesFilters toLowerCase typeFilter roleFilter searchText e) ∧
    (passesFilters toLowerCase typeFilter roleFilter searchText e →
        (loadActivityLogs toLowerCase typeFilter roleFilter searchText docs).count e =
          docs.count e) := by
  have hp := loadActivityLogs_perm toLowerCase typeFilter roleFilter searchText docs
  constructor
  · rw [hp.mem_iff, List.mem_filter, keepsLog_iff toLowerCase hlower]
  · intro h
    rw [hp.count_eq, List.count_filter]
    exact (keepsLog_iff toLowerCase hlower typeFilter roleFilter searchText e).2 h

/-- C3 at the sample log: with type `DELETE`, role `Faculty` and search text `ROOM` the entry
`l4` (action `Delete`, role `faculty`) is returned, once. -/
theorem loadActivityLogs_filter_conjunction_witness :
    (sampleLog "l4" "Delete" "faculty" (some 40) ∈
        loadActivityLogs asciiLower "DELETE" "Faculty" "ROOM" sampleLogs ↔
      sampleLog "l4" "Delete" "faculty" (some 40) ∈ sampleLogs ∧
        passesFilters asciiLower "DELETE" "Faculty" "ROOM"
          (sampleLog "l4" "Delete" "faculty" (some 40))) ∧
    loadActivityLogs asciiLower "DELETE" "Faculty" "ROOM" sampleLogs =
      [sampleLog "l4" "Delete" "faculty" (some 40)] :=
  ⟨(loadActivityLogs_filter_conjunction asciiLower asciiLower_eq_empty "DELETE" "Faculty" "ROOM"
      sampleLogs (sampleLog "l4" "Delete" "faculty" (some 40))).1, by decide⟩

/-- C4: with type filter `delete` and no role or search constraint the query returns exactly
the entries whose action tag equals `delete` ignoring case, whatever their role; on the sample
entries with actions add, delete, update and roles admin, faculty these are the two delete
entries, one of each role. -/
theorem loadActivityLogs_type_delete (toLowerCase : String → String)
    (hempty : toLowerCase "" = "") (roleFilter : String)
    (hrole : roleFilter = "" ∨ roleFilter = "all") (docs : List LogDoc) :
    (loadActivityLogs toLowerCase "delete" roleFilter "" docs).Perm
        (docs.filter (fun e =>
          decide (e.data.action.map toLowerCase = some (toLowerCase "delete")))) ∧
    loadActivityLogs asciiLower "delete" "" "" sampleLogs =
        [sampleLog "l4" "Delete" "faculty" (some 40),
          sampleLog "l2" "delete" "admin" (some 30)] := by
  refine ⟨?_, by decide⟩
  refine (loadActivityLogs_perm toLowerCase "delete" roleFilter "" docs).trans ?_
  have hfun : keepsLog toLowerCase "delete" roleFilter (toLowerCase "") =
      fun e => decide (e.data.action.map toLowerCase = some (toLowerCase "delete")) := by
    funext e
    have hr : matchesRole toLowerCase roleFilter e.data = true := by
      rcases hrole with h | h <;> simp [matchesRole, h]
    have hs : matchesSearch toLowerCase (toLowerCase "") e.data = true := by
      simp [matchesSearch, hempty]
    simp only [keepsLog, hr, hs, Bool.and_true]
    unfold matchesType
    cases e.data.action with
    | none => simp
    | some a => simp
  rw [hfun]

/-- C4 at the sample log, with the role filter left on `all`. -/
theorem loadActivityLogs_type_delete_witness :
    (loadActivityLogs asciiLower "delete" "all" "" sampleLogs).Perm
      (sampleLogs.filter (fun e =>
        decide (e.data.action.map asciiLower = some (asciiLower "delete")))) :=
  (loadActivityLogs_type_delete asciiLower (by decide) "all" (Or.inr rfl) sampleLogs).1

/-- C5: when the type filter and the role filter are each empty or `all` and the search
text is empty, the query returns a permutation of the full fetched set. -/
theorem loadActivityLogs_no_constraint (toLowerCase : String → String)
    (hempty : toLowerCase "" = "") (typeFilter roleFilter : String)
    (htype : typeFilter = "" ∨ typeFilter = "all")
    (hrole : roleFilter = "" ∨ roleFilter = "all") (docs : List LogDoc) :
    (loadActivityLogs toLowerCase typeFilter roleFilter "" docs).Perm docs := by
  refine (loadActivityLogs_perm toLowerCase typeFilter roleFilter "" docs).trans ?_
  have hfun : keepsLog toLowerCase typeFilter roleFilter (toLowerCase "") = fun _ => true := by
    funext e
    have ht : matchesType toLowerCase typeFilter e.data = true := by
      rcases htype with h | h <;> simp [matchesType, h]
    have hr : matchesRole toLowerCase roleFilter e.data = true := by
      rcases hrole with h | h <;> simp [matchesRole, h]
    have hs : matchesSearch toLowerCase (toLowerCase "") e.data = true := by
      simp [matchesSearch, hempty]
    simp [keepsLog, ht, hr, hs]
  rw [hfun, List.filter_true]

/-- C5 at the sample log, with type `all` and an empty role filter. -/
theorem loadActivityLogs_no_constraint_witness :
    (loadActivityLogs asciiLower "all" "" "" sampleLogs).Perm sampleLogs :=
  loadActivityLogs_no_constraint asciiLower (by decide) "all" "" (Or.inr rfl) (Or.inl rfl)
    sampleLogs

/-- C6: when every matching entry has a timestamp, the sequence returned by the query is a
permutation of the matching entries in which every entry is at least as new as all the
entries after it (non-increasing timestamp seconds). -/
theorem loadActivityLogs_sorted_desc (toLowerCase : String → String)
    (typeFilter roleFilter searchText : String) (docs : List LogDoc)
    (hts : ∀ e ∈ docs, keepsLog toLowerCase typeFilter roleFilter (toLowerCase searchText) e = true →
      e.data.timestamp ≠ none) :
    (loadActivityLogs toLowerCase typeFilter roleFilter searchText docs).Perm
        (docs.filter (keepsLog toLowerCase typeFilter roleFilter (toLowerCase searchText))) ∧
    (loadActivityLogs toLowerCase typeFilter roleFilter searchText docs).Pairwise newerOrEqual := by
  refine ⟨loadActivityLogs_perm toLowerCase typeFilter roleFilter searchText docs, ?_⟩
  rw [loadActivityLogs_eq]
  apply pairwise_sortLogs
  intro e he
  rw [List.mem_filter] at he
  exact Option.ne_none_iff_exists'.1 (hts e he.1 he.2)

/-- C6 at the sample log: all five entries, newest first. -/
theorem loadActivityLogs_sorted_desc_witness :
    (loadActivityLogs asciiLower "all" "all" "" sampleLogs).map (fun e => e.data.timestamp) =
        [some 50, some 40, some 30, some 20, some 10] ∧
    (loadActivityLogs asciiLower "all" "all" "" sampleLogs).Pairwise newerOrEqual :=
  ⟨by decide,
   (loadActivityLogs_sorted_desc asciiLower "all" "all" "" sampleLogs (by decide)).2⟩

/-! ## Lemmas: reading and writing room documents -/

theorem getDoc_updateDoc_same (rooms : List RoomDoc) (roomId : String)
    (fields : RoomData → RoomData) :
    getDoc (updateDoc rooms roomId fields) roomId =
      (getDoc rooms roomId).map (fun d => { d with data := fields d.data }) := by
  induction rooms with
  | nil => simp [getDoc, updateDoc]
  | cons d rooms ih =>
    unfold getDoc updateDoc at *
    by_cases h : d.id = roomId
    · simp [h]
    · simp [h, ih]

theorem getDoc_updateDoc_other (rooms : List RoomDoc) (roomId other : String)
    (fields : RoomData → RoomData) (h : other ≠ roomId) :
    getDoc (updateDoc rooms roomId fields) other = getDoc rooms other := by
  induction rooms with
  | nil => simp [getDoc, updateDoc]
  | cons d rooms ih =>
    unfold getDoc updateDoc at *
    rw [List.map_cons, List.find?_cons, List.find?_cons, ih]
    by_cases hd : d.id = roomId
    · have hne : ¬ d.id = other := fun e => h (e.symm.trans hd)
      rw [if_pos hd]
      simp only [hne, decide_False]
    · rw [if_neg hd]

theorem updateDoc_updateDoc (rooms : List RoomDoc) (roomId : String)
    (f g : RoomData → RoomData) :
    updateDoc (updateDoc rooms roomId f) roomId g = updateDoc rooms roomId (fun d => g (f d)) := by
  unfold updateDoc
  rw [List.map_map]
  apply List.map_congr_left
  intro d _
  by_cases h : d.id = roomId <;> simp [h]

theorem arrayGet_natCast {α : Type} (a : List α) (n : Nat) :
    arrayGet a (n : Int) = a.get? n := by
  simp [arrayGet]

theorem splice_one {α : Type} (a : List α) (n : Nat) (h : n < a.length) :
    splice a (n : Int) 1 = a.take n ++ a.drop (n + 1) := by
  unfold splice
  have h1 : ¬ ((n : Int) < 0) := by omega
  have h2 : min (n : Int) (a.length : Int) = n := by omega
  have h3 : min (max (1 : Int) 0) ((a.length : Int) - n) = 1 := by omega
  simp only [h1, if_false, h2, h3]
  have h4 : ((n : Int) + 1).toNat = n + 1 := by omega
  simp [h4]

/-- What the resolve of a valid index in the `maintenance` array writes. -/
theorem resolveMaintenanceRecord_valid (rooms : List RoomDoc) (roomId : String) (d : RoomDoc)
    (n now : Nat) (r : RecordEntry) (hd : getDoc rooms roomId = some d)
    (hr : (d.data.maintenance.getD []).get? n = some r) :
    resolveMaintenanceRecord rooms roomId (n : Int) now =
      { rooms := updateDoc rooms roomId (fun x =>
          { x with maintenance := some ((d.data.maintenance.getD []).set n (markResolved r now)) })
        toast := ⟨"Success", "Maintenance record marked as resolved"⟩
        logged := some ("resolve", "Resolved maintenance record in room " ++ roomId) } := by
  have hlt : n < (d.data.maintenance.getD []).length := by
    rcases Nat.lt_or_ge n (d.data.maintenance.getD []).length with h | h
    · exact h
    · rw [List.get?_eq_none.2 h] at hr
      cases hr
  unfold resolveMaintenanceRecord
  simp only [hd]
  have h1 : ¬ ((n : Int) ≥ ((d.data.maintenance.getD []).length : Int)) := by omega
  simp only [h1, if_false, arrayGet_natCast, hr, Int.toNat_ofNat]

/-- What the resolve of a valid index in the `replacements` array writes. -/
theorem resolveReplacementRecord_valid (rooms : List RoomDoc) (roomId : String) (d : RoomDoc)
    (n now : Nat) (r : RecordEntry) (hd : getDoc rooms roomId = some d)
    (hr : (d.data.replacements.getD []).get? n = some r) :
    resolveReplacementRecord rooms roomId (n : Int) now =
      { rooms := updateDoc rooms roomId (fun x =>
          { x with replacements := some ((d.data.replacements.getD []).set n (markResolved r now)) })
        toast := ⟨"Success", "Replacement record marked as resolved"⟩
        logged := some ("resolve", "Resolved replacement record in room " ++ roomId) } := by
  have hlt : n < (d.data.replacements.getD []).length := by
    rcases Nat.lt_or_ge n (d.data.replacements.getD []).length with h | h
    · exact h
    · rw [List.get?_eq_none.2 h] at hr
      cases hr
  unfold resolveReplacementRecord
  simp only [hd]
  have h1 : ¬ ((n : Int) ≥ ((d.data.replacements.getD []).length : Int)) := by omega
  simp only [h1, if_false, arrayGet_natCast, hr, Int.toNat_ofNat]

theorem maintenanceOf_updateDoc (rooms : List RoomDoc) (roomId : String) (d : RoomDoc)
    (a : List RecordEntry) (hd : getDoc rooms roomId = some d) :
    maintenanceOf (updateDoc rooms roomId (fun x => { x with maintenance := some a })) roomId
      = a := by
  simp [maintenanceOf, getDoc_updateDoc_same, hd]

theorem replacementsOf_updateDoc (rooms : List RoomDoc) (roomId : String) (d : RoomDoc)
    (a : List RecordEntry) (hd : getDoc rooms roomId = some d) :
    replacementsOf (updateDoc rooms roomId (fun x => { x with replacements := some a })) roomId
      = a := by
  simp [replacementsOf, getDoc_updateDoc_same, hd]

theorem resolvedAtIndex_set (a : List RecordEntry) (n now : Nat) (r : RecordEntry)
    (hr : a.get? n = some r) : resolvedAtIndex a (a.set n (markResolved r now)) n now := by
  have hlt : n < a.length := by
    rcases Nat.lt_or_ge n a.length with h | h
    · exact h
    · rw [List.get?_eq_none.2 h] at hr
      cases hr
  refine ⟨by simp, ⟨r, markResolved r now, hr, ?_, rfl, rfl, rfl, rfl, rfl, rfl, rfl, rfl⟩, ?_⟩
  · simp [List.get?_eq_getElem?, List.getElem?_set, hlt]
  · intro j hj
    simp [List.get?_eq_getElem?, List.getElem?_set, Ne.symm hj]

theorem removedAtIndex_splice (a : List RecordEntry) (n : Nat) (h : n < a.length) :
    removedAtIndex a (splice a (n : Int) 1) n := by
  rw [splice_one a n h]
  refine ⟨?_, ?_, ?_⟩
  · simp only [List.length_append, List.length_take, List.length_drop]
    omega
  · intro j hj
    simp only [List.get?_eq_getElem?]
    rw [List.getElem?_append_left (by simp only [List.length_take]; omega)]
    rw [List.getElem?_take_of_lt hj]
  · intro j hj
    simp only [List.get?_eq_getElem?]
    rw [List.getElem?_append_right (by simp only [List.length_take]; omega)]
    simp only [List.length_take, List.getElem?_drop]
    congr 1
    omega

/-! ## Embedded records: resolve and delete by position -/

/-- C7: for every room and every index greater than or equal to the length of the record
array, `resolveMaintenanceRecord` and `resolveReplacementRecord` show the invalid-index error,
write nothing (the `rooms` collection is unchanged) and log nothing; resolving index 99 on a
2-element array changes nothing. -/
theorem resolve_index_out_of_range (rooms : List RoomDoc) (roomId : String) (d : RoomDoc)
    (i : Int) (now : Nat) (hd : getDoc rooms roomId = some d) :
    (((d.data.maintenance.getD []).length : Int) ≤ i →
      resolveMaintenanceRecord rooms roomId i now =
        { rooms := rooms, toast := ⟨"Error", "Invalid maintenance record index"⟩,
          logged := none }) ∧
    (((d.data.replacements.getD []).length : Int) ≤ i →
      resolveReplacementRecord rooms roomId i now =
        { rooms := rooms, toast := ⟨"Error", "Invalid replacement record index"⟩,
          logged := none }) ∧
    resolveMaintenanceRecord twoRecordRooms "3-301" 99 5 =
        { rooms := twoRecordRooms, toast := ⟨"Error", "Invalid maintenance record index"⟩,
          logged := none } ∧
    resolveReplacementRecord twoRecordRooms "3-301" 99 5 =
        { rooms := twoRecordRooms, toast := ⟨"Error", "Invalid replacement record index"⟩,
          logged := none } := by
  refine ⟨?_, ?_, by decide, by decide⟩
  · intro h
    unfold resolveMaintenanceRecord
    simp only [hd]
    rw [if_pos (by omega)]
  · intro h
    unfold resolveReplacementRecord
    simp only [hd]
    rw [if_pos (by omega)]

/-- C7 at the two-record room: index 2, the length of the array, is already rejected. -/
theorem resolve_index_out_of_range_witness :
    resolveMaintenanceRecord twoRecordRooms "3-301" 2 5 =
      { rooms := twoRecordRooms, toast := ⟨"Error", "Invalid maintenance record index"⟩,
        logged := none } :=
  (resolve_index_out_of_range twoRecordRooms "3-301"
    (sampleRoom "3-301" (FloorValue.str "3")
      (some [sampleRecord "fan" (some false), sampleRecord "lamp" (some true)])
      (some [sampleRecord "desk" (some false), sampleRecord "chair" none]))
    2 5 (by decide)).1 (by decide)

/-- C8: for every record array and every valid index, resolve writes back an array of the
same length in which the element at the index has `resolved = true` and `resolvedAt` the
current time with its other fields unchanged, and every other element is unchanged. -/
theorem resolve_valid_index (rooms : List RoomDoc) (roomId : String) (d : RoomDoc)
    (n now : Nat) (hd : getDoc rooms roomId = some d) :
    (n < (d.data.maintenance.getD []).length →
      resolvedAtIndex (d.data.maintenance.getD [])
        (maintenanceOf (resolveMaintenanceRecord rooms roomId (n : Int) now).rooms roomId)
        n now) ∧
    (n < (d.data.replacements.getD []).length →
      resolvedAtIndex (d.data.replacements.getD [])
        (replacementsOf (resolveReplacementRecord rooms roomId (n : Int) now).rooms roomId)
        n now) := by
  constructor
  · intro hn
    obtain ⟨r, hr⟩ : ∃ r, (d.data.maintenance.getD []).get? n = some r :=
      ⟨_, List.get?_eq_get hn⟩
    rw [resolveMaintenanceRecord_valid rooms roomId d n now r hd hr]
    simp only [maintenanceOf_updateDoc rooms roomId d _ hd]
    exact resolvedAtIndex_set _ n now r hr
  · intro hn
    obtain ⟨r, hr⟩ : ∃ r, (d.data.replacements.getD []).get? n = some r :=
      ⟨_, List.get?_eq_get hn⟩
    rw [resolveReplacementRecord_valid rooms roomId d n now r hd hr]
    simp only [replacementsOf_updateDoc rooms roomId d _ hd]
    exact resolvedAtIndex_set _ n now r hr

/-- C8 at the two-record room: resolving maintenance index 0 at time 5. -/
theorem resolve_valid_index_witness :
    resolvedAtIndex [sampleRecord "fan" (some false), sampleRecord "lamp" (some true)]
        (maintenanceOf (resolveMaintenanceRecord twoRecordRooms "3-301" 0 5).rooms "3-301") 0 5 ∧
    maintenanceOf (resolveMaintenanceRecord twoRecordRooms "3-301" 0 5).rooms "3-301" =
      [{ sampleRecord "fan" (some true) with resolvedAt := some 5 },
        sampleRecord "lamp" (some true)] :=
  ⟨(resolve_valid_index twoRecordRooms "3-301"
      (sampleRoom "3-301" (FloorValue.str "3")
        (some [sampleRecord "fan" (some false), sampleRecord "lamp" (some true)])
        (some [sampleRecord "desk" (some false), sampleRecord "chair" none]))
      0 5 (by decide)).1 (by decide), by decide⟩

/-- C9: resolve is accepted on an already-resolved record. Resolving a valid index at time
`t1` and again at time `t2` succeeds both times, leaves `resolved = true` with
`resolvedAt = t2`, and gives the same result as resolving the index once at `t2`. -/
theorem resolve_twice (rooms : List RoomDoc) (roomId : String) (d : RoomDoc)
    (n t1 t2 : Nat) (hd : getDoc rooms roomId = some d)
    (hn : n < (d.data.maintenance.getD []).length) :
    (resolveMaintenanceRecord rooms roomId (n : Int) t1).toast =
        ⟨"Success", "Maintenance record marked as resolved"⟩ ∧
    (resolveMaintenanceRecord (resolveMaintenanceRecord rooms roomId (n : Int) t1).rooms
        roomId (n : Int) t2).toast = ⟨"Success", "Maintenance record marked as resolved"⟩ ∧
    (∃ r, (maintenanceOf (resolveMaintenanceRecord
        (resolveMaintenanceRecord rooms roomId (n : Int) t1).rooms roomId (n : Int) t2).rooms
          roomId).get? n = some r ∧ r.resolved = some true ∧ r.resolvedAt = some t2) ∧
    resolveMaintenanceRecord (resolveMaintenanceRecord rooms roomId (n : Int) t1).rooms
        roomId (n : Int) t2 = resolveMaintenanceRecord rooms roomId (n : Int) t2 := by
  obtain ⟨r, hr⟩ : ∃ r, (d.data.maintenance.getD []).get? n = some r :=
    ⟨_, List.get?_eq_get hn⟩
  have hfirst := resolveMaintenanceRecord_valid rooms roomId d n t1 r hd hr
  have hd1 := getDoc_updateDoc_same rooms roomId (fun x =>
    { x with maintenance := some ((d.data.maintenance.getD []).set n (markResolved r t1)) })
  rw [hd, Option.map_some'] at hd1
  have hr1 : (((d.data.maintenance.getD []).set n (markResolved r t1)).get? n) =
      some (markResolved r t1) := by
    simp [List.get?_eq_getElem?, List.getElem?_set, hn]
  have hsecond := resolveMaintenanceRecord_valid _ roomId _ n t2 (markResolved r t1) hd1 hr1
  have honce := resolveMaintenanceRecord_valid rooms roomId d n t2 r hd hr
  have heq : resolveMaintenanceRecord (resolveMaintenanceRecord rooms roomId (n : Int) t1).rooms
      roomId (n : Int) t2 = resolveMaintenanceRecord rooms roomId (n : Int) t2 := by
    rw [hfirst, hsecond, honce, updateDoc_updateDoc]
    simp [markResolved, List.set_set]
  refine ⟨by rw [hfirst], by rw [heq, honce], ?_, heq⟩
  rw [heq, honce]
  simp only [maintenanceOf_updateDoc rooms roomId d _ hd]
  exact ⟨markResolved r t2, by simp [List.get?_eq_getElem?, List.getElem?_set, hn], rfl, rfl⟩

/-- C9 at the two-record room: index 1 is already resolved; resolving it at 5 and again at 9
equals resolving it once at 9. -/
theorem resolve_twice_witness :
    resolveMaintenanceRecord (resolveMaintenanceRecord twoRecordRooms "3-301" 1 5).rooms
        "3-301" 1 9 = resolveMaintenanceRecord twoRecordRooms "3-301" 1 9 ∧
    (maintenanceOf (resolveMaintenanceRecord twoRecordRooms "3-301" 1 9).rooms "3-301").map
        (fun r => (r.resolved, r.resolvedAt)) = [(some false, none), (some true, some 9)] :=
  ⟨(resolve_twice twoRecordRooms "3-301"
      (sampleRoom "3-301" (FloorValue.str "3")
        (some [sampleRecord "fan" (some false), sampleRecord "lamp" (some true)])
        (some [sampleRecord "desk" (some false), sampleRecord "chair" none]))
      1 5 9 (by decide) (by decide)).2.2.2, by decide⟩

/-- C10: for every record array and every valid index, `deleteMaintenanceRecord` and
`deleteReplacementRecord` write back the array one element shorter in which the positions
below the index hold the same elements as before and each position from the index on holds
the element formerly one position later. -/
theorem delete_valid_index (rooms : List RoomDoc) (roomId : String) (d : RoomDoc)
    (n : Nat) (hd : getDoc rooms roomId = some d) :
    (n < (d.data.maintenance.getD []).length →
      removedAtIndex (d.data.maintenance.getD [])
        (maintenanceOf (deleteMaintenanceRecord rooms roomId (n : Int)).rooms roomId) n) ∧
    (n < (d.data.replacements.getD []).length →
      removedAtIndex (d.data.replacements.getD [])
        (replacementsOf (deleteReplacementRecord rooms roomId (n : Int)).rooms roomId) n) := by
  constructor
  · intro hn
    unfold deleteMaintenanceRecord
    simp only [hd]
    rw [if_neg (by omega)]
    simp only [maintenanceOf_updateDoc rooms roomId d _ hd]
    exact removedAtIndex_splice _ n hn
  · intro hn
    unfold deleteReplacementRecord
    simp only [hd]
    rw [if_neg (by omega)]
    simp only [replacementsOf_updateDoc rooms roomId d _ hd]
    exact removedAtIndex_splice _ n hn

/-- C10 at the sample rooms: deleting index 1 of the three maintenance records of room
`2-201` keeps the first and moves the third down. -/
theorem delete_valid_index_witness :
    removedAtIndex
        [sampleRecord "desk" none, sampleRecord "pc" (some true), sampleRecord "tv" (some false)]
        (maintenanceOf (deleteMaintenanceRecord sampleRooms "2-201" 1).rooms "2-201") 1 ∧
    maintenanceOf (deleteMaintenanceRecord sampleRooms "2-201" 1).rooms "2-201" =
      [sampleRecord "desk" none, sampleRecord "tv" (some false)] :=
  ⟨(delete_valid_index sampleRooms "2-201"
      (sampleRoom "2-201" (FloorValue.num 2)
        (some [sampleRecord "desk" none, sampleRecord "pc" (some true),
          sampleRecord "tv" (some false)])
        (some [sampleRecord "chair" (some false)]))
      1 (by decide)).1 (by decide), by decide⟩

/-! ## Lemmas: rejected and effective record operations -/

theorem resolveMaintenanceRecord_out_of_range (rooms : List RoomDoc) (roomId : String)
    (d : RoomDoc) (i : Int) (now : Nat) (hd : getDoc rooms roomId = some d)
    (hi : ((d.data.maintenance.getD []).length : Int) ≤ i) :
    resolveMaintenanceRecord rooms roomId i now =
      { rooms := rooms, toast := ⟨"Error", "Invalid maintenance record index"⟩,
        logged := none } := by
  unfold resolveMaintenanceRecord
  simp only [hd]
  rw [if_pos (by omega)]

/-! ## Embedded records: bounds of delete, stale indices, append -/

/-- C11 (the code at a negative index): `deleteMaintenanceRecord` with index -1 on the three
maintenance records of room `2-201` passes the bounds check, removes the last record and
reports success; `deleteReplacementRecord` does the same on the two replacement records of
room `3-301`. -/
theorem delete_negative_index_removes_last :
    (deleteMaintenanceRecord sampleRooms "2-201" (-1)).toast =
        ⟨"Success", "Maintenance record deleted successfully"⟩ ∧
    maintenanceOf sampleRooms "2-201" =
        [sampleRecord "desk" none, sampleRecord "pc" (some true),
          sampleRecord "tv" (some false)] ∧
    maintenanceOf (deleteMaintenanceRecord sampleRooms "2-201" (-1)).rooms "2-201" =
        [sampleRecord "desk" none, sampleRecord "pc" (some true)] ∧
    (deleteReplacementRecord twoRecordRooms "3-301" (-1)).toast =
        ⟨"Success", "Replacement record deleted successfully"⟩ ∧
    replacementsOf (deleteReplacementRecord twoRecordRooms "3-301" (-1)).rooms "3-301" =
        [sampleRecord "desk" (some false)] := by
  decide

/-- C12 (the claim fails): after removing index 0 from the three maintenance records of room
`2-201`, a resolve with the old index 2 is rejected as an invalid index and marks nothing. -/
theorem resolve_old_index_two_rejected :
    resolveMaintenanceRecord (deleteMaintenanceRecord sampleRooms "2-201" 0).rooms "2-201" 2 9 =
        { rooms := (deleteMaintenanceRecord sampleRooms "2-201" 0).rooms
          toast := ⟨"Error", "Invalid maintenance record index"⟩
          logged := none } ∧
    maintenanceOf (resolveMaintenanceRecord
        (deleteMaintenanceRecord sampleRooms "2-201" 0).rooms "2-201" 2 9).rooms "2-201" =
      [sampleRecord "pc" (some true), sampleRecord "tv" (some false)] := by
  decide

/-- C12 (amended): after removing index 0 from a 3-element record array `[a, b, c]`, a resolve
with the old index 2 is rejected as an invalid index and changes nothing, while a resolve
with the old index 1 is carried out and marks `c`, the element that shifted down from
index 2, leaving `b` as it was. -/
theorem resolve_after_delete_first (rooms : List RoomDoc) (roomId : String) (d : RoomDoc)
    (a b c : RecordEntry) (now : Nat) (hd : getDoc rooms roomId = some d)
    (hm : d.data.maintenance = some [a, b, c]) :
    maintenanceOf (deleteMaintenanceRecord rooms roomId 0).rooms roomId = [b, c] ∧
    resolveMaintenanceRecord (deleteMaintenanceRecord rooms roomId 0).rooms roomId 2 now =
        { rooms := (deleteMaintenanceRecord rooms roomId 0).rooms
          toast := ⟨"Error", "Invalid maintenance record index"⟩
          logged := none } ∧
    (resolveMaintenanceRecord (deleteMaintenanceRecord rooms roomId 0).rooms roomId 1 now).toast =
        ⟨"Success", "Maintenance record marked as resolved"⟩ ∧
    maintenanceOf (resolveMaintenanceRecord
        (deleteMaintenanceRecord rooms roomId 0).rooms roomId 1 now).rooms roomId =
      [b, { c with resolved := some true, resolvedAt := some now }] := by
  have hdel : deleteMaintenanceRecord rooms roomId 0 =
      { rooms := updateDoc rooms roomId (fun x => { x with maintenance := some [b, c] })
        toast := ⟨"Success", "Maintenance record deleted successfully"⟩
        logged := some ("delete", "Deleted maintenance record from room " ++ roomId) } := by
    unfold deleteMaintenanceRecord
    simp only [hd, hm, Option.getD_some]
    rw [if_neg (by simp)]
    have hs : splice [a, b, c] 0 1 = [b, c] := by
      have h := splice_one [a, b, c] 0 (by simp)
      simpa using h
    rw [hs]
  have hd1 := getDoc_updateDoc_same rooms roomId (fun x => { x with maintenance := some [b, c] })
  rw [hd, Option.map_some'] at hd1
  rw [hdel]
  refine ⟨maintenanceOf_updateDoc rooms roomId d _ hd, ?_, ?_, ?_⟩
  · exact (resolveMaintenanceRecord_out_of_range _ roomId _ 2 now hd1 (by simp))
  · have h := resolveMaintenanceRecord_valid _ roomId _ 1 now c hd1 (by simp)
    simp only [Nat.cast_one] at h
    rw [h]
  · have h := resolveMaintenanceRecord_valid _ roomId _ 1 now c hd1 (by simp)
    simp only [Nat.cast_one] at h
    rw [h, updateDoc_updateDoc]
    simp [maintenanceOf, getDoc_updateDoc_same, hd, markResolved]

theorem submitNeedsMaintenance_some (rooms : List RoomDoc) (roomId : String) (d : RoomDoc)
    (form : RecordForm) (now : Nat) (hd : getDoc rooms roomId = some d) :
    submitNeedsMaintenance rooms roomId form now =
      { rooms := updateDoc rooms roomId (fun x =>
          { x with maintenance := some (d.data.maintenance.getD [] ++ [recordOfForm form now]) })
        toast := ⟨"Success", "Maintenance need recorded successfully"⟩
        logged := some ("Added Maintenance Need",
          "Added maintenance need for " ++ (recordOfForm form now).equipmentName ++
            " in room " ++ roomId) } := by
  unfold submitNeedsMaintenance
  simp only [hd]

theorem submitNeedsReplacement_some (rooms : List RoomDoc) (roomId : String) (d : RoomDoc)
    (form : RecordForm) (now : Nat) (hd : getDoc rooms roomId = some d) :
    submitNeedsReplacement rooms roomId form now =
      { rooms := updateDoc rooms roomId (fun x =>
          { x with replacements := some (d.data.replacements.getD [] ++ [recordOfForm form now]) })
        toast := ⟨"Success", "Replacement need recorded successfully"⟩
        logged := some ("Added Replacement Need",
          "Added replacement need for " ++ (recordOfForm form now).equipmentName ++
            " in room " ++ roomId) } := by
  unfold submitNeedsReplacement
  simp only [hd]

theorem deleteMaintenanceRecord_valid (rooms : List RoomDoc) (roomId : String) (d : RoomDoc)
    (n : Nat) (hd : getDoc rooms roomId = some d)
    (hn : n < (d.data.maintenance.getD []).length) :
    deleteMaintenanceRecord rooms roomId (n : Int) =
      { rooms := updateDoc rooms roomId (fun x =>
          { x with maintenance := some ((d.data.maintenance.getD []).eraseIdx n) })
        toast := ⟨"Success", "Maintenance record deleted successfully"⟩
        logged := some ("delete", "Deleted maintenance record from room " ++ roomId) } := by
  unfold deleteMaintenanceRecord
  simp only [hd]
  rw [if_neg (by omega), splice_one _ n hn, List.eraseIdx_eq_take_drop_succ]

theorem deleteMaintenanceRecord_out_of_range (rooms : List RoomDoc) (roomId : String)
    (d : RoomDoc) (i : Int) (hd : getDoc rooms roomId = some d)
    (hi : ((d.data.maintenance.getD []).length : Int) ≤ i) :
    deleteMaintenanceRecord rooms roomId i =
      { rooms := rooms, toast := ⟨"Error", "Invalid maintenance record index"⟩,
        logged := none } := by
  unfold deleteMaintenanceRecord
  simp only [hd]
  rw [if_pos (by omega)]

theorem maintenanceOf_of_getDoc (rooms : List RoomDoc) (roomId : String) (d : RoomDoc)
    (hd : getDoc rooms roomId = some d) :
    maintenanceOf rooms roomId = d.data.maintenance.getD [] := by
  simp [maintenanceOf, hd]

/-! ## Lemmas: the bookkeeping of a session -/

theorem RecordsInv.length_ids {a : List RecordEntry} {t : RecordTrace} (h : RecordsInv a t) :
    t.ids.length = a.length := by
  have h6 := congrArg List.length h.2.2.2.2.2.1
  simpa using h6.symm

theorem recordsInv_append (a : List RecordEntry) (t : RecordTrace) (rooms : List RoomDoc)
    (form : RecordForm) (now : Nat) (h : RecordsInv a t) :
    RecordsInv (a ++ [recordOfForm form now])
      { rooms := rooms, appended := t.appended + 1, removed := t.removed,
        ids := t.ids ++ [t.appended],
        appendedRecords := t.appendedRecords ++ [recordOfForm form now],
        resolvedIds := t.resolvedIds } := by
  obtain ⟨h1, h2, h3, h4, h5, h6, h7⟩ := h
  have hnotin : t.appended ∉ t.ids := fun hm => Nat.lt_irrefl _ (h4 _ hm)
  have hnotres : t.appended ∉ t.resolvedIds := fun hm => Nat.lt_irrefl _ (h5 _ hm)
  refine ⟨?_, ?_, ?_, ?_, ?_, ?_, ?_⟩
  · simp only [List.length_append, List.length_singleton]
    omega
  · simp only [List.length_append, List.length_singleton]
    omega
  · exact List.nodup_append.2 ⟨h3, List.nodup_singleton _, by
      intro x hx hx'
      rw [List.mem_singleton] at hx'
      exact hnotin (hx' ▸ hx)⟩
  · intro id hid
    rcases List.mem_append.1 hid with hid | hid
    · exact Nat.lt_succ_of_lt (h4 id hid)
    · rw [List.mem_singleton] at hid
      subst hid
      exact Nat.lt_succ_self _
  · intro id hid
    exact Nat.lt_succ_of_lt (h5 id hid)
  · simp only [List.map_append, List.map_cons, List.map_nil, h6]
    simp [hnotres, recordOfForm]
  · simp only [List.map_append, List.map_cons, List.map_nil, h7]
    congr 1
    · apply List.map_congr_left
      intro id hid
      have hlt : id < t.appendedRecords.length := by rw [h2]; exact h4 id hid
      simp [List.get?_eq_getElem?, List.getElem?_append_left hlt]
    · simp [List.get?_eq_getElem?, ← h2]

theorem recordsInv_resolve (a : List RecordEntry) (t : RecordTrace) (rooms : List RoomDoc)
    (n now : Nat) (r : RecordEntry) (hr : a.get? n = some r) (h : RecordsInv a t) :
    RecordsInv (a.set n (markResolved r now))
      { rooms := rooms, appended := t.appended, removed := t.removed, ids := t.ids,
        appendedRecords := t.appendedRecords,
        resolvedIds := (t.ids.get? n).toList ++ t.resolvedIds } := by
  have hlen := h.length_ids
  obtain ⟨h1, h2, h3, h4, h5, h6, h7⟩ := h
  have hn : n < a.length := by
    rcases Nat.lt_or_ge n a.length with hlt | hge
    · exact hlt
    · rw [List.get?_eq_none.2 hge] at hr
      cases hr
  have hn' : n < t.ids.length := by omega
  have hx' : t.ids[n]? = some t.ids[n] := List.getElem?_eq_getElem hn'
  have hx : t.ids.get? n = some t.ids[n] := by rw [List.get?_eq_getElem?]; exact hx'
  have hr' : a[n]? = some r := by rw [← List.get?_eq_getElem?]; exact hr
  refine ⟨?_, h2, h3, h4, ?_, ?_, ?_⟩
  · simpa using h1
  · intro id hid
    simp only [hx, Option.toList_some, List.singleton_append, List.mem_cons] at hid
    rcases hid with rfl | hid
    · exact h4 _ (List.getElem_mem _)
    · exact h5 id hid
  · simp only [hx, Option.toList_some, List.singleton_append]
    apply List.ext_getElem?
    intro j
    have h6j := congrArg (fun l => l[j]?) h6
    simp only [List.getElem?_map] at h6j
    simp only [List.getElem?_map, List.getElem?_set]
    by_cases hj : n = j
    · subst hj
      simp [hn, hx', markResolved]
    · simp only [hj, if_false]
      rw [h6j]
      cases hy : t.ids[j]? with
      | none => simp
      | some y =>
        have hne : y ≠ t.ids[n] := by
          intro he
          apply hj
          apply List.getElem?_inj hn' h3
          rw [hx', hy, he]
        simp [hne]
  · rw [← h7]
    apply List.ext_getElem?
    intro j
    simp only [List.getElem?_map, List.getElem?_set]
    by_cases hj : n = j
    · subst hj
      simp [hn, hr', markResolved, recordContent]
    · simp [hj]

theorem recordsInv_remove (a : List RecordEntry) (t : RecordTrace) (rooms : List RoomDoc)
    (n : Nat) (hn : n < a.length) (h : RecordsInv a t) :
    RecordsInv (a.eraseIdx n)
      { rooms := rooms, appended := t.appended, removed := t.removed + 1,
        ids := t.ids.eraseIdx n, appendedRecords := t.appendedRecords,
        resolvedIds := t.resolvedIds } := by
  obtain ⟨h1, h2, h3, h4, h5, h6, h7⟩ := h
  refine ⟨?_, h2, h3.sublist (List.eraseIdx_sublist _ _), ?_, h5, ?_, ?_⟩
  · have := List.length_eraseIdx_of_lt hn
    simp only [this]
    omega
  · intro id hid
    exact h4 id (List.mem_of_mem_eraseIdx hid)
  · simp only [List.eraseIdx_eq_take_drop_succ, List.map_append, List.map_take, List.map_drop,
      h6]
  · simp only [List.eraseIdx_eq_take_drop_succ, List.map_append, List.map_take, List.map_drop,
      h7]

theorem traceStep_inv (roomId : String) (t : RecordTrace) (op : RecordOp)
    (h : RecordsInv (maintenanceOf t.rooms roomId) t) :
    RecordsInv (maintenanceOf (traceStep roomId t op).rooms roomId) (traceStep roomId t op) := by
  cases hgd : getDoc t.rooms roomId with
  | none =>
    have hsame : traceStep roomId t op = t := by
      cases op <;>
        simp [traceStep, runRecordOp, submitNeedsMaintenance, resolveMaintenanceRecord,
          deleteMaintenanceRecord, hgd, tookEffect]
    rw [hsame]
    exact h
  | some d =>
    have ha := maintenanceOf_of_getDoc t.rooms roomId d hgd
    rw [ha] at h
    cases op with
    | append form now =>
      have hres := submitNeedsMaintenance_some t.rooms roomId d form now hgd
      simp only [traceStep, runRecordOp, hres, tookEffect, decide_True, if_true]
      rw [maintenanceOf_updateDoc t.rooms roomId d _ hgd]
      exact recordsInv_append _ t _ form now h
    | resolve n now =>
      rcases Nat.lt_or_ge n (d.data.maintenance.getD []).length with hn | hn
      · have hr : (d.data.maintenance.getD []).get? n =
            some ((d.data.maintenance.getD []).get ⟨n, hn⟩) := List.get?_eq_get hn
        have hres := resolveMaintenanceRecord_valid t.rooms roomId d n now _ hgd hr
        simp only [traceStep, runRecordOp, hres, tookEffect, decide_True, if_true]
        rw [maintenanceOf_updateDoc t.rooms roomId d _ hgd]
        exact recordsInv_resolve _ t _ n now _ hr h
      · have hres := resolveMaintenanceRecord_out_of_range t.rooms roomId d (n : Int) now hgd
          (by omega)
        simp only [traceStep, runRecordOp, hres, tookEffect]
        rw [if_neg (by decide), ha]
        exact h
    | remove n =>
      rcases Nat.lt_or_ge n (d.data.maintenance.getD []).length with hn | hn
      · have hres := deleteMaintenanceRecord_valid t.rooms roomId d n hgd hn
        simp only [traceStep, runRecordOp, hres, tookEffect, decide_True, if_true]
        rw [maintenanceOf_updateDoc t.rooms roomId d _ hgd]
        exact recordsInv_remove _ t _ n hn h
      · have hres := deleteMaintenanceRecord_out_of_range t.rooms roomId d (n : Int) hgd
          (by omega)
        simp only [traceStep, runRecordOp, hres, tookEffect]
        rw [if_neg (by decide), ha]
        exact h

theorem foldl_traceStep_inv (roomId : String) (ops : List RecordOp) (t : RecordTrace)
    (h : RecordsInv (maintenanceOf t.rooms roomId) t) :
    RecordsInv (maintenanceOf (ops.foldl (traceStep roomId) t).rooms roomId)
      (ops.foldl (traceStep roomId) t) := by
  induction ops generalizing t with
  | nil => exact h
  | cons op ops ih => exact ih _ (traceStep_inv roomId t op h)

/-! ## Embedded records: sessions of operations, append -/

/-- C12 (amended) at the sample rooms: after removing index 0 of the records desk, pc, tv of
room `2-201`, resolving index 1 at time 9 marks tv. -/
theorem resolve_after_delete_first_witness :
    maintenanceOf (resolveMaintenanceRecord
        (deleteMaintenanceRecord sampleRooms "2-201" 0).rooms "2-201" 1 9).rooms "2-201" =
      [sampleRecord "pc" (some true),
        { sampleRecord "tv" (some false) with resolved := some true, resolvedAt := some 9 }] :=
  (resolve_after_delete_first sampleRooms "2-201"
    (sampleRoom "2-201" (FloorValue.num 2)
      (some [sampleRecord "desk" none, sampleRecord "pc" (some true),
        sampleRecord "tv" (some false)])
      (some [sampleRecord "chair" (some false)]))
    (sampleRecord "desk" none) (sampleRecord "pc" (some true)) (sampleRecord "tv" (some false))
    9 (by decide) (by decide)).2.2.2

/-- C13: starting from an empty record array, after every sequence of append, resolve and
remove operations of a session, with `appended` appends and `removed` removals having taken
effect, the array has length `appended - removed`, every remaining record carries the name
of one append, its `resolved` flag is `true` exactly when a resolve took effect on the
record of that name and `false` otherwise, and its other fields are those it was appended
with. -/
theorem record_sequence_consistency (rooms : List RoomDoc) (roomId : String)
    (ops : List RecordOp) (h0 : maintenanceOf rooms roomId = []) :
    (maintenanceOf (runTrace roomId rooms ops).rooms roomId).length =
        (runTrace roomId rooms ops).appended - (runTrace roomId rooms ops).removed ∧
    (runTrace roomId rooms ops).removed ≤ (runTrace roomId rooms ops).appended ∧
    (runTrace roomId rooms ops).ids.length =
        (maintenanceOf (runTrace roomId rooms ops).rooms roomId).length ∧
    (runTrace roomId rooms ops).ids.Nodup ∧
    ∀ j r id, (maintenanceOf (runTrace roomId rooms ops).rooms roomId).get? j = some r →
      (runTrace roomId rooms ops).ids.get? j = some id →
        r.resolved = some (decide (id ∈ (runTrace roomId rooms ops).resolvedIds)) ∧
        ((runTrace roomId rooms ops).appendedRecords.get? id).map recordContent =
          some (recordContent r) := by
  have hinit :
      RecordsInv (maintenanceOf (initialTrace rooms).rooms roomId) (initialTrace rooms) := by
    show RecordsInv (maintenanceOf rooms roomId) (initialTrace rooms)
    rw [h0]
    simp [RecordsInv, initialTrace]
  have h := foldl_traceStep_inv roomId ops (initialTrace rooms) hinit
  have hlen := h.length_ids
  obtain ⟨h1, _, h3, _, _, h6, h7⟩ := h
  refine ⟨?_, ?_, hlen, h3, ?_⟩
  · unfold runTrace
    omega
  · unfold runTrace
    omega
  · intro j r id hr hid
    unfold runTrace at hr hid ⊢
    rw [List.get?_eq_getElem?] at hr hid
    have h6j := congrArg (fun l => l[j]?) h6
    have h7j := congrArg (fun l => l[j]?) h7
    simp only [List.getElem?_map, hr, hid, Option.map_some'] at h6j h7j
    exact ⟨Option.some.inj h6j, (Option.some.inj h7j).symm⟩

/-- C13 at a sample session on room `3-301`: three appends, a resolve of index 1, a removal
of index 0 and a rejected removal of index 7 leave the records lamp (resolved) and desk. -/
theorem record_sequence_consistency_witness :
    (maintenanceOf (runTrace "3-301" emptyRecordRooms sampleOps).rooms "3-301").length =
        (runTrace "3-301" emptyRecordRooms sampleOps).appended -
          (runTrace "3-301" emptyRecordRooms sampleOps).removed ∧
    ((runTrace "3-301" emptyRecordRooms sampleOps).appended,
        (runTrace "3-301" emptyRecordRooms sampleOps).removed) = (3, 1) ∧
    (maintenanceOf (runTrace "3-301" emptyRecordRooms sampleOps).rooms "3-301").map
        (fun r => (r.equipmentName, r.resolved)) =
      [("lamp", some true), ("desk", some false)] :=
  ⟨(record_sequence_consistency emptyRecordRooms "3-301" sampleOps (by decide)).1,
    by decide, by decide⟩

/-- C14: for every existing room, `submitNeedsMaintenance` and `submitNeedsReplacement` write
back the previous array (empty when the field is absent) with exactly one record added at the
end: the earlier elements keep their order and content, the length grows by one, and the new
last record has `resolved = false`. -/
theorem submit_appends_one_record (rooms : List RoomDoc) (roomId : String) (d : RoomDoc)
    (form : RecordForm) (now : Nat) (hd : getDoc rooms roomId = some d) :
    (∃ r, r.resolved = some false ∧
      maintenanceOf (submitNeedsMaintenance rooms roomId form now).rooms roomId =
        d.data.maintenance.getD [] ++ [r] ∧
      (maintenanceOf (submitNeedsMaintenance rooms roomId form now).rooms roomId).length =
        (d.data.maintenance.getD []).length + 1) ∧
    (∃ r, r.resolved = some false ∧
      replacementsOf (submitNeedsReplacement rooms roomId form now).rooms roomId =
        d.data.replacements.getD [] ++ [r] ∧
      (replacementsOf (submitNeedsReplacement rooms roomId form now).rooms roomId).length =
        (d.data.replacements.getD []).length + 1) := by
  constructor
  · refine ⟨recordOfForm form now, rfl, ?_, ?_⟩
    · rw [submitNeedsMaintenance_some rooms roomId d form now hd]
      exact maintenanceOf_updateDoc rooms roomId d _ hd
    · rw [submitNeedsMaintenance_some rooms roomId d form now hd]
      simp only [maintenanceOf_updateDoc rooms roomId d _ hd, List.length_append,
        List.length_singleton]
  · refine ⟨recordOfForm form now, rfl, ?_, ?_⟩
    · rw [submitNeedsReplacement_some rooms roomId d form now hd]
      exact replacementsOf_updateDoc rooms roomId d _ hd
    · rw [submitNeedsReplacement_some rooms roomId d form now hd]
      simp only [replacementsOf_updateDoc rooms roomId d _ hd, List.length_append,
        List.length_singleton]

/-- C14 at the sample rooms: a report on room `1-102`, whose `replacements` field is absent,
stores a one-element array; a report on its `maintenance` array adds a second element. -/
theorem submit_appends_one_record_witness :
    (∃ r, r.resolved = some false ∧
      maintenanceOf (submitNeedsMaintenance sampleRooms "1-102" (sampleForm "pc") 7).rooms
          "1-102" = [sampleRecord "lamp" (some true)] ++ [r] ∧
      (maintenanceOf (submitNeedsMaintenance sampleRooms "1-102" (sampleForm "pc") 7).rooms
          "1-102").length = 1 + 1) ∧
    replacementsOf (submitNeedsReplacement sampleRooms "1-102" (sampleForm "pc") 7).rooms
        "1-102" = [{ sampleRecord "pc" (some false) with createdAt := 7 }] :=
  ⟨(submit_appends_one_record sampleRooms "1-102"
      (sampleRoom "1-102" (FloorValue.num 1) (some [sampleRecord "lamp" (some true)]) none)
      (sampleForm "pc") 7 (by decide)).1, by decide⟩

/-! ## Lemmas: the keys of the per-floor map and their order -/

theorem mem_keys_iff_mapGet {K V : Type} [DecidableEq K] (m : List (K × V)) (k : K) :
    k ∈ m.map Prod.fst ↔ ∃ v, mapGet m k = some v := by
  induction m with
  | nil => simp [mapGet]
  | cons p m ih =>
    obtain ⟨a, b⟩ := p
    by_cases h : a = k
    · simp [mapGet, h]
    · have h' : ¬ k = a := fun e => h e.symm
      simp [mapGet, h, h', ih]

theorem mapGet_updateDashboardStats (rooms : List RoomDoc) (equipment : List EquipmentDoc)
    (k : FloorValue) :
    mapGet (updateDashboardStats rooms equipment).floorStats k =
      if roomsOnFloor rooms k = [] then none
      else some ((roomsOnFloor rooms k).foldl (addRoomToBucket equipment) emptyFloorStat) := by
  unfold updateDashboardStats
  rw [mapGet_foldl_processRoom]
  simp [initialStats, mapGet]

theorem roomsOnFloor_ne_nil_iff (rooms : List RoomDoc) (k : FloorValue) :
    roomsOnFloor rooms k ≠ [] ↔ ∃ r ∈ rooms, r.data.floor = k := by
  unfold roomsOnFloor
  rw [Ne, List.filter_eq_nil_iff]
  simp

theorem pairwise_orderedInsert_of_key {α : Type} (r : α → α → Prop) [DecidableRel r]
    (key : α → Int) (a : α) (l : List α)
    (hr : ∀ x ∈ a :: l, ∀ y ∈ a :: l, (r x y ↔ key x ≤ key y))
    (hs : l.Pairwise (fun x y => key x ≤ key y)) :
    (l.orderedInsert r a).Pairwise (fun x y => key x ≤ key y) := by
  induction l with
  | nil => simp
  | cons b l ih =>
    rw [List.pairwise_cons] at hs
    obtain ⟨hb, hl⟩ := hs
    by_cases hab : r a b
    · rw [List.orderedInsert, if_pos hab]
      have hkey : key a ≤ key b := (hr a (by simp) b (by simp)).1 hab
      refine List.pairwise_cons.2 ⟨?_, List.pairwise_cons.2 ⟨hb, hl⟩⟩
      intro z hz
      rcases List.mem_cons.1 hz with rfl | hz
      · exact hkey
      · exact le_trans hkey (hb z hz)
    · rw [List.orderedInsert, if_neg hab]
      have hkey : ¬ key a ≤ key b := fun h => hab ((hr a (by simp) b (by simp)).2 h)
      refine List.pairwise_cons.2 ⟨?_, ih ?_ hl⟩
      · intro z hz
        rcases (List.mem_orderedInsert _).1 hz with rfl | hz
        · omega
        · exact hb z hz
      · intro x hx y hy
        apply hr
        · rcases List.mem_cons.1 hx with rfl | hx
          · simp
          · simp [hx]
        · rcases List.mem_cons.1 hy with rfl | hy
          · simp
          · simp [hy]

theorem pairwise_insertionSort_of_key {α : Type} (r : α → α → Prop) [DecidableRel r]
    (key : α → Int) (l : List α)
    (hr : ∀ x ∈ l, ∀ y ∈ l, (r x y ↔ key x ≤ key y)) :
    (l.insertionSort r).Pairwise (fun x y => key x ≤ key y) := by
  induction l with
  | nil => simp
  | cons a l ih =>
    rw [List.insertionSort]
    apply pairwise_orderedInsert_of_key r key a
    · intro x hx y hy
      apply hr
      · rcases List.mem_cons.1 hx with rfl | hx
        · simp
        · exact List.mem_cons_of_mem _ ((List.perm_insertionSort r l).mem_iff.1 hx)
      · rcases List.mem_cons.1 hy with rfl | hy
        · simp
        · exact List.mem_cons_of_mem _ ((List.perm_insertionSort r l).mem_iff.1 hy)
    · exact ih (fun x hx y hy => hr x (List.mem_cons_of_mem _ hx) y (List.mem_cons_of_mem _ hy))

theorem floorSortsBefore_iff (a b : FloorValue) (x y : Int) (ha : parseInt a = some x)
    (hb : parseInt b = some y) : floorSortsBefore a b = true ↔ x ≤ y := by
  simp [floorSortsBefore, compareFloors, ha, hb]

/-! ## Dashboard statistics: the per-floor map -/

/-- C15: the per-floor map of `updateDashboardStats` has a bucket for a floor value if and
only if at least one room has that floor value; every bucket has `totalRooms ≥ 1`, counts the
rooms of its floor, and its list of per-room summaries has exactly `totalRooms` entries, one
per room of that floor, in order. -/
theorem floorStats_buckets (rooms : List RoomDoc) (equipment : List EquipmentDoc) :
    (∀ k, (∃ b, mapGet (updateDashboardStats rooms equipment).floorStats k = some b) ↔
        ∃ r ∈ rooms, r.data.floor = k) ∧
    (∀ k b, mapGet (updateDashboardStats rooms equipment).floorStats k = some b →
        1 ≤ b.totalRooms ∧ b.totalRooms = (roomsOnFloor rooms k).length ∧
        b.rooms.length = b.totalRooms ∧
        b.rooms.map (fun x => x.id) = (roomsOnFloor rooms k).map (fun r => r.id)) := by
  constructor
  · intro k
    rw [mapGet_updateDashboardStats, ← roomsOnFloor_ne_nil_iff]
    by_cases h : roomsOnFloor rooms k = [] <;> simp [h]
  · intro k b hb
    rw [mapGet_updateDashboardStats] at hb
    by_cases h : roomsOnFloor rooms k = []
    · simp [h] at hb
    · simp only [h, if_false, Option.some.injEq] at hb
      subst hb
      obtain ⟨h1, _, _, _, h5⟩ :=
        foldl_addRoomToBucket equipment (roomsOnFloor rooms k) emptyFloorStat
      have hpos : 0 < (roomsOnFloor rooms k).length := List.length_pos.2 h
      rw [h1, h5]
      simp only [emptyFloorStat, Nat.zero_add, List.nil_append, List.length_map, List.map_map]
      exact ⟨hpos, trivial, trivial, rfl⟩

/-- C15 at the sample rooms: floor 1 has a bucket with its two rooms, floor 3 has none. -/
theorem floorStats_buckets_witness :
    (1 ≤ 2 ∧ 2 = (roomsOnFloor sampleRooms (FloorValue.num 1)).length ∧
      [(⟨"1-101", "1-101", 3, 1, 0⟩ : RoomSummary), ⟨"1-102", "1-102", 2, 0, 0⟩].length = 2 ∧
      [(⟨"1-101", "1-101", 3, 1, 0⟩ : RoomSummary), ⟨"1-102", "1-102", 2, 0, 0⟩].map
          (fun x => x.id) = (roomsOnFloor sampleRooms (FloorValue.num 1)).map (fun r => r.id)) ∧
    mapGet (updateDashboardStats sampleRooms sampleEquipmentDocs).floorStats (FloorValue.num 3) =
      none :=
  ⟨(floorStats_buckets sampleRooms sampleEquipmentDocs).2 (FloorValue.num 1)
      ⟨2, 5, 1, 0, [⟨"1-101", "1-101", 3, 1, 0⟩, ⟨"1-102", "1-102", 2, 0, 0⟩]⟩ (by decide),
    by decide⟩

/-- C16: the buckets are keyed by the floor value as given: a room whose floor is the string
`1` and a room whose floor is the number 1 are accumulated into two distinct buckets, each
counting one room. -/
theorem floorStats_string_and_number_keys (r1 r2 : RoomDoc) (equipment : List EquipmentDoc)
    (h1 : r1.data.floor = FloorValue.str "1") (h2 : r2.data.floor = FloorValue.num 1) :
    (updateDashboardStats [r1, r2] equipment).floorStats.map (fun p => (p.1, p.2.totalRooms)) =
        [(FloorValue.str "1", 1), (FloorValue.num 1, 1)] ∧
    (updateDashboardStats [r2, r1] equipment).floorStats.map (fun p => (p.1, p.2.totalRooms)) =
        [(FloorValue.num 1, 1), (FloorValue.str "1", 1)] := by
  constructor <;>
    simp [updateDashboardStats, processRoom, initialStats, mapHas, mapGet, mapSet, h1, h2,
      emptyFloorStat]

/-- C16 at two sample rooms. -/
theorem floorStats_string_and_number_keys_witness :
    (updateDashboardStats
        [sampleRoom "1-101" (FloorValue.str "1") none none,
          sampleRoom "1-102" (FloorValue.num 1) none none] []).floorStats.map
        (fun p => (p.1, p.2.totalRooms)) =
      [(FloorValue.str "1", 1), (FloorValue.num 1, 1)] :=
  (floorStats_string_and_number_keys (sampleRoom "1-101" (FloorValue.str "1") none none)
    (sampleRoom "1-102" (FloorValue.num 1) none none) [] rfl rfl).1

/-- C17: when the floor values of all rooms parse as integers, the display order
`sortedFloors` is a permutation of the keys of the per-floor map in which every floor is
followed only by floors of greater or equal integer value; floor `10` comes after floor
`2`. -/
theorem sortedFloors_numeric_order (rooms : List RoomDoc) (equipment : List EquipmentDoc)
    (h : ∀ r ∈ rooms, parsesAsInteger r.data.floor) :
    (sortedFloors (updateDashboardStats rooms equipment)).Perm
        ((updateDashboardStats rooms equipment).floorStats.map Prod.fst) ∧
    (sortedFloors (updateDashboardStats rooms equipment)).Pairwise floorNotAbove ∧
    sortedFloors (updateDashboardStats stringFloorRooms []) =
        [FloorValue.str "1", FloorValue.str "2", FloorValue.str "10"] := by
  have hperm : (sortedFloors (updateDashboardStats rooms equipment)).Perm
      ((updateDashboardStats rooms equipment).floorStats.map Prod.fst) :=
    List.perm_insertionSort _ _
  have hkeys : ∀ k ∈ (updateDashboardStats rooms equipment).floorStats.map Prod.fst,
      ∃ x, parseInt k = some x := by
    intro k hk
    obtain ⟨b, hb⟩ := (mem_keys_iff_mapGet _ k).1 hk
    obtain ⟨hne, _⟩ := bucket_of_updateDashboardStats rooms equipment k b hb
    obtain ⟨r, hr, hrk⟩ := (roomsOnFloor_ne_nil_iff rooms k).1 hne
    obtain ⟨x, hx, _⟩ := h r hr
    exact ⟨x, hrk ▸ hx⟩
  refine ⟨hperm, ?_, by decide⟩
  have hsorted := pairwise_insertionSort_of_key (fun a b => floorSortsBefore a b = true)
    (fun k => (parseInt k).getD 0)
    ((updateDashboardStats rooms equipment).floorStats.map Prod.fst) (by
      intro a ha b hb
      obtain ⟨x, hx⟩ := hkeys a ha
      obtain ⟨y, hy⟩ := hkeys b hb
      simp [floorSortsBefore_iff a b x y hx hy, hx, hy])
  refine List.Pairwise.imp_of_mem ?_ hsorted
  intro a b ha hb hab
  obtain ⟨x, hx⟩ := hkeys a (hperm.mem_iff.1 ha)
  obtain ⟨y, hy⟩ := hkeys b (hperm.mem_iff.1 hb)
  simp only [hx, hy, Option.getD_some] at hab
  exact ⟨x, y, hx, hy, hab⟩

/-- C17 at rooms on the floors `10`, `2`, `1`, `2`: the display order is 1, 2, 10. -/
theorem sortedFloors_numeric_order_witness :
    (sortedFloors (updateDashboardStats stringFloorRooms [])).Pairwise floorNotAbove ∧
    (updateDashboardStats stringFloorRooms []).floorStats.map Prod.fst =
      [FloorValue.str "10", FloorValue.str "2", FloorValue.str "1"] :=
  ⟨(sortedFloors_numeric_order stringFloorRooms [] (by
      intro r hr
      simp only [stringFloorRooms, List.mem_cons, List.mem_singleton, List.not_mem_nil,
        or_false] at hr
      rcases hr with rfl | rfl | rfl | rfl
      · exact ⟨10, by decide, by decide⟩
      · exact ⟨2, by decide, by decide⟩
      · exact ⟨1, by decide, by decide⟩
      · exact ⟨2, by decide, by decide⟩)).2.1, by decide⟩

/-! ## Activity log: appending an entry -/

/-- C18: for every action and payload, when no user is signed in `logActivity` adds no entry
to the activity log, leaves the existing entries unchanged, and returns after a console
warning. -/
theorem logActivity_unauthenticated (users : List UserDoc) (activityLogs : List LogDoc)
    (action : String) (data : LogPayload) (newId : String) (serverTime : Int)
    (deviceInfo : String × String) :
    logActivity none users activityLogs action data newId serverTime deviceInfo =
      { activityLogs := activityLogs
        warning := some "Cannot log activity: User not authenticated" } := by
  rfl

/-- C19: for a signed-in user `logActivity(action, data)` appends exactly one entry and leaves
the existing entries unchanged; the entry has the given action, the type `data.type` when one
is specified and `general` otherwise, the references `data.references` when given and the
empty map otherwise, and the details `data` itself for a plain string and `data.details`
otherwise; a plain string always yields type `general` and empty references. -/
theorem logActivity_appends_entry (currentUser : AuthUser) (users : List UserDoc)
    (activityLogs : List LogDoc) (action : String) (data : LogPayload) (newId : String)
    (serverTime : Int) (deviceInfo : String × String) :
    ∃ e : LogDoc,
      (logActivity (some currentUser) users activityLogs action data newId serverTime
        deviceInfo).activityLogs = activityLogs ++ [e] ∧
      e.data.action = some action ∧
      (∀ s, data = LogPayload.text s →
        e.data.details = some s ∧ e.data.type = "general" ∧ e.data.references = []) ∧
      (∀ details type references, data = LogPayload.object details type references →
        e.data.details = some details ∧
        (∀ t, type = some t → t ≠ "" → e.data.type = t) ∧
        (type = none ∨ type = some "" → e.data.type = "general") ∧
        (∀ m, references = some m → e.data.references = m) ∧
        (references = none → e.data.references = [])) := by
  refine ⟨_, rfl, rfl, ?_, ?_⟩
  · rintro s rfl
    exact ⟨rfl, rfl, rfl⟩
  · rintro details type references rfl
    refine ⟨rfl, ?_, ?_, ?_, ?_⟩
    · rintro t rfl ht
      simp [payloadType, orElse, ht]
    · rintro (rfl | rfl) <;> simp [payloadType, orElse]
    · rintro m rfl
      rfl
    · rintro rfl
      rfl

/-- C19 at a sample call: a replacement report logged by user `u1` on top of the five sample
entries. -/
theorem logActivity_appends_entry_witness :
    (∃ e : LogDoc,
      (logActivity (some ⟨"u1", none, some "ana@mcpi.edu.ph"⟩) sampleUsers sampleLogs
        "Added Replacement Need"
        (LogPayload.object "Added replacement need for fan in room 1-101" (some "replacement")
          (some [("roomId", "1-101")])) "l6" 60 ("agent", "platform")).activityLogs =
        sampleLogs ++ [e] ∧ e.data.action = some "Added Replacement Need") ∧
    ((logActivity (some ⟨"u1", none, some "ana@mcpi.edu.ph"⟩) sampleUsers sampleLogs
        "Added Replacement Need"
        (LogPayload.object "Added replacement need for fan in room 1-101" (some "replacement")
          (some [("roomId", "1-101")])) "l6" 60 ("agent", "platform")).activityLogs.map
        (fun e => (e.id, e.data.type))).getLast? = some ("l6", "replacement") :=
  ⟨(logActivity_appends_entry ⟨"u1", none, some "ana@mcpi.edu.ph"⟩ sampleUsers sampleLogs
      "Added Replacement Need"
      (LogPayload.object "Added replacement need for fan in room 1-101" (some "replacement")
        (some [("roomId", "1-101")])) "l6" 60 ("agent", "platform")).imp
      (fun _ h => ⟨h.1, h.2.1⟩), by decide⟩

/-- C20: the actor name recorded by `logActivity` is the profile username when it is present
and non-empty, otherwise the session display name when that is present and non-empty,
otherwise the account email; the recorded role is the profile role, or the empty string when
the profile has none. -/
theorem logActivity_actor (currentUser : AuthUser) (users : List UserDoc)
    (activityLogs : List LogDoc) (action : String) (data : LogPayload) (newId : String)
    (serverTime : Int) (deviceInfo : String × String) :
    ∃ e : LogDoc,
      (logActivity (some currentUser) users activityLogs action data newId serverTime
        deviceInfo).activityLogs = activityLogs ++ [e] ∧
      (∀ name, (userDataOf users currentUser.uid).bind (fun d => d.username) = some name →
        name ≠ "" → e.data.userName = some name) ∧
      ((userDataOf users currentUser.uid).bind (fun d => d.username) = none ∨
          (userDataOf users currentUser.uid).bind (fun d => d.username) = some "" →
        (∀ name, currentUser.displayName = some name → name ≠ "" →
          e.data.userName = some name) ∧
        (currentUser.displayName = none ∨ currentUser.displayName = some "" →
          e.data.userName = currentUser.email)) ∧
      (∀ role, (userDataOf users currentUser.uid).bind (fun d => d.role) = some role →
        e.data.role = some role) ∧
      ((userDataOf users currentUser.uid).bind (fun d => d.role) = none →
        e.data.role = some "") := by
  refine ⟨_, rfl, ?_, ?_, ?_, ?_⟩
  · intro name hname hne
    simp [hname, orElse, hne]
  · intro hprofile
    constructor
    · intro name hname hne
      rcases hprofile with h | h <;> simp [h, hname, orElse, hne]
    · intro hdisplay
      rcases hprofile with h | h <;> rcases hdisplay with h' | h' <;> simp [h, h', orElse]
  · intro role hrole
    by_cases hr : role = ""
    · simp [hrole, orElse, hr]
    · simp [hrole, orElse, hr]
  · intro hrole
    simp [hrole, orElse]

/-- C20 at the sample profiles: `u1` is recorded under its username with its role; `u2`, whose
username is empty and who has no role, under the display name with an empty role; a user
without a profile or display name under the email. -/
theorem logActivity_actor_witness :
    (∃ e : LogDoc,
      (logActivity (some ⟨"u1", some "Ana D", some "ana@mcpi.edu.ph"⟩) sampleUsers [] "add"
        (LogPayload.text "x") "l1" 1 ("", "")).activityLogs = [] ++ [e] ∧
      e.data.role = some "admin") ∧
    (logActivity (some ⟨"u1", some "Ana D", some "ana@mcpi.edu.ph"⟩) sampleUsers [] "add"
        (LogPayload.text "x") "l1" 1 ("", "")).activityLogs.map
        (fun e => (e.data.userName, e.data.role)) = [(some "ana", some "admin")] ∧
    (logActivity (some ⟨"u2", some "Ben", some "ben@mcpi.edu.ph"⟩) sampleUsers [] "add"
        (LogPayload.text "x") "l1" 1 ("", "")).activityLogs.map
        (fun e => (e.data.userName, e.data.role)) = [(some "Ben", some "")] ∧
    (logActivity (some ⟨"u3", none, some "cy@mcpi.edu.ph"⟩) sampleUsers [] "add"
        (LogPayload.text "x") "l1" 1 ("", "")).activityLogs.map
        (fun e => (e.data.userName, e.data.role)) = [(some "cy@mcpi.edu.ph", some "")] :=
  ⟨(logActivity_actor ⟨"u1", some "Ana D", some "ana@mcpi.edu.ph"⟩ sampleUsers [] "add"
      (LogPayload.text "x") "l1" 1 ("", "")).imp
      (fun _ h => ⟨h.1, h.2.2.2.1 "admin" (by decide)⟩), by decide, by decide, by decide⟩

/-! ## Lemmas: keys of room documents -/

theorem append_separator_inj (c : Char) (l1 l2 r1 r2 : List Char) (h1 : c ∉ l1) (h2 : c ∉ l2)
    (h : l1 ++ c :: r1 = l2 ++ c :: r2) : l1 = l2 ∧ r1 = r2 := by
  induction l1 generalizing l2 with
  | nil =>
    cases l2 with
    | nil => simpa using h
    | cons b l2 =>
      simp only [List.nil_append, List.cons_append, List.cons.injEq] at h
      exact absurd (h.1 ▸ List.mem_cons_self _ _) h2
  | cons a l1 ih =>
    cases l2 with
    | nil =>
      simp only [List.nil_append, List.cons_append, List.cons.injEq] at h
      exact absurd (h.1 ▸ List.mem_cons_self _ _) h1
    | cons b l2 =>
      simp only [List.cons_append, List.cons.injEq] at h
      obtain ⟨hab, hrest⟩ := h
      obtain ⟨hl, hr⟩ := ih l2 (fun hm => h1 (List.mem_cons_of_mem _ hm))
        (fun hm => h2 (List.mem_cons_of_mem _ hm)) hrest
      exact ⟨by rw [hab, hl], hr⟩

theorem roomKey_inj (f1 n1 f2 n2 : String) (h1 : '-' ∉ f1.data) (h2 : '-' ∉ f2.data)
    (h : f1 ++ "-" ++ n1 = f2 ++ "-" ++ n2) : f1 = f2 ∧ n1 = n2 := by
  have hd := congrArg String.data h
  simp only [String.data_append] at hd
  rw [List.append_assoc, List.append_assoc, List.singleton_append,
    List.singleton_append] at hd
  obtain ⟨hf, hn⟩ := append_separator_inj '-' _ _ _ _ h1 h2 hd
  exact ⟨String.ext hf, String.ext hn⟩

theorem getDoc_some_mem (rooms : List RoomDoc) (roomId : String) (d : RoomDoc)
    (h : getDoc rooms roomId = some d) : d ∈ rooms ∧ d.id = roomId := by
  unfold getDoc at h
  exact ⟨List.mem_of_find?_eq_some h, by simpa using List.find?_some h⟩

theorem getDoc_none_not_mem (rooms : List RoomDoc) (roomId : String)
    (h : getDoc rooms roomId = none) : ∀ d ∈ rooms, d.id ≠ roomId := by
  unfold getDoc at h
  intro d hd
  simpa using List.find?_eq_none.1 h d hd

theorem addRoom_rejects_existing (rooms : List RoomDoc) (floor roomNumber roomName : String)
    (serverTime : Nat)
    (h : ∃ d ∈ rooms, d.data.floor = FloorValue.str floor ∧ d.data.number = roomNumber) :
    (addRoom rooms floor roomNumber roomName serverTime).rooms = rooms ∧
      (addRoom rooms floor roomNumber roomName serverTime).toast.message = "error" := by
  obtain ⟨d, hd, hf, hn⟩ := h
  unfold addRoom
  by_cases h0 : floor = ""
  · simp [h0]
  · have hne : existingRooms rooms floor roomNumber ≠ [] := by
      intro he
      have hmem : d ∈ existingRooms rooms floor roomNumber := by
        unfold existingRooms
        rw [List.mem_filter]
        exact ⟨hd, by simp [hf, hn]⟩
      rw [he] at hmem
      exact List.not_mem_nil _ hmem
    simp [h0, List.isEmpty_iff, hne]

/-- The ids of the room documents are distinct and every document is keyed by its floor and
number. -/
theorem addRoom_keeps_keys (rooms : List RoomDoc) (floor roomNumber roomName : String)
    (serverTime : Nat) (hnodup : (rooms.map (fun d => d.id)).Nodup)
    (hkeyed : KeyedByFloorAndNumber rooms) :
    ((addRoom rooms floor roomNumber roomName serverTime).rooms.map (fun d => d.id)).Nodup ∧
      KeyedByFloorAndNumber (addRoom rooms floor roomNumber roomName serverTime).rooms := by
  unfold addRoom
  by_cases h0 : floor = ""
  · simp only [h0, if_true]
    exact ⟨hnodup, hkeyed⟩
  · simp only [h0, if_false]
    by_cases he : (!(existingRooms rooms floor roomNumber).isEmpty) = true
    · simp only [he, if_true]
      exact ⟨hnodup, hkeyed⟩
    · simp only [he]
      unfold setDoc
      cases hg : getDoc rooms (floor ++ "-" ++ roomNumber) with
      | some d0 =>
        constructor
        · have hids : (rooms.map (fun d => if d.id = floor ++ "-" ++ roomNumber then
              ({ id := floor ++ "-" ++ roomNumber,
                 data := { id := floor ++ "-" ++ roomNumber, floor := FloorValue.str floor,
                           number := roomNumber, name := roomName, equipment := [],
                           maintenance := some [], replacements := some [],
                           lastModified := serverTime } } : RoomDoc) else d)).map
              (fun d => d.id) = rooms.map (fun d => d.id) := by
            rw [List.map_map]
            apply List.map_congr_left
            intro d _
            by_cases hd : d.id = floor ++ "-" ++ roomNumber <;> simp [hd]
          simp only [Bool.false_eq_true, if_false]
          rw [hids]
          exact hnodup
        · intro d hd
          simp only [Bool.false_eq_true, if_false, List.mem_map] at hd
          obtain ⟨d', hd', rfl⟩ := hd
          by_cases hid : d'.id = floor ++ "-" ++ roomNumber
          · simp only [hid, if_true]
            exact ⟨floor, rfl, rfl⟩
          · simp only [hid, if_false]
            exact hkeyed d' hd'
      | none =>
        have hnot := getDoc_none_not_mem rooms _ hg
        constructor
        · simp only [Bool.false_eq_true, if_false, List.map_append, List.map_cons, List.map_nil]
          refine List.nodup_append.2 ⟨hnodup, List.nodup_singleton _, ?_⟩
          intro x hx hx'
          rw [List.mem_singleton] at hx'
          obtain ⟨d, hd, rfl⟩ := List.mem_map.1 hx
          exact hnot d hd hx'
        · intro d hd
          simp only [Bool.false_eq_true, if_false, List.mem_append, List.mem_singleton] at hd
          rcases hd with hd | rfl
          · exact hkeyed d hd
          · exact ⟨floor, rfl, rfl⟩

theorem addRooms_keeps_keys (calls : List AddRoomCall) (rooms : List RoomDoc)
    (hnodup : (rooms.map (fun d => d.id)).Nodup) (hkeyed : KeyedByFloorAndNumber rooms) :
    ((addRooms rooms calls).map (fun d => d.id)).Nodup ∧
      KeyedByFloorAndNumber (addRooms rooms calls) := by
  induction calls generalizing rooms with
  | nil => exact ⟨hnodup, hkeyed⟩
  | cons c calls ih =>
    obtain ⟨h1, h2⟩ := addRoom_keeps_keys rooms c.floor c.roomNumber c.roomName c.serverTime
      hnodup hkeyed
    exact ih _ h1 h2

/-! ## Floors and rooms -/

/-- C21: a floor is deleted only when no room references it. If some room's `floor` value is
the string of the floor number passed to `removeFloor`, nothing is deleted and the `floors`
collection is unchanged; the collection changes only when no such room exists and the
deletion was confirmed, and then it loses exactly the document `floorId`. -/
theorem removeFloor_only_without_rooms (rooms : List RoomDoc) (floors : List FloorDoc)
    (floorId : String) (floorNumber : Option Int) (confirmed : Bool) :
    ((∃ d ∈ rooms, d.data.floor = FloorValue.str (numberToString floorNumber)) →
      (removeFloor rooms floors floorId floorNumber confirmed).floors = floors) ∧
    ((removeFloor rooms floors floorId floorNumber confirmed).floors ≠ floors →
      (∀ d ∈ rooms, d.data.floor ≠ FloorValue.str (numberToString floorNumber)) ∧
        confirmed = true) ∧
    ((∀ d ∈ rooms, d.data.floor ≠ FloorValue.str (numberToString floorNumber)) →
      confirmed = true →
      (removeFloor rooms floors floorId floorNumber confirmed).floors =
        floors.filter (fun f => decide (f.id ≠ floorId))) := by
  have hiff : roomsOfFloorNumber rooms floorNumber = [] ↔
      ∀ d ∈ rooms, d.data.floor ≠ FloorValue.str (numberToString floorNumber) := by
    unfold roomsOfFloorNumber
    rw [List.filter_eq_nil_iff]
    simp
  refine ⟨?_, ?_, ?_⟩
  · rintro ⟨d, hd, hf⟩
    have hne : roomsOfFloorNumber rooms floorNumber ≠ [] := fun he => hiff.1 he d hd hf
    simp [removeFloor, List.isEmpty_iff, hne]
  · intro hchanged
    by_cases he : roomsOfFloorNumber rooms floorNumber = []
    · refine ⟨hiff.1 he, ?_⟩
      cases confirmed with
      | true => rfl
      | false => simp [removeFloor, he] at hchanged
    · simp [removeFloor, List.isEmpty_iff, he] at hchanged
  · intro hnone hc
    simp [removeFloor, hiff.2 hnone, hc]

/-- C21 at the sample data: floor `3` has a room in `twoRecordRooms`, so its document stays;
floor `2` has none, so a confirmed removal deletes the document `2`. -/
theorem removeFloor_only_without_rooms_witness :
    (removeFloor twoRecordRooms [⟨"2", ⟨some 2, "", 0⟩⟩, ⟨"3", ⟨some 3, "", 0⟩⟩] "3" (some 3)
        true).floors = [⟨"2", ⟨some 2, "", 0⟩⟩, ⟨"3", ⟨some 3, "", 0⟩⟩] ∧
    (removeFloor twoRecordRooms [⟨"2", ⟨some 2, "", 0⟩⟩, ⟨"3", ⟨some 3, "", 0⟩⟩] "2" (some 2)
        true).floors = [⟨"3", ⟨some 3, "", 0⟩⟩] :=
  ⟨(removeFloor_only_without_rooms twoRecordRooms
      [⟨"2", ⟨some 2, "", 0⟩⟩, ⟨"3", ⟨some 3, "", 0⟩⟩] "3" (some 3) true).1
      ⟨sampleRoom "3-301" (FloorValue.str "3")
        (some [sampleRecord "fan" (some false), sampleRecord "lamp" (some true)])
        (some [sampleRecord "desk" (some false), sampleRecord "chair" none]),
        by decide, by decide⟩,
    by decide⟩

/-- C22: room identity is unique per floor and number. In every `rooms` collection reached
from the empty one by `addRoom` calls no two documents have the same floor and number, and
on any collection an `addRoom` call whose floor and room number match the `floor` and
`number` fields of an existing room is rejected and leaves the collection unchanged. -/
theorem addRoom_unique_floor_number (calls : List AddRoomCall) (rooms : List RoomDoc)
    (floor roomNumber roomName : String) (serverTime : Nat) :
    (addRooms [] calls).Pairwise
        (fun d1 d2 => ¬ (d1.data.floor = d2.data.floor ∧ d1.data.number = d2.data.number)) ∧
    ((∃ d ∈ rooms, d.data.floor = FloorValue.str floor ∧ d.data.number = roomNumber) →
      (addRoom rooms floor roomNumber roomName serverTime).rooms = rooms ∧
        (addRoom rooms floor roomNumber roomName serverTime).toast.message = "error") := by
  refine ⟨?_, addRoom_rejects_existing rooms floor roomNumber roomName serverTime⟩
  obtain ⟨hnodup, hkeyed⟩ := addRooms_keeps_keys calls [] (by simp)
    (by intro d hd; exact absurd hd (List.not_mem_nil _))
  have hpair : (addRooms [] calls).Pairwise (fun d1 d2 => d1.id ≠ d2.id) := by
    have h := hnodup
    rw [List.Nodup, List.pairwise_map] at h
    exact h
  refine List.Pairwise.imp_of_mem ?_ hpair
  intro d1 d2 h1 h2 hne hsame
  obtain ⟨f1, hf1, hid1⟩ := hkeyed d1 h1
  obtain ⟨f2, hf2, hid2⟩ := hkeyed d2 h2
  apply hne
  have hf : f1 = f2 := by
    have := hsame.1
    rw [hf1, hf2] at this
    exact FloorValue.str.inj this
  rw [hid1, hid2, hf, hsame.2]

/-- C22 at a sample sequence: room 101 is added on floors 1 and 2; the second submission of
floor 1, number 101 is rejected. -/
theorem addRoom_unique_floor_number_witness :
    (addRoom (addRooms [] [⟨"1", "101", "A", 1⟩, ⟨"2", "101", "C", 3⟩]) "1" "101" "B" 4).rooms =
        addRooms [] [⟨"1", "101", "A", 1⟩, ⟨"2", "101", "C", 3⟩] ∧
    (addRooms [] [⟨"1", "101", "A", 1⟩, ⟨"1", "101", "B", 2⟩, ⟨"2", "101", "C", 3⟩]).map
        (fun d => (d.id, d.data.name)) = [("1-101", "A"), ("2-101", "C")] :=
  ⟨((addRoom_unique_floor_number [] (addRooms [] [⟨"1", "101", "A", 1⟩, ⟨"2", "101", "C", 3⟩])
      "1" "101" "B" 4).2
      ⟨⟨"1-101", ⟨"1-101", FloorValue.str "1", "101", "A", [], some [], some [], 1⟩⟩,
        by decide, by decide, by decide⟩).1,
    by decide⟩

/-- C25 (the code at inputs that are not the plain decimal string): `addFloor` keys the
document by the text of the form field and stores `parseInt` of it, so the inputs `01` and
`1e2` create the documents `01` and `1e2`, both with `number` 1, whose decimal string is
`1`. -/
theorem addFloor_key_differs_from_number :
    (addFloor [] "01" "Annex" 0).floors = [⟨"01", ⟨some 1, "Annex", 0⟩⟩] ∧
    (addFloor [] "1e2" "Annex" 0).floors = [⟨"1e2", ⟨some 1, "Annex", 0⟩⟩] ∧
    (addFloor [] "01" "Annex" 0).toast = some ⟨"Floor added successfully!", "success"⟩ ∧
    numberToString (some 1) = "1" ∧
    (addFloor [] "1" "Annex" 0).floors = [⟨"1", ⟨some 1, "Annex", 0⟩⟩] := by
  decide

/-- C30 (the claim fails): the key `1-2-3` is the key of floor `1-2`, number `3` and of floor
`1`, number `2-3`. With the first room stored, `addRoom` for the second finds no room with
these fields and writes the document `1-2-3` again, replacing its fields and emptying its
`maintenance` array. -/
theorem addRoom_overwrites_on_key_collision :
    ("1-2" ++ "-" ++ "3" : String) = "1" ++ "-" ++ "2-3" ∧
    getDoc hyphenFloorRooms ("1" ++ "-" ++ "2-3") = hyphenFloorRooms.head? ∧
    maintenanceOf hyphenFloorRooms "1-2-3" = [sampleRecord "fan" (some false)] ∧
    (addRoom hyphenFloorRooms "1" "2-3" "New" 5).toast =
        ⟨"Room added successfully!", "success"⟩ ∧
    maintenanceOf (addRoom hyphenFloorRooms "1" "2-3" "New" 5).rooms "1-2-3" = [] ∧
    (addRoom hyphenFloorRooms "1" "2-3" "New" 5).rooms ≠ hyphenFloorRooms := by
  decide

/-- C30 (amended): when every room document is keyed by the floor and number it stores and
no floor contains a hyphen, `addRoom` with a hyphen-free floor never overwrites an existing
room: if a document with the key of the submitted floor and room number exists, `addRoom`
leaves the whole collection, and so that document with its `maintenance` and `replacements`
arrays, unchanged; and the key is distinct for distinct pairs with hyphen-free floors. -/
theorem addRoom_keeps_existing_room (rooms : List RoomDoc) (floor roomNumber roomName : String)
    (serverTime : Nat) (d : RoomDoc) (hkeyed : KeyedByFloorAndNumber rooms)
    (hrooms : ∀ r ∈ rooms, ∀ f, r.data.floor = FloorValue.str f → '-' ∉ f.data)
    (hfloor : '-' ∉ floor.data)
    (hexists : getDoc rooms (floor ++ "-" ++ roomNumber) = some d) :
    (addRoom rooms floor roomNumber roomName serverTime).rooms = rooms ∧
    getDoc (addRoom rooms floor roomNumber roomName serverTime).rooms
        (floor ++ "-" ++ roomNumber) = some d ∧
    (∀ f1 n1 f2 n2 : String, '-' ∉ f1.data → '-' ∉ f2.data →
      f1 ++ "-" ++ n1 = f2 ++ "-" ++ n2 → f1 = f2 ∧ n1 = n2) := by
  obtain ⟨hmem, hid⟩ := getDoc_some_mem rooms _ d hexists
  obtain ⟨f, hf, hkey⟩ := hkeyed d hmem
  have hinj := roomKey_inj f d.data.number floor roomNumber (hrooms d hmem f hf) hfloor
    (hkey.symm.trans hid)
  have hsame := (addRoom_rejects_existing rooms floor roomNumber roomName serverTime
    ⟨d, hmem, by rw [hf, hinj.1], hinj.2⟩).1
  refine ⟨hsame, by rw [hsame]; exact hexists, ?_⟩
  intro f1 n1 f2 n2 h1 h2 h
  exact roomKey_inj f1 n1 f2 n2 h1 h2 h

/-- C30 (amended) at a sample collection: room `1-101`, with a maintenance record, is left as
it is by a second submission of floor 1, number 101. -/
theorem addRoom_keeps_existing_room_witness :
    (addRoom [⟨"1-101", ⟨"1-101", FloorValue.str "1", "101", "A", [],
        some [sampleRecord "fan" (some false)], some [], 1⟩⟩] "1" "101" "B" 4).rooms =
      [⟨"1-101", ⟨"1-101", FloorValue.str "1", "101", "A", [],
        some [sampleRecord "fan" (some false)], some [], 1⟩⟩] :=
  (addRoom_keeps_existing_room
    [⟨"1-101", ⟨"1-101", FloorValue.str "1", "101", "A", [],
      some [sampleRecord "fan" (some false)], some [], 1⟩⟩] "1" "101" "B" 4
    ⟨"1-101", ⟨"1-101", FloorValue.str "1", "101", "A", [],
      some [sampleRecord "fan" (some false)], some [], 1⟩⟩
    (by
      intro r hr
      rw [List.mem_singleton] at hr
      subst hr
      exact ⟨"1", rfl, by decide⟩)
    (by
      intro r hr f hf
      rw [List.mem_singleton] at hr
      subst hr
      have hf' : f = "1" := (FloorValue.str.inj hf).symm
      subst hf'
      decide)
    (by decide) (by decide)).1

/-! ## Lemmas: deleting the subcollections of a room -/

theorem foldl_deleteEquipmentDoc (docs equipment : List EquipmentDoc) :
    docs.foldl (fun equipment doc => deleteEquipmentDoc equipment doc.parent doc.id) equipment =
      equipment.filter (fun e =>
        !(docs.any (fun doc => decide (e.parent = doc.parent) && decide (e.id = doc.id)))) := by
  induction docs generalizing equipment with
  | nil => simp
  | cons doc docs ih =>
    rw [List.foldl_cons, ih]
    unfold deleteEquipmentDoc
    rw [List.filter_filter]
    apply List.filter_congr
    intro e _
    simp only [List.any_cons, Bool.not_or]
    rw [Bool.and_comm]

theorem deleteRoom_equipment (store : RoomStore) (roomId : String) (d : RoomDoc)
    (hd : getDoc store.rooms roomId = some d) :
    (deleteRoom store roomId).store.equipment =
      store.equipment.filter (fun e => decide (e.parent ≠ roomId)) := by
  unfold deleteRoom
  simp only [hd]
  rw [foldl_deleteEquipmentDoc]
  apply List.filter_congr
  intro e he
  by_cases hp : e.parent = roomId
  · have hmem : e ∈ equipmentSnapshot store.equipment roomId := by
      unfold equipmentSnapshot
      rw [List.mem_filter]
      exact ⟨he, by simp [hp]⟩
    have hany : (equipmentSnapshot store.equipment roomId).any
        (fun doc => decide (e.parent = doc.parent) && decide (e.id = doc.id)) = true := by
      rw [List.any_eq_true]
      exact ⟨e, hmem, by simp⟩
    rw [hany]
    simp [hp]
  · have hany : (equipmentSnapshot store.equipment roomId).any
        (fun doc => decide (e.parent = doc.parent) && decide (e.id = doc.id)) = false := by
      rw [List.any_eq_false]
      intro doc hdoc
      unfold equipmentSnapshot at hdoc
      rw [List.mem_filter] at hdoc
      have hdp : doc.parent = roomId := by simpa using hdoc.2
      have : ¬ e.parent = doc.parent := fun h => hp (h.trans hdp)
      simp [this]
    rw [hany]
    simp [hp]

theorem getDoc_filter_ne (rooms : List RoomDoc) (roomId other : String) :
    getDoc (rooms.filter (fun d => decide (d.id ≠ roomId))) other =
      if other = roomId then none else getDoc rooms other := by
  unfold getDoc
  induction rooms with
  | nil => simp
  | cons d rooms ih =>
    by_cases hd : d.id = roomId
    · have hf : (d :: rooms).filter (fun d => decide (d.id ≠ roomId)) =
          rooms.filter (fun d => decide (d.id ≠ roomId)) := by simp [hd]
      rw [hf, ih]
      by_cases ho : other = roomId
      · simp [ho]
      · have : ¬ d.id = other := fun h => ho (h.symm.trans hd)
        simp [ho, this]
    · have hf : (d :: rooms).filter (fun d => decide (d.id ≠ roomId)) =
          d :: rooms.filter (fun d => decide (d.id ≠ roomId)) := by simp [hd]
      rw [hf, List.find?_cons, List.find?_cons, ih]
      by_cases ho : other = roomId
      · have : ¬ d.id = other := fun h => hd (h.trans ho)
        simp [ho, this, hd]
      · simp [ho]

/-! ## Rooms and their subcollections -/

/-- C23: after a successful `deleteRoom(roomId)` on an existing room the `rooms` collection
no longer contains `roomId` and the equipment subcollection of the room is empty, while every
other room document and the equipment entries of every other room are unchanged; when the
room does not exist the whole store is unchanged. -/
theorem deleteRoom_cascade (store : RoomStore) (roomId : String) :
    (getDoc store.rooms roomId = none → (deleteRoom store roomId).store = store) ∧
    (getDoc store.rooms roomId ≠ none →
      getDoc (deleteRoom store roomId).store.rooms roomId = none ∧
      (∀ d ∈ (deleteRoom store roomId).store.rooms, d.id ≠ roomId) ∧
      equipmentSnapshot (deleteRoom store roomId).store.equipment roomId = [] ∧
      (∀ other, other ≠ roomId →
        getDoc (deleteRoom store roomId).store.rooms other = getDoc store.rooms other ∧
        equipmentSnapshot (deleteRoom store roomId).store.equipment other =
          equipmentSnapshot store.equipment other)) := by
  constructor
  · intro hnone
    unfold deleteRoom
    simp only [hnone]
  · intro hsome
    obtain ⟨d, hd⟩ := Option.ne_none_iff_exists'.1 hsome
    have hrooms : (deleteRoom store roomId).store.rooms =
        store.rooms.filter (fun d => decide (d.id ≠ roomId)) := by
      unfold deleteRoom
      simp only [hd]
    have hequip := deleteRoom_equipment store roomId d hd
    refine ⟨?_, ?_, ?_, ?_⟩
    · rw [hrooms, getDoc_filter_ne]
      simp
    · intro r hr
      rw [hrooms, List.mem_filter] at hr
      simpa using hr.2
    · rw [hequip]
      unfold equipmentSnapshot
      rw [List.filter_filter, List.filter_eq_nil_iff]
      intro e _
      by_cases hp : e.parent = roomId <;> simp [hp]
    · intro other hother
      constructor
      · rw [hrooms, getDoc_filter_ne, if_neg hother]
      · rw [hequip]
        unfold equipmentSnapshot
        rw [List.filter_filter]
        apply List.filter_congr
        intro e _
        by_cases hp : e.parent = other
        · have : ¬ e.parent = roomId := fun h => hother (hp.symm.trans h)
          simp [hp, hother]
        · simp [hp]

/-- C23 at the sample store: deleting room `1-101` leaves the rooms `1-102` and `2-201` with
their four equipment entries. -/
theorem deleteRoom_cascade_witness :
    (getDoc (deleteRoom sampleStore "1-101").store.rooms "1-101" = none ∧
      equipmentSnapshot (deleteRoom sampleStore "1-101").store.equipment "1-101" = []) ∧
    (deleteRoom sampleStore "1-101").store.equipment.map (fun e => (e.parent, e.id)) =
      [("1-102", "e3"), ("1-102", "e4"), ("2-201", "e5"), ("2-201", "e6")] ∧
    (deleteRoom sampleStore "9-999").store = sampleStore :=
  ⟨⟨((deleteRoom_cascade sampleStore "1-101").2 (by decide)).1,
      ((deleteRoom_cascade sampleStore "1-101").2 (by decide)).2.2.1⟩,
    by decide, (deleteRoom_cascade sampleStore "9-999").1 (by decide)⟩

/-- C24: every equipment entry created by `addEquipment(roomId)` is stored in the equipment
subcollection of the room `roomId` with its `roomId` field equal to `roomId` and its `floor`
field equal to the floor of that room at creation time; when the room does not exist no
entry is created; hence in any store built only through `addEquipment` the owning room id of
an entry is the parent of its subcollection. -/
theorem addEquipment_owner (rooms : List RoomDoc) (equipment : List EquipmentDoc)
    (roomId : String) (form : EquipmentForm) (newId : String) (serverTime : Nat)
    (calls : List AddEquipmentCall) :
    (getDoc rooms roomId = none →
      (addEquipment rooms equipment roomId form newId serverTime).equipment = equipment) ∧
    (∀ d, getDoc rooms roomId = some d →
      ∃ e : EquipmentDoc,
        (addEquipment rooms equipment roomId form newId serverTime).equipment =
          equipment ++ [e] ∧
        e.parent = roomId ∧ e.data.roomId = roomId ∧ e.data.floor = d.data.floor) ∧
    (∀ e ∈ addEquipments [] calls, e.data.roomId = e.parent) := by
  refine ⟨?_, ?_, ?_⟩
  · intro hnone
    unfold addEquipment
    simp only [hnone]
  · intro d hd
    unfold addEquipment
    simp only [hd]
    exact ⟨_, rfl, rfl, rfl, rfl⟩
  · have hgen : ∀ (cs : List AddEquipmentCall) (eq : List EquipmentDoc),
        (∀ e ∈ eq, e.data.roomId = e.parent) →
        ∀ e ∈ addEquipments eq cs, e.data.roomId = e.parent := by
      intro cs
      induction cs with
      | nil => intro eq h; exact h
      | cons c cs ih =>
        intro eq h
        apply ih
        intro e he
        unfold addEquipment at he
        cases hg : getDoc c.rooms c.roomId with
        | none =>
          simp only [hg] at he
          exact h e he
        | some d =>
          simp only [hg, List.mem_append, List.mem_singleton] at he
          rcases he with he | rfl
          · exact h e he
          · rfl
    exact hgen calls [] (fun e he => absurd he (List.not_mem_nil _))

/-- C24 at the sample rooms: an entry added to room `2-201` carries that room id and the
room's floor 2; a call for the unknown room `9-999` creates nothing. -/
theorem addEquipment_owner_witness :
    (∃ e : EquipmentDoc,
      (addEquipment sampleRooms [] "2-201" (sampleEquipmentForm "pc" "4") "n1" 9).equipment =
        [] ++ [e] ∧
      e.parent = "2-201" ∧ e.data.roomId = "2-201" ∧ e.data.floor = FloorValue.num 2) ∧
    (addEquipment sampleRooms [] "9-999" (sampleEquipmentForm "pc" "4") "n1" 9).equipment = [] :=
  ⟨(addEquipment_owner sampleRooms [] "2-201" (sampleEquipmentForm "pc" "4") "n1" 9 []).2.1
      (sampleRoom "2-201" (FloorValue.num 2)
        (some [sampleRecord "desk" none, sampleRecord "pc" (some true),
          sampleRecord "tv" (some false)])
        (some [sampleRecord "chair" (some false)])) (by decide),
    (addEquipment_owner sampleRooms [] "9-999" (sampleEquipmentForm "pc" "4") "n1" 9 []).1
      (by decide)⟩

/-! ## Lemmas: matching the email pattern -/

theorem matchEnds_seq (p q : Pattern) (cs : List Char) :
    matchEnds (Pattern.seq p q) cs = (matchEnds p cs).flatMap (fun rest => matchEnds q rest) :=
  rfl

theorem matchEnds_plus (p : Pattern) (cs : List Char) :
    matchEnds (Pattern.plus p) cs = plusEnds (fun rest => matchEnds p rest) cs.length cs :=
  rfl

theorem matchEnds_chars_cons (allowed : Char → Bool) (c : Char) (rest : List Char) :
    matchEnds (Pattern.chars allowed) (c :: rest) = if allowed c then [rest] else [] :=
  rfl

theorem matchEnds_chars_nil (allowed : Char → Bool) :
    matchEnds (Pattern.chars allowed) [] = [] :=
  rfl

theorem plusEnds_succ (step : List Char → List (List Char)) (n : Nat) (cs : List Char) :
    plusEnds step (n + 1) cs = (step cs).flatMap (fun rest => plusEnds step n rest ++ [rest]) :=
  rfl

theorem mem_plusEnds_chars (allowed : Char → Bool) (n : Nat) (cs r : List Char) :
    r ∈ plusEnds (fun rest => matchEnds (Pattern.chars allowed) rest) n cs ↔
      ∃ pre : List Char, pre ≠ [] ∧ pre.length ≤ n ∧ (∀ c ∈ pre, allowed c = true) ∧
        cs = pre ++ r := by
  induction n generalizing cs with
  | zero =>
    simp only [plusEnds, List.not_mem_nil, false_iff]
    rintro ⟨pre, hne, hlen, _, _⟩
    exact hne (List.length_eq_zero.1 (Nat.le_zero.1 hlen))
  | succ n ih =>
    cases cs with
    | nil =>
      rw [plusEnds_succ]
      simp only [matchEnds_chars_nil, List.flatMap_nil, List.not_mem_nil, false_iff]
      rintro ⟨pre, hne, _, _, h⟩
      have := congrArg List.length h
      simp only [List.length_nil, List.length_append] at this
      exact hne (List.length_eq_zero.1 (by omega))
    | cons c rest =>
      by_cases hc : allowed c = true
      · rw [plusEnds_succ]
        simp only [matchEnds_chars_cons, hc, if_true, List.flatMap_cons, List.flatMap_nil,
          List.append_nil, List.mem_append, List.mem_singleton, ih]
        constructor
        · rintro (⟨pre, hne, hlen, hall, hrest⟩ | rfl)
          · refine ⟨c :: pre, by simp, by simp only [List.length_cons]; omega, ?_, ?_⟩
            · intro x hx
              rcases List.mem_cons.1 hx with rfl | hx
              · exact hc
              · exact hall x hx
            · simp [hrest]
          · exact ⟨[c], by simp, by simp, by simpa using hc, by simp⟩
        · rintro ⟨pre, hne, hlen, hall, hcs⟩
          cases pre with
          | nil => exact absurd rfl hne
          | cons a pre =>
            simp only [List.cons_append, List.cons.injEq] at hcs
            obtain ⟨_, hrest⟩ := hcs
            by_cases hp : pre = []
            · right
              simp [hrest, hp]
            · left
              refine ⟨pre, hp, ?_, fun x hx => hall x (List.mem_cons_of_mem _ hx), hrest⟩
              simp only [List.length_cons] at hlen
              omega
      · rw [plusEnds_succ]
        simp only [matchEnds_chars_cons, hc, Bool.false_eq_true, if_false, List.flatMap_nil,
          List.not_mem_nil, false_iff]
        rintro ⟨pre, hne, _, hall, hcs⟩
        cases pre with
        | nil => exact absurd rfl hne
        | cons a pre =>
          simp only [List.cons_append, List.cons.injEq] at hcs
          exact hc (hcs.1 ▸ hall a (List.mem_cons_self _ _))

theorem mem_matchEnds_literal (s cs r : List Char) :
    r ∈ matchEnds (literal s) cs ↔ cs = s ++ r := by
  induction s generalizing cs with
  | nil =>
    simp only [literal, matchEnds, List.mem_singleton, List.nil_append]
    exact eq_comm
  | cons a s ih =>
    rw [literal, matchEnds_seq, List.mem_flatMap]
    cases cs with
    | nil => simp [matchEnds_chars_nil]
    | cons c cs =>
      by_cases hc : c = a
      · simp [matchEnds_chars_cons, hc, ih]
      · have hc' : ¬ a = c := fun h => hc h.symm
        simp [matchEnds_chars_cons, hc, hc']

theorem localPartClass_iff (c : Char) : localPartClass c = true ↔ IsLocalPartChar c := by
  simp [localPartClass, IsLocalPartChar, or_assoc]

theorem validateEmail_eq_true_iff (email : String) :
    validateEmail email = true ↔
      ∃ localPart : List Char, localPart ≠ [] ∧ (∀ c ∈ localPart, IsLocalPartChar c) ∧
        email.data = localPart ++ "@mcpi.edu.ph".data := by
  have htest : testAnchored emailPattern email = true ↔
      ∃ localPart : List Char, localPart ≠ [] ∧ (∀ c ∈ localPart, IsLocalPartChar c) ∧
        email.data = localPart ++ "@mcpi.edu.ph".data := by
    unfold testAnchored emailPattern
    rw [List.any_eq_true]
    constructor
    · rintro ⟨r, hr, hempty⟩
      have hr0 : r = [] := List.isEmpty_iff.1 hempty
      subst hr0
      rw [matchEnds_seq, List.mem_flatMap, matchEnds_plus] at hr
      obtain ⟨r1, hr1, hlit⟩ := hr
      obtain ⟨pre, hne, _, hall, hcs⟩ := (mem_plusEnds_chars _ _ _ _).1 hr1
      have hr1' := (mem_matchEnds_literal _ _ _).1 hlit
      rw [List.append_nil] at hr1'
      exact ⟨pre, hne, fun c hc => (localPartClass_iff c).1 (hall c hc), by rw [hcs, hr1']⟩
    · rintro ⟨pre, hne, hall, hcs⟩
      refine ⟨[], ?_, rfl⟩
      rw [matchEnds_seq, List.mem_flatMap, matchEnds_plus]
      refine ⟨"@mcpi.edu.ph".data, ?_, ?_⟩
      · refine (mem_plusEnds_chars _ _ _ _).2
          ⟨pre, hne, ?_, fun c hc => (localPartClass_iff c).2 (hall c hc), hcs⟩
        rw [hcs, List.length_append]
        omega
      · exact (mem_matchEnds_literal _ _ _).2 (by simp)
  unfold validateEmail
  rw [← htest]
  cases testAnchored emailPattern email <;> simp

/-! ## Account form -/

/-- C26: `validateEmail` returns `true` exactly when the email is one or more characters from
letters, digits and `.`, `_`, `%`, `+`, `-`, followed by the literal suffix `@mcpi.edu.ph`;
it returns `false` for every email that does not end with `@mcpi.edu.ph`, for an empty local
part, and for a domain in another case or with something after it. -/
theorem validateEmail_exact (email : String) :
    (validateEmail email = true ↔
      ∃ localPart : List Char, localPart ≠ [] ∧ (∀ c ∈ localPart, IsLocalPartChar c) ∧
        email.data = localPart ++ "@mcpi.edu.ph".data) ∧
    (¬ "@mcpi.edu.ph".data <:+ email.data → validateEmail email = false) ∧
    validateEmail "@mcpi.edu.ph" = false ∧
    validateEmail "ana@MCPI.EDU.PH" = false ∧
    validateEmail "ana@mcpi.edu.ph.com" = false ∧
    validateEmail "ana cruz@mcpi.edu.ph" = false ∧
    validateEmail "ana.cruz+lab_1@mcpi.edu.ph" = true := by
  refine ⟨validateEmail_eq_true_iff email, ?_, by decide, by decide, by decide, by decide,
    by decide⟩
  intro hsuffix
  cases h : validateEmail email with
  | false => rfl
  | true =>
    obtain ⟨pre, _, _, hcs⟩ := (validateEmail_eq_true_iff email).1 h
    exact absurd ⟨pre, hcs.symm⟩ hsuffix

/-- C26 at an address of another domain: it does not end with `@mcpi.edu.ph` and is
refused. -/
theorem validateEmail_exact_witness : validateEmail "ana@gmail.com" = false :=
  (validateEmail_exact "ana@gmail.com").2.1 (by decide)

/-! ## Lemmas: sums over the per-floor map -/

theorem sum_mapSet {K V M : Type} [DecidableEq K] [AddCommMonoid M] (f : V → M)
    (m : List (K × V)) (k : K) (v : V) :
    ((mapSet m k v).map (fun p => f p.2)).sum + ((mapGet m k).map f).getD 0 =
      (m.map (fun p => f p.2)).sum + f v := by
  induction m with
  | nil => simp [mapSet, mapGet, add_comm]
  | cons p m ih =>
    obtain ⟨a, b⟩ := p
    by_cases h : a = k
    · simp only [mapSet, mapGet, h, if_true, List.map_cons, List.sum_cons, Option.map_some',
        Option.getD_some]
      abel
    · simp only [mapSet, mapGet, h, if_false, List.map_cons, List.sum_cons]
      rw [add_assoc, ih, add_assoc]

theorem keys_mapSet {K V : Type} [DecidableEq K] (m : List (K × V)) (k : K) (v : V) :
    (mapSet m k v).map Prod.fst =
      if k ∈ m.map Prod.fst then m.map Prod.fst else m.map Prod.fst ++ [k] := by
  induction m with
  | nil => simp [mapSet]
  | cons p m ih =>
    obtain ⟨a, b⟩ := p
    by_cases h : a = k
    · simp [mapSet, h]
    · have h' : ¬ k = a := fun e => h e.symm
      simp only [mapSet, h, if_false, List.map_cons, ih, List.mem_cons, h', false_or]
      split <;> simp

theorem nodup_keys_mapSet {K V : Type} [DecidableEq K] (m : List (K × V)) (k : K) (v : V)
    (h : (m.map Prod.fst).Nodup) : ((mapSet m k v).map Prod.fst).Nodup := by
  rw [keys_mapSet]
  split
  · exact h
  · rename_i hk
    exact List.nodup_append.2 ⟨h, List.nodup_singleton _, by
      intro x hx hx'
      rw [List.mem_singleton] at hx'
      exact hk (hx' ▸ hx)⟩

theorem processRoom_floorStats (equipment : List EquipmentDoc) (s : DashboardStats)
    (r : RoomDoc) :
    (processRoom equipment s r).floorStats =
      mapSet
        (if !mapHas s.floorStats r.data.floor then mapSet s.floorStats r.data.floor emptyFloorStat
          else s.floorStats)
        r.data.floor
        (addRoomToBucket equipment
          ((mapGet
            (if !mapHas s.floorStats r.data.floor then
              mapSet s.floorStats r.data.floor emptyFloorStat
            else s.floorStats) r.data.floor).getD emptyFloorStat) r) :=
  rfl

theorem nodup_keys_foldl_processRoom (equipment : List EquipmentDoc) (rooms : List RoomDoc)
    (s : DashboardStats) (h : (s.floorStats.map Prod.fst).Nodup) :
    ((rooms.foldl (processRoom equipment) s).floorStats.map Prod.fst).Nodup := by
  induction rooms generalizing s with
  | nil => exact h
  | cons r rooms ih =>
    apply ih
    rw [processRoom_floorStats]
    apply nodup_keys_mapSet
    split
    · exact nodup_keys_mapSet _ _ _ h
    · exact h

theorem sum_processRoom {M : Type} [AddCancelCommMonoid M] (f : FloorStat → M)
    (c : RoomDoc → M) (equipment : List EquipmentDoc)
    (h0 : f emptyFloorStat = 0)
    (hadd : ∀ b r, f (addRoomToBucket equipment b r) = f b + c r)
    (s : DashboardStats) (r : RoomDoc) :
    ((processRoom equipment s r).floorStats.map (fun p => f p.2)).sum =
      (s.floorStats.map (fun p => f p.2)).sum + c r := by
  rw [processRoom_floorStats]
  cases hg : mapGet s.floorStats r.data.floor with
  | none =>
    have h1 := sum_mapSet f s.floorStats r.data.floor emptyFloorStat
    rw [hg, h0] at h1
    simp only [Option.map_none', Option.getD_none, add_zero] at h1
    have h2 := sum_mapSet f (mapSet s.floorStats r.data.floor emptyFloorStat) r.data.floor
      (addRoomToBucket equipment emptyFloorStat r)
    rw [mapGet_mapSet] at h2
    simp only [if_true, Option.map_some', Option.getD_some, h0, add_zero, hadd, zero_add, h1]
      at h2
    simp only [mapHas, hg, Option.isSome_none, Bool.not_false, if_true, mapGet_mapSet,
      Option.getD_some]
    exact h2
  | some b =>
    have h2 := sum_mapSet f s.floorStats r.data.floor (addRoomToBucket equipment b r)
    rw [hg] at h2
    simp only [Option.map_some', Option.getD_some, hadd] at h2
    simp only [mapHas, hg, Option.isSome_some, Bool.not_true, Bool.false_eq_true, if_false,
      Option.getD_some]
    apply add_right_cancel (b := f b)
    rw [h2]
    abel

theorem sum_foldl_processRoom {M : Type} [AddCancelCommMonoid M] (f : FloorStat → M)
    (c : RoomDoc → M) (equipment : List EquipmentDoc)
    (h0 : f emptyFloorStat = 0)
    (hadd : ∀ b r, f (addRoomToBucket equipment b r) = f b + c r)
    (rooms : List RoomDoc) (s : DashboardStats) :
    (((rooms.foldl (processRoom equipment) s).floorStats).map (fun p => f p.2)).sum =
      (s.floorStats.map (fun p => f p.2)).sum + (rooms.map c).sum := by
  induction rooms generalizing s with
  | nil => simp
  | cons r rooms ih =>
    rw [List.foldl_cons, ih, sum_processRoom f c equipment h0 hadd, List.map_cons,
      List.sum_cons, add_assoc]

theorem mapGet_of_mem_nodup {K V : Type} [DecidableEq K] (m : List (K × V))
    (h : (m.map Prod.fst).Nodup) (p : K × V) (hp : p ∈ m) : mapGet m p.1 = some p.2 := by
  induction m with
  | nil => cases hp
  | cons q m ih =>
    obtain ⟨a, b⟩ := q
    rw [List.map_cons, List.nodup_cons] at h
    rcases List.mem_cons.1 hp with rfl | hm
    · simp [mapGet]
    · have hne : ¬ a = p.1 := by
        intro e
        apply h.1
        rw [e]
        exact List.mem_map.2 ⟨p, hm, rfl⟩
      simp only [mapGet, hne, if_false]
      exact ih h.2 hm

/-- When the counted quantities add up to less than `2^53` in absolute value, the
`totalEquipment` figures of the buckets add up to the sum of the owned quantities of all
rooms. -/
theorem sum_buckets_totalEquipment_exact (rooms : List RoomDoc)
    (equipment : List EquipmentDoc) (h : QuantitiesExact rooms equipment) :
    ((updateDashboardStats rooms equipment).floorStats.map (fun p => p.2.totalEquipment)).sum =
      (rooms.map (ownedQuantity equipment)).sum := by
  have hnd : ((updateDashboardStats rooms equipment).floorStats.map Prod.fst).Nodup :=
    nodup_keys_foldl_processRoom equipment rooms initialStats (by simp [initialStats])
  have hcongr : (updateDashboardStats rooms equipment).floorStats.map
        (fun p => p.2.totalEquipment) =
      (updateDashboardStats rooms equipment).floorStats.map
        (fun p => (p.2.rooms.map (fun x => x.equipment)).sum) := by
    apply List.map_congr_left
    intro p hp
    have hb := mapGet_of_mem_nodup _ hnd p hp
    obtain ⟨h1, h2⟩ := bucket_totalEquipment_exact rooms equipment h p.1 p.2 hb
    rw [h1, h2]
  have hsum := sum_foldl_processRoom (fun b => (b.rooms.map (fun x => x.equipment)).sum)
    (fun r => roomEquipment equipment r.id) equipment (by simp [emptyFloorStat])
    (fun b r => by simp [addRoomToBucket]) rooms initialStats
  rw [hcongr]
  unfold updateDashboardStats
  rw [hsum, map_roomEquipment_eq equipment rooms h]
  simp [initialStats]

/-! ## Dashboard statistics: overall figures and per-floor figures -/

/-- C27 (the claim fails): floor 1 has a room with 9007199254740992 units, floor 2 two rooms
with 1 unit each. Each `+ 1` on the overall total is lost to rounding, so the overall
`totalEquipment` stays 9007199254740992, while the buckets hold 9007199254740992 and 2, whose
sum, also as a JavaScript sum, is 9007199254740994. -/
theorem updateDashboardStats_total_not_sum_of_floors :
    (updateDashboardStats twoFloorRooms twoFloorEquipmentDocs).totalEquipment =
        9007199254740992 ∧
    (updateDashboardStats twoFloorRooms twoFloorEquipmentDocs).floorStats.map
        (fun p => (p.1, p.2.totalEquipment)) =
      [(FloorValue.num 1, 9007199254740992), (FloorValue.num 2, 2)] ∧
    ((updateDashboardStats twoFloorRooms twoFloorEquipmentDocs).floorStats.map
        (fun p => p.2.totalEquipment)).sum = 9007199254740994 ∧
    ((updateDashboardStats twoFloorRooms twoFloorEquipmentDocs).floorStats.map
        (fun p => p.2.totalEquipment)).foldl numberAdd 0 = 9007199254740994 ∧
    (updateDashboardStats twoFloorRooms twoFloorEquipmentDocs).totalEquipment ≠
      ((updateDashboardStats twoFloorRooms twoFloorEquipmentDocs).floorStats.map
        (fun p => p.2.totalEquipment)).sum := by
  decide

/-- C27 (amended): the overall figures of `updateDashboardStats` equal the sums of the
per-floor figures: `totalRooms` and the open maintenance and replacement counts are each the
sum of the corresponding field over all floor buckets, the map holding one bucket per key, and
the maintenance and replacement figure of each bucket is the sum of the corresponding field of
its per-room summaries; when the counted quantities add up, in absolute value, to less than
`2^53`, the same holds for `totalEquipment` and for the equipment figure of each bucket. -/
theorem updateDashboardStats_totals_are_sums (rooms : List RoomDoc)
    (equipment : List EquipmentDoc) :
    ((updateDashboardStats rooms equipment).floorStats.map Prod.fst).Nodup ∧
    (updateDashboardStats rooms equipment).totalRooms =
      ((updateDashboardStats rooms equipment).floorStats.map (fun p => p.2.totalRooms)).sum ∧
    (QuantitiesExact rooms equipment →
      (updateDashboardStats rooms equipment).totalEquipment =
        ((updateDashboardStats rooms equipment).floorStats.map
          (fun p => p.2.totalEquipment)).sum) ∧
    (updateDashboardStats rooms equipment).needMaintenance =
      ((updateDashboardStats rooms equipment).floorStats.map
        (fun p => p.2.needMaintenance)).sum ∧
    (updateDashboardStats rooms equipment).needReplacement =
      ((updateDashboardStats rooms equipment).floorStats.map
        (fun p => p.2.needReplacement)).sum ∧
    (∀ k b, mapGet (updateDashboardStats rooms equipment).floorStats k = some b →
      (QuantitiesExact rooms equipment →
        b.totalEquipment = (b.rooms.map (fun x => x.equipment)).sum) ∧
      b.needMaintenance = (b.rooms.map (fun x => x.maintenance)).sum ∧
      b.needReplacement = (b.rooms.map (fun x => x.replacement)).sum) := by
  obtain ⟨t1, _, t3, t4⟩ := foldl_processRoom_totals equipment rooms initialStats
  have s1 := sum_foldl_processRoom (fun b => b.totalRooms) (fun _ => 1) equipment rfl
    (fun _ _ => rfl) rooms initialStats
  have s3 := sum_foldl_processRoom (fun b => b.needMaintenance)
    (fun r => openCount r.data.maintenance) equipment rfl (fun _ _ => rfl) rooms initialStats
  have s4 := sum_foldl_processRoom (fun b => b.needReplacement)
    (fun r => openCount r.data.replacements) equipment rfl (fun _ _ => rfl) rooms initialStats
  refine ⟨?_, ?_, ?_, ?_, ?_, ?_⟩
  · exact nodup_keys_foldl_processRoom equipment rooms initialStats (by simp [initialStats])
  · unfold updateDashboardStats
    rw [t1, s1]
    simp [initialStats]
  · intro hexact
    rw [totalEquipment_exact rooms equipment hexact,
      sum_buckets_totalEquipment_exact rooms equipment hexact]
  · unfold updateDashboardStats
    rw [t3, s3]
    simp [initialStats]
  · unfold updateDashboardStats
    rw [t4, s4]
    simp [initialStats]
  · intro k b hb
    refine ⟨?_, ?_⟩
    · intro hexact
      obtain ⟨h1, h2⟩ := bucket_totalEquipment_exact rooms equipment hexact k b hb
      rw [h1, h2]
    · obtain ⟨_, rfl⟩ := bucket_of_updateDashboardStats rooms equipment k b hb
      obtain ⟨_, _, h3, h4, h5⟩ :=
        foldl_addRoomToBucket equipment (roomsOnFloor rooms k) emptyFloorStat
      rw [h3, h4, h5]
      simp [emptyFloorStat, Function.comp_def]

/-- C27 at the sample rooms, whose quantities add up to 10: the totals 3 rooms, 10 units, 3
open maintenance records and 1 open replacement record are the sums over the buckets of the
floors 1 and 2, and the 5 units of floor 1 are the sum over its two room summaries. -/
theorem updateDashboardStats_totals_are_sums_witness :
    (sampleRooms.map (ownedMagnitude sampleEquipmentDocs)).sum < 2 ^ 53 ∧
    (updateDashboardStats sampleRooms sampleEquipmentDocs).totalEquipment =
      ((updateDashboardStats sampleRooms sampleEquipmentDocs).floorStats.map
        (fun p => p.2.totalEquipment)).sum ∧
    ((5 : Int) = ([⟨"1-101", "1-101", 3, 1, 0⟩, ⟨"1-102", "1-102", 2, 0, 0⟩].map
        (fun x : RoomSummary => x.equipment)).sum ∧
      (1 : Nat) = ([⟨"1-101", "1-101", 3, 1, 0⟩, ⟨"1-102", "1-102", 2, 0, 0⟩].map
        (fun x : RoomSummary => x.maintenance)).sum ∧
      (0 : Nat) = ([⟨"1-101", "1-101", 3, 1, 0⟩, ⟨"1-102", "1-102", 2, 0, 0⟩].map
        (fun x : RoomSummary => x.replacement)).sum) ∧
    (updateDashboardStats sampleRooms sampleEquipmentDocs).floorStats.map
        (fun p => (p.2.totalRooms, p.2.totalEquipment, p.2.needMaintenance,
          p.2.needReplacement)) = [(2, 5, 1, 0), (1, 5, 2, 1)] :=
  have hexact : QuantitiesExact sampleRooms sampleEquipmentDocs :=
    (by decide : (sampleRooms.map (ownedMagnitude sampleEquipmentDocs)).sum < 2 ^ 53)
  have hbucket := (updateDashboardStats_totals_are_sums sampleRooms sampleEquipmentDocs).2.2.2.2.2
      (FloorValue.num 1)
      ⟨2, 5, 1, 0, [⟨"1-101", "1-101", 3, 1, 0⟩, ⟨"1-102", "1-102", 2, 0, 0⟩]⟩ (by decide)
  ⟨hexact,
   (updateDashboardStats_totals_are_sums sampleRooms sampleEquipmentDocs).2.2.1 hexact,
   ⟨hbucket.1 hexact, hbucket.2.1, hbucket.2.2⟩,
   by decide⟩

/-! ## Lemmas: open counts of record arrays -/

theorem list_split_at {α : Type} (a : List α) (n : Nat) (r : α) (h : a.get? n = some r) :
    a = a.take n ++ r :: a.drop (n + 1) := by
  have hlt : n < a.length := by
    rcases Nat.lt_or_ge n a.length with hlt | hge
    · exact hlt
    · rw [List.get?_eq_none.2 hge] at h
      cases h
  have hr : a[n] = r := by
    rw [List.get?_eq_getElem?, List.getElem?_eq_getElem hlt] at h
    exact Option.some.inj h
  conv_lhs => rw [← List.take_append_drop n a, List.drop_eq_getElem_cons hlt, hr]

theorem countP_at {α : Type} (p : α → Bool) (a : List α) (n : Nat) (r : α)
    (h : a.get? n = some r) :
    a.countP p = (a.take n).countP p + (a.drop (n + 1)).countP p + (if p r then 1 else 0) := by
  conv_lhs => rw [list_split_at a n r h]
  rw [List.countP_append, List.countP_cons]
  omega

theorem countP_set_at {α : Type} (p : α → Bool) (a : List α) (n : Nat) (r x : α)
    (h : a.get? n = some r) :
    (a.set n x).countP p =
      (a.take n).countP p + (a.drop (n + 1)).countP p + (if p x then 1 else 0) := by
  have hlt : n < a.length := by
    rcases Nat.lt_or_ge n a.length with hlt | hge
    · exact hlt
    · rw [List.get?_eq_none.2 hge] at h
      cases h
  rw [List.set_eq_take_append_cons_drop, if_pos hlt, List.countP_append, List.countP_cons]
  omega

theorem countP_eraseIdx_at {α : Type} (p : α → Bool) (a : List α) (n : Nat) :
    (a.eraseIdx n).countP p = (a.take n).countP p + (a.drop (n + 1)).countP p := by
  rw [List.eraseIdx_eq_take_drop_succ, List.countP_append]

theorem openCount_getD (records : Option (List RecordEntry)) :
    openCount records = (records.getD []).countP notResolved := by
  cases records with
  | none => simp [openCount]
  | some l => simp [openCount, List.countP_eq_length_filter]

theorem roomOpenMaintenance_of_getDoc (rooms : List RoomDoc) (roomId : String) (d : RoomDoc)
    (hd : getDoc rooms roomId = some d) :
    roomOpenMaintenance rooms roomId = (d.data.maintenance.getD []).countP notResolved := by
  simp [roomOpenMaintenance, hd, openCount_getD]

theorem roomOpenMaintenance_updateDoc (rooms : List RoomDoc) (roomId : String) (d : RoomDoc)
    (a : List RecordEntry) (hd : getDoc rooms roomId = some d) :
    roomOpenMaintenance (updateDoc rooms roomId (fun x => { x with maintenance := some a }))
      roomId = a.countP notResolved := by
  simp [roomOpenMaintenance, getDoc_updateDoc_same, hd, openCount_getD]

theorem notResolved_eq_false_iff (r : RecordEntry) :
    notResolved r = false ↔ r.resolved = some true := by
  unfold notResolved
  rcases hr : r.resolved with _ | b
  · simp
  · cases b <;> simp

theorem roomOpenReplacement_of_getDoc (rooms : List RoomDoc) (roomId : String) (d : RoomDoc)
    (hd : getDoc rooms roomId = some d) :
    roomOpenReplacement rooms roomId = (d.data.replacements.getD []).countP notResolved := by
  simp [roomOpenReplacement, hd, openCount_getD]

theorem roomOpenReplacement_updateDoc (rooms : List RoomDoc) (roomId : String) (d : RoomDoc)
    (a : List RecordEntry) (hd : getDoc rooms roomId = some d) :
    roomOpenReplacement (updateDoc rooms roomId (fun x => { x with replacements := some a }))
      roomId = a.countP notResolved := by
  simp [roomOpenReplacement, getDoc_updateDoc_same, hd, openCount_getD]

theorem deleteReplacementRecord_valid (rooms : List RoomDoc) (roomId : String) (d : RoomDoc)
    (n : Nat) (hd : getDoc rooms roomId = some d)
    (hn : n < (d.data.replacements.getD []).length) :
    deleteReplacementRecord rooms roomId (n : Int) =
      { rooms := updateDoc rooms roomId (fun x =>
          { x with replacements := some ((d.data.replacements.getD []).eraseIdx n) })
        toast := ⟨"Success", "Replacement record deleted successfully"⟩
        logged := some ("delete", "Deleted replacement record from room " ++ roomId) } := by
  unfold deleteReplacementRecord
  simp only [hd]
  rw [if_neg (by omega), splice_one _ n hn, List.eraseIdx_eq_take_drop_succ]

theorem maintenance_ops_open_count (rooms : List RoomDoc) (roomId : String)
    (d : RoomDoc) (form : RecordForm) (n now : Nat) (r : RecordEntry)
    (hd : getDoc rooms roomId = some d)
    (hr : (d.data.maintenance.getD []).get? n = some r) :
    roomOpenMaintenance (submitNeedsMaintenance rooms roomId form now).rooms roomId =
        roomOpenMaintenance rooms roomId + 1 ∧
    (r.resolved ≠ some true →
      roomOpenMaintenance (resolveMaintenanceRecord rooms roomId (n : Int) now).rooms roomId + 1 =
          roomOpenMaintenance rooms roomId ∧
      roomOpenMaintenance (deleteMaintenanceRecord rooms roomId (n : Int)).rooms roomId + 1 =
          roomOpenMaintenance rooms roomId) ∧
    (r.resolved = some true →
      roomOpenMaintenance (resolveMaintenanceRecord rooms roomId (n : Int) now).rooms roomId =
          roomOpenMaintenance rooms roomId ∧
      roomOpenMaintenance (deleteMaintenanceRecord rooms roomId (n : Int)).rooms roomId =
          roomOpenMaintenance rooms roomId) := by
  have hlt : n < (d.data.maintenance.getD []).length := by
    rcases Nat.lt_or_ge n (d.data.maintenance.getD []).length with hlt | hge
    · exact hlt
    · rw [List.get?_eq_none.2 hge] at hr
      cases hr
  have hbefore := roomOpenMaintenance_of_getDoc rooms roomId d hd
  have hsplit := countP_at notResolved _ n r hr
  have hresolve : roomOpenMaintenance
      (resolveMaintenanceRecord rooms roomId (n : Int) now).rooms roomId =
      ((d.data.maintenance.getD []).take n).countP notResolved +
        ((d.data.maintenance.getD []).drop (n + 1)).countP notResolved := by
    rw [resolveMaintenanceRecord_valid rooms roomId d n now r hd hr]
    simp only [roomOpenMaintenance_updateDoc rooms roomId d _ hd]
    rw [countP_set_at notResolved _ n r _ hr]
    simp [markResolved, notResolved]
  have hdelete : roomOpenMaintenance
      (deleteMaintenanceRecord rooms roomId (n : Int)).rooms roomId =
      ((d.data.maintenance.getD []).take n).countP notResolved +
        ((d.data.maintenance.getD []).drop (n + 1)).countP notResolved := by
    rw [deleteMaintenanceRecord_valid rooms roomId d n hd hlt]
    simp only [roomOpenMaintenance_updateDoc rooms roomId d _ hd]
    exact countP_eraseIdx_at notResolved _ n
  refine ⟨?_, ?_, ?_⟩
  · rw [submitNeedsMaintenance_some rooms roomId d form now hd]
    simp only [roomOpenMaintenance_updateDoc rooms roomId d _ hd]
    rw [hbefore, List.countP_append]
    simp [recordOfForm, notResolved]
  · intro hopen
    have hp : notResolved r = true := by
      cases h : notResolved r with
      | true => rfl
      | false => exact absurd ((notResolved_eq_false_iff r).1 h) hopen
    rw [hresolve, hdelete, hbefore, hsplit, hp]
    simp
  · intro hdone
    have hp : notResolved r = false := (notResolved_eq_false_iff r).2 hdone
    rw [hresolve, hdelete, hbefore, hsplit, hp]
    simp


theorem replacement_ops_open_count (rooms : List RoomDoc) (roomId : String)
    (d : RoomDoc) (form : RecordForm) (n now : Nat) (r : RecordEntry)
    (hd : getDoc rooms roomId = some d)
    (hr : (d.data.replacements.getD []).get? n = some r) :
    roomOpenReplacement (submitNeedsReplacement rooms roomId form now).rooms roomId =
        roomOpenReplacement rooms roomId + 1 ∧
    (r.resolved ≠ some true →
      roomOpenReplacement (resolveReplacementRecord rooms roomId (n : Int) now).rooms roomId + 1 =
          roomOpenReplacement rooms roomId ∧
      roomOpenReplacement (deleteReplacementRecord rooms roomId (n : Int)).rooms roomId + 1 =
          roomOpenReplacement rooms roomId) ∧
    (r.resolved = some true →
      roomOpenReplacement (resolveReplacementRecord rooms roomId (n : Int) now).rooms roomId =
          roomOpenReplacement rooms roomId ∧
      roomOpenReplacement (deleteReplacementRecord rooms roomId (n : Int)).rooms roomId =
          roomOpenReplacement rooms roomId) := by
  have hlt : n < (d.data.replacements.getD []).length := by
    rcases Nat.lt_or_ge n (d.data.replacements.getD []).length with hlt | hge
    · exact hlt
    · rw [List.get?_eq_none.2 hge] at hr
      cases hr
  have hbefore := roomOpenReplacement_of_getDoc rooms roomId d hd
  have hsplit := countP_at notResolved _ n r hr
  have hresolve : roomOpenReplacement
      (resolveReplacementRecord rooms roomId (n : Int) now).rooms roomId =
      ((d.data.replacements.getD []).take n).countP notResolved +
        ((d.data.replacements.getD []).drop (n + 1)).countP notResolved := by
    rw [resolveReplacementRecord_valid rooms roomId d n now r hd hr]
    simp only [roomOpenReplacement_updateDoc rooms roomId d _ hd]
    rw [countP_set_at notResolved _ n r _ hr]
    simp [markResolved, notResolved]
  have hdelete : roomOpenReplacement
      (deleteReplacementRecord rooms roomId (n : Int)).rooms roomId =
      ((d.data.replacements.getD []).take n).countP notResolved +
        ((d.data.replacements.getD []).drop (n + 1)).countP notResolved := by
    rw [deleteReplacementRecord_valid rooms roomId d n hd hlt]
    simp only [roomOpenReplacement_updateDoc rooms roomId d _ hd]
    exact countP_eraseIdx_at notResolved _ n
  refine ⟨?_, ?_, ?_⟩
  · rw [submitNeedsReplacement_some rooms roomId d form now hd]
    simp only [roomOpenReplacement_updateDoc rooms roomId d _ hd]
    rw [hbefore, List.countP_append]
    simp [recordOfForm, notResolved]
  · intro hopen
    have hp : notResolved r = true := by
      cases h : notResolved r with
      | true => rfl
      | false => exact absurd ((notResolved_eq_false_iff r).1 h) hopen
    rw [hresolve, hdelete, hbefore, hsplit, hp]
    simp
  · intro hdone
    have hp : notResolved r = false := (notResolved_eq_false_iff r).2 hdone
    rw [hresolve, hdelete, hbefore, hsplit, hp]
    simp


/-! ## Embedded records and the aggregation -/

/-- C28: the record operations and the aggregation agree, for maintenance and for replacement
records. For every room, appending a record raises the open count that `updateDashboardStats`
computes for the room by exactly one; resolving the record at a valid index lowers it by
exactly one when the record was unresolved and leaves it unchanged when the record was
already resolved; removing the record at a valid index lowers it by one when the record was
unresolved and leaves it unchanged when it was resolved. -/
theorem record_ops_agree_with_open_count (rooms : List RoomDoc) (roomId : String)
    (d : RoomDoc) (form : RecordForm) (n now : Nat) (hd : getDoc rooms roomId = some d) :
    roomOpenMaintenance (submitNeedsMaintenance rooms roomId form now).rooms roomId =
        roomOpenMaintenance rooms roomId + 1 ∧
    roomOpenReplacement (submitNeedsReplacement rooms roomId form now).rooms roomId =
        roomOpenReplacement rooms roomId + 1 ∧
    (∀ r, (d.data.maintenance.getD []).get? n = some r →
      (r.resolved ≠ some true →
        roomOpenMaintenance (resolveMaintenanceRecord rooms roomId (n : Int) now).rooms roomId
            + 1 = roomOpenMaintenance rooms roomId ∧
        roomOpenMaintenance (deleteMaintenanceRecord rooms roomId (n : Int)).rooms roomId
            + 1 = roomOpenMaintenance rooms roomId) ∧
      (r.resolved = some true →
        roomOpenMaintenance (resolveMaintenanceRecord rooms roomId (n : Int) now).rooms roomId =
            roomOpenMaintenance rooms roomId ∧
        roomOpenMaintenance (deleteMaintenanceRecord rooms roomId (n : Int)).rooms roomId =
            roomOpenMaintenance rooms roomId)) ∧
    (∀ r, (d.data.replacements.getD []).get? n = some r →
      (r.resolved ≠ some true →
        roomOpenReplacement (resolveReplacementRecord rooms roomId (n : Int) now).rooms roomId
            + 1 = roomOpenReplacement rooms roomId ∧
        roomOpenReplacement (deleteReplacementRecord rooms roomId (n : Int)).rooms roomId
            + 1 = roomOpenReplacement rooms roomId) ∧
      (r.resolved = some true →
        roomOpenReplacement (resolveReplacementRecord rooms roomId (n : Int) now).rooms roomId =
            roomOpenReplacement rooms roomId ∧
        roomOpenReplacement (deleteReplacementRecord rooms roomId (n : Int)).rooms roomId =
            roomOpenReplacement rooms roomId)) := by
  refine ⟨?_, ?_, ?_, ?_⟩
  · rw [submitNeedsMaintenance_some rooms roomId d form now hd]
    simp only [roomOpenMaintenance_updateDoc rooms roomId d _ hd]
    rw [roomOpenMaintenance_of_getDoc rooms roomId d hd, List.countP_append]
    simp [recordOfForm, notResolved]
  · rw [submitNeedsReplacement_some rooms roomId d form now hd]
    simp only [roomOpenReplacement_updateDoc rooms roomId d _ hd]
    rw [roomOpenReplacement_of_getDoc rooms roomId d hd, List.countP_append]
    simp [recordOfForm, notResolved]
  · intro r hr
    exact (maintenance_ops_open_count rooms roomId d form n now r hd hr).2
  · intro r hr
    exact (replacement_ops_open_count rooms roomId d form n now r hd hr).2

/-- C28 at the sample rooms: room `2-201` has 2 open maintenance records; a report makes it
3, resolving or removing the unresolved record `tv` at index 2 makes it 1, and resolving or
removing the resolved record `pc` at index 1 leaves it at 2. -/
theorem record_ops_agree_with_open_count_witness :
    (roomOpenMaintenance (submitNeedsMaintenance sampleRooms "2-201" (sampleForm "fan") 7).rooms
        "2-201" = roomOpenMaintenance sampleRooms "2-201" + 1) ∧
    roomOpenMaintenance sampleRooms "2-201" = 2 ∧
    roomOpenMaintenance (resolveMaintenanceRecord sampleRooms "2-201" 2 7).rooms "2-201" = 1 ∧
    roomOpenMaintenance (deleteMaintenanceRecord sampleRooms "2-201" 2).rooms "2-201" = 1 ∧
    roomOpenMaintenance (resolveMaintenanceRecord sampleRooms "2-201" 1 7).rooms "2-201" = 2 ∧
    roomOpenMaintenance (deleteMaintenanceRecord sampleRooms "2-201" 1).rooms "2-201" = 2 :=
  ⟨(record_ops_agree_with_open_count sampleRooms "2-201"
      (sampleRoom "2-201" (FloorValue.num 2)
        (some [sampleRecord "desk" none, sampleRecord "pc" (some true),
          sampleRecord "tv" (some false)])
        (some [sampleRecord "chair" (some false)]))
      (sampleForm "fan") 2 7 (by decide)).1,
    by decide, by decide, by decide, by decide, by decide⟩

/-! ## Lemmas: the two kinds of record -/

theorem swapKindsData_swapKindsData (d : RoomData) : swapKindsData (swapKindsData d) = d := by
  cases d
  rfl

theorem swapKinds_swapKinds (rooms : List RoomDoc) : swapKinds (swapKinds rooms) = rooms := by
  unfold swapKinds
  rw [List.map_map]
  conv_rhs => rw [← List.map_id rooms]
  apply List.map_congr_left
  intro d _
  cases d
  simp [swapKindsData_swapKindsData]

theorem getDoc_swapKinds (rooms : List RoomDoc) (roomId : String) :
    getDoc (swapKinds rooms) roomId =
      (getDoc rooms roomId).map (fun d => { d with data := swapKindsData d.data }) := by
  unfold getDoc swapKinds
  induction rooms with
  | nil => simp
  | cons d rooms ih =>
    rw [List.map_cons, List.find?_cons, List.find?_cons, ih]
    by_cases h : d.id = roomId <;> simp [h]

theorem swapKinds_updateDoc_maintenance (rooms : List RoomDoc) (roomId : String)
    (a : List RecordEntry) :
    swapKinds (updateDoc (swapKinds rooms) roomId (fun x => { x with maintenance := some a })) =
      updateDoc rooms roomId (fun x => { x with replacements := some a }) := by
  unfold swapKinds updateDoc
  rw [List.map_map, List.map_map]
  apply List.map_congr_left
  intro d _
  cases d with
  | mk id data =>
    cases data
    by_cases h : id = roomId <;> simp [h, swapKindsData]

theorem map_exceptMaintenance_updateDoc (rooms : List RoomDoc) (roomId : String)
    (a : List RecordEntry) :
    (updateDoc rooms roomId (fun x => { x with maintenance := some a })).map exceptMaintenance =
      rooms.map exceptMaintenance := by
  unfold updateDoc
  rw [List.map_map]
  apply List.map_congr_left
  intro d _
  by_cases h : d.id = roomId <;> simp [h, exceptMaintenance]

theorem map_exceptReplacements_updateDoc (rooms : List RoomDoc) (roomId : String)
    (a : List RecordEntry) :
    (updateDoc rooms roomId (fun x => { x with replacements := some a })).map
        exceptReplacements = rooms.map exceptReplacements := by
  unfold updateDoc
  rw [List.map_map]
  apply List.map_congr_left
  intro d _
  by_cases h : d.id = roomId <;> simp [h, exceptReplacements]

theorem submitNeedsReplacement_eq_swap (rooms : List RoomDoc) (roomId : String)
    (form : RecordForm) (now : Nat) :
    (submitNeedsReplacement rooms roomId form now).rooms =
      swapKinds (submitNeedsMaintenance (swapKinds rooms) roomId form now).rooms := by
  unfold submitNeedsReplacement submitNeedsMaintenance
  rw [getDoc_swapKinds]
  cases hg : getDoc rooms roomId with
  | none => simp [swapKinds_swapKinds]
  | some d =>
    simp only [Option.map_some']
    rw [swapKinds_updateDoc_maintenance]
    rfl

theorem resolveReplacementRecord_eq_swap (rooms : List RoomDoc) (roomId : String) (i : Int)
    (now : Nat) :
    (resolveReplacementRecord rooms roomId i now).rooms =
      swapKinds (resolveMaintenanceRecord (swapKinds rooms) roomId i now).rooms := by
  unfold resolveReplacementRecord resolveMaintenanceRecord
  rw [getDoc_swapKinds]
  cases hg : getDoc rooms roomId with
  | none => simp [swapKinds_swapKinds]
  | some d =>
    simp only [Option.map_some']
    have hsw : (swapKindsData d.data).maintenance = d.data.replacements := rfl
    simp only [hsw]
    by_cases hi : i ≥ ((d.data.replacements.getD []).length : Int)
    · simp only [hi, if_true, swapKinds_swapKinds]
    · simp only [hi, if_false]
      cases hr : arrayGet (d.data.replacements.getD []) i with
      | none => simp only [swapKinds_swapKinds]
      | some r =>
        simp only []
        rw [swapKinds_updateDoc_maintenance]

theorem deleteReplacementRecord_eq_swap (rooms : List RoomDoc) (roomId : String) (i : Int) :
    (deleteReplacementRecord rooms roomId i).rooms =
      swapKinds (deleteMaintenanceRecord (swapKinds rooms) roomId i).rooms := by
  unfold deleteReplacementRecord deleteMaintenanceRecord
  rw [getDoc_swapKinds]
  cases hg : getDoc rooms roomId with
  | none => simp [swapKinds_swapKinds]
  | some d =>
    simp only [Option.map_some']
    have hsw : (swapKindsData d.data).maintenance = d.data.replacements := rfl
    simp only [hsw]
    by_cases hi : i ≥ ((d.data.replacements.getD []).length : Int)
    · simp only [hi, if_true, swapKinds_swapKinds]
    · simp only [hi, if_false]
      rw [swapKinds_updateDoc_maintenance]

theorem maintenance_ops_frame (rooms : List RoomDoc) (roomId : String) (form : RecordForm)
    (i : Int) (now : Nat) :
    (submitNeedsMaintenance rooms roomId form now).rooms.map exceptMaintenance =
        rooms.map exceptMaintenance ∧
    (resolveMaintenanceRecord rooms roomId i now).rooms.map exceptMaintenance =
        rooms.map exceptMaintenance ∧
    (deleteMaintenanceRecord rooms roomId i).rooms.map exceptMaintenance =
        rooms.map exceptMaintenance := by
  refine ⟨?_, ?_, ?_⟩
  · unfold submitNeedsMaintenance
    cases hg : getDoc rooms roomId with
    | none => rfl
    | some d => exact map_exceptMaintenance_updateDoc rooms roomId _
  · unfold resolveMaintenanceRecord
    cases hg : getDoc rooms roomId with
    | none => rfl
    | some d =>
      simp only []
      split
      · rfl
      · split
        · rfl
        · exact map_exceptMaintenance_updateDoc rooms roomId _
  · unfold deleteMaintenanceRecord
    cases hg : getDoc rooms roomId with
    | none => rfl
    | some d =>
      simp only []
      split
      · rfl
      · exact map_exceptMaintenance_updateDoc rooms roomId _

theorem replacement_ops_frame (rooms : List RoomDoc) (roomId : String) (form : RecordForm)
    (i : Int) (now : Nat) :
    (submitNeedsReplacement rooms roomId form now).rooms.map exceptReplacements =
        rooms.map exceptReplacements ∧
    (resolveReplacementRecord rooms roomId i now).rooms.map exceptReplacements =
        rooms.map exceptReplacements ∧
    (deleteReplacementRecord rooms roomId i).rooms.map exceptReplacements =
        rooms.map exceptReplacements := by
  refine ⟨?_, ?_, ?_⟩
  · unfold submitNeedsReplacement
    cases hg : getDoc rooms roomId with
    | none => rfl
    | some d => exact map_exceptReplacements_updateDoc rooms roomId _
  · unfold resolveReplacementRecord
    cases hg : getDoc rooms roomId with
    | none => rfl
    | some d =>
      simp only []
      split
      · rfl
      · split
        · rfl
        · exact map_exceptReplacements_updateDoc rooms roomId _
  · unfold deleteReplacementRecord
    cases hg : getDoc rooms roomId with
    | none => rfl
    | some d =>
      simp only []
      split
      · rfl
      · exact map_exceptReplacements_updateDoc rooms roomId _

/-! ## The two kinds of record -/

/-- C29: maintenance and replacement records share the same mechanics over different arrays.
The replacement append, resolve and remove operations leave the `rooms` collection that their
maintenance counterparts leave when the two arrays of every room are exchanged before and
after; and an operation on one kind leaves every room document as it was except for the array
of that kind: the other array and the fields `floor`, `number`, `name`, `equipment` are
unchanged. -/
theorem record_kinds_share_mechanics (rooms : List RoomDoc) (roomId : String)
    (form : RecordForm) (i : Int) (now : Nat) :
    ((submitNeedsReplacement rooms roomId form now).rooms =
        swapKinds (submitNeedsMaintenance (swapKinds rooms) roomId form now).rooms ∧
      (resolveReplacementRecord rooms roomId i now).rooms =
        swapKinds (resolveMaintenanceRecord (swapKinds rooms) roomId i now).rooms ∧
      (deleteReplacementRecord rooms roomId i).rooms =
        swapKinds (deleteMaintenanceRecord (swapKinds rooms) roomId i).rooms) ∧
    ((submitNeedsMaintenance rooms roomId form now).rooms.map exceptMaintenance =
        rooms.map exceptMaintenance ∧
      (resolveMaintenanceRecord rooms roomId i now).rooms.map exceptMaintenance =
        rooms.map exceptMaintenance ∧
      (deleteMaintenanceRecord rooms roomId i).rooms.map exceptMaintenance =
        rooms.map exceptMaintenance) ∧
    ((submitNeedsReplacement rooms roomId form now).rooms.map exceptReplacements =
        rooms.map exceptReplacements ∧
      (resolveReplacementRecord rooms roomId i now).rooms.map exceptReplacements =
        rooms.map exceptReplacements ∧
      (deleteReplacementRecord rooms roomId i).rooms.map exceptReplacements =
        rooms.map exceptReplacements) :=
  ⟨⟨submitNeedsReplacement_eq_swap rooms roomId form now,
      resolveReplacementRecord_eq_swap rooms roomId i now,
      deleteReplacementRecord_eq_swap rooms roomId i⟩,
    maintenance_ops_frame rooms roomId form i now,
    replacement_ops_frame rooms roomId form i now⟩

end InventoryMPCI
